import Mathlib

/-!
# EPub-InkPlate: obfuscation keys, font de-obfuscation and the TOC store

A shallow embedding of parts of `src/models/epub.cpp` and `src/models/toc.cpp`:
first the definitions, then the theorems.
Bytes (`uint8_t`, `char`) are natural numbers; a `std::string` or a C buffer is
a `List Nat`.  A function whose C original can run into undefined behaviour
returns an `Option`, in which `none` stands for "no defined result"; a loop whose
recursion is not structural carries a bound on the number of its iterations.
-/

namespace EPubInkPlate

/-! ## Bytes and strings -/

/-- The bytes of a string literal, one natural number per character. -/
def bytes (s : String) : List Nat := s.toList.map Char.toNat

/-! ## `EPub::decrypt` (epub.cpp, lines 471-498) -/

/-- The enumeration `EPub::ObfuscationType`. -/
inductive ObfuscationType
  | NONE
  | ADOBE
  | IDPF
  | UNKNOWN
  deriving DecidableEq, Repr

/-- The two key arrays of the `EPub` object: `bin_uuid` (16 bytes) and
`sha_uuid` (20 bytes). -/
structure Keys where
  bin_uuid : List Nat
  sha_uuid : List Nat
  deriving DecidableEq, Repr

/-- The loop `while (length--) { *str++ ^= key[key_idx++]; if (key_idx >= key_size) key_idx = 0; }`
of `EPub::decrypt`.  The first argument is the remaining `length`, the second the
current `key_idx`, the last the bytes from `str` on.  A buffer that ends before
`length` is used up stops the loop (the caller passes the size of the buffer). -/
def decrypt_loop (key : List Nat) (key_size : Nat) : Nat → Nat → List Nat → List Nat
  | 0, _, str => str
  | _ + 1, _, [] => []
  | length + 1, key_idx, b :: str =>
      (b ^^^ key.getD key_idx 0) ::
        decrypt_loop key key_size length
          (if key_idx + 1 ≥ key_size then 0 else key_idx + 1) str

/-- The function `EPub::decrypt(buffer, size, obf_type)`: returns the buffer after the call. -/
def decrypt (k : Keys) (buffer : List Nat) (size : Nat) (obf_type : ObfuscationType) :
    List Nat :=
  match obf_type with
  | ObfuscationType.ADOBE =>
      let decrypt_length := 1024
      let length := if size > decrypt_length then decrypt_length else size
      decrypt_loop k.bin_uuid 16 length 0 buffer
  | ObfuscationType.IDPF =>
      let decrypt_length := 1040
      let length := if size > decrypt_length then decrypt_length else size
      decrypt_loop k.sha_uuid 20 length 0 buffer
  | _ => buffer

/-- The reference definition of de-obfuscation, written from the specification:
with `(L, k, key)` the length, key size and key of the kind, byte `i` becomes
`buffer[i] XOR key[i mod k]` when `i < min(size, L)` and is unchanged otherwise;
kinds `NONE` and `UNKNOWN` change nothing. -/
def decrypt_reference (k : Keys) (buffer : List Nat) (size : Nat)
    (obf_type : ObfuscationType) : List Nat :=
  match obf_type with
  | ObfuscationType.ADOBE =>
      buffer.enum.map fun p =>
        if p.1 < min size 1024 then p.2 ^^^ k.bin_uuid.getD (p.1 % 16) 0 else p.2
  | ObfuscationType.IDPF =>
      buffer.enum.map fun p =>
        if p.1 < min size 1040 then p.2 ^^^ k.sha_uuid.getD (p.1 % 20) 0 else p.2
  | ObfuscationType.NONE => buffer
  | ObfuscationType.UNKNOWN => buffer

/-! ## Key derivation: `hex_to_bin`, `valid_hex`, `to_bin`, `EPub::get_keys`
(epub.cpp, lines 283-363) -/

/-- The function `hex_to_bin(char ch)`. -/
def hex_to_bin (ch : Nat) : Nat :=
  if ch ≥ 48 ∧ ch ≤ 57 then ch - 48
  else if ch ≥ 65 ∧ ch ≤ 70 then ch - 65 + 10
  else if ch ≥ 97 ∧ ch ≤ 102 then ch - 97 + 10
  else 0

/-- The function `valid_hex(char ch)`. -/
def valid_hex (ch : Nat) : Bool :=
  (decide (ch ≥ 48) && decide (ch ≤ 57)) ||
  (decide (ch ≥ 65) && decide (ch ≤ 70)) ||
  (decide (ch ≥ 97) && decide (ch ≤ 102))

/-- The function `to_bin(from, to)`, with `from = &str[i]`: `some b` when it returns
true and has stored `b` in `*to`, `none` when it returns false.  Reading one past the
end of a C string reads the terminating 0. -/
def to_bin (str : List Nat) (i : Nat) : Option Nat :=
  if valid_hex (str.getD i 0) && valid_hex (str.getD (i + 1) 0) then
    some (((hex_to_bin (str.getD i 0) <<< 4) + hex_to_bin (str.getD (i + 1) 0)) % 256)
  else none

/-- The table `idxs` of `EPub::get_keys`. -/
def idxs : List Nat := [0, 2, 4, 6, 9, 11, 14, 16, 19, 21, 24, 26, 28, 30, 32, 34]

/-- The loop `for (idx = 0; idx < 16; idx++) if (!to_bin(&str[pos + idxs[idx]], &bin_uuid[idx])) return false;`
over the rest of the table, from index `idx` on: the flag is false when the function
returns false from inside the loop; the array holds the bytes written so far. -/
def get_keys_loop (str : List Nat) (pos : Nat) : List Nat → Nat → List Nat → Bool × List Nat
  | [], _, bin_uuid => (true, bin_uuid)
  | i :: rest, idx, bin_uuid =>
      match to_bin str (pos + i) with
      | some b => get_keys_loop str pos rest (idx + 1) (bin_uuid.set idx b)
      | none => (false, bin_uuid)

/-- The C function `isspace` in the "C" locale. -/
def isspace (ch : Nat) : Bool := decide (ch = 32) || (decide (9 ≤ ch) && decide (ch ≤ 13))

/-- The first part of `EPub::get_keys()`: the choice of `pos`, the "basic validity
checks" and the conversion loop.  The flag is false when the function returns false
from inside the loop; the list is `bin_uuid` afterwards. -/
def get_keys_convert (unique_id : List Nat) (bin_uuid : List Nat) : Bool × List Nat :=
  let pos := if unique_id.take 9 = bytes "urn:uuid:" then 9 else 0
  if unique_id.length = pos + 36 ∧
      unique_id.getD (pos + 8) 0 = 45 ∧
      unique_id.getD (pos + 13) 0 = 45 ∧
      unique_id.getD (pos + 18) 0 = 45 ∧
      unique_id.getD (pos + 23) 0 = 45 then
    get_keys_loop unique_id pos idxs 0 bin_uuid
  else (true, bin_uuid)

/-- The body of `EPub::get_keys()` after `unique_id = get_unique_identifier()`:
the returned flag and the two keys after the call.  The digest function `sha1`
(mbedtls or OpenSSL) is a parameter. -/
def get_keys (sha1 : List Nat → List Nat) (k : Keys) (unique_id : List Nat) : Bool × Keys :=
  if unique_id.isEmpty then (false, k)
  else
    let r := get_keys_convert unique_id k.bin_uuid
    if r.1 then
      (true, { bin_uuid := r.2, sha_uuid := sha1 (unique_id.filter fun c => !isspace c) })
    else (false, { k with bin_uuid := r.2 })

/-- The offset `pos` that `EPub::get_keys` computes: 9 after the tag `urn:uuid:`, else 0. -/
def uuid_pos (unique_id : List Nat) : Nat :=
  if unique_id.take 9 = bytes "urn:uuid:" then 9 else 0

/-- The "basic validity checks" of `EPub::get_keys`: the identifier has 36 characters
after `pos`, with `-` at positions 8, 13, 18 and 23. -/
def uuid_frame (unique_id : List Nat) : Prop :=
  unique_id.length = uuid_pos unique_id + 36 ∧
  unique_id.getD (uuid_pos unique_id + 8) 0 = 45 ∧
  unique_id.getD (uuid_pos unique_id + 13) 0 = 45 ∧
  unique_id.getD (uuid_pos unique_id + 18) 0 = 45 ∧
  unique_id.getD (uuid_pos unique_id + 23) 0 = 45

instance (unique_id : List Nat) : Decidable (uuid_frame unique_id) := by
  unfold uuid_frame; infer_instance

/-- Every digit pair that the table `idxs` names converts: both characters are
hexadecimal digits. -/
def uuid_digits_valid (unique_id : List Nat) : Prop :=
  ∀ i ∈ idxs, (to_bin unique_id (uuid_pos unique_id + i)).isSome = true

instance (unique_id : List Nat) : Decidable (uuid_digits_valid unique_id) := by
  unfold uuid_digits_valid; infer_instance

/-- The 36-character UUID shape of the specification: 8-4-4-4-12 hexadecimal digits
of either case, with `-` at positions 8, 13, 18 and 23. -/
def uuid_shape (u : List Nat) : Prop :=
  u.length = 36 ∧
    ∀ i, i < 36 →
      if i = 8 ∨ i = 13 ∨ i = 18 ∨ i = 23 then u.getD i 0 = 45
      else valid_hex (u.getD i 0) = true

instance (u : List Nat) : Decidable (uuid_shape u) := by
  unfold uuid_shape; infer_instance

/-- The value of a hexadecimal digit, written from the specification: the position
of the digit, taken in lower case, in `0123456789abcdef`. -/
def hex_digit_value (ch : Nat) : Nat :=
  (bytes "0123456789abcdef").indexOf (if 65 ≤ ch ∧ ch ≤ 90 then ch + 32 else ch)

/-- Bytes from hexadecimal digits, two digits per byte, most significant first. -/
def hex_pairs : List Nat → List Nat
  | a :: b :: rest => (16 * hex_digit_value a + hex_digit_value b) :: hex_pairs rest
  | _ => []

/-- The 16-byte key of a UUID, written from the specification: its 32 hexadecimal
digits read in order, two digits per byte. -/
def uuid_key (u : List Nat) : List Nat := hex_pairs (u.filter fun c => c ≠ 45)

/-! ## The XML tree (pugixml) and `EPub::get_unique_identifier` (epub.cpp, lines 267-281) -/

/-- A node of a parsed document: an element with its name, attributes (name and
value, in document order) and children, or a text node (PCDATA or CDATA) with its
value.  The document node itself is an element with the empty name, as
`xml_node::name()` reports it.  A null node handle is `none`. -/
inductive xml_node
  | element (name : List Nat) (attributes : List (List Nat × List Nat))
      (children : List xml_node)
  | pcdata (value : List Nat)

namespace xml_node

/-- The name `xml_node::name()`: empty for a node without a name. -/
def name : xml_node → List Nat
  | element n _ _ => n
  | pcdata _ => []

/-- The attributes of a node. -/
def attributes : xml_node → List (List Nat × List Nat)
  | element _ a _ => a
  | pcdata _ => []

/-- The children of a node. -/
def children : xml_node → List xml_node
  | element _ _ c => c
  | pcdata _ => []

/-- The value of `node.attribute(name).value()`: the value of the first attribute of
that name, the empty string when there is none. -/
def attribute_value (n : xml_node) (attr_name : List Nat) : List Nat :=
  match n.attributes.find? (fun a => decide (a.1 = attr_name)) with
  | some a => a.2
  | none => []

/-- The call `node.find_child(pred)`: the first child for which `pred` holds. -/
def find_child (n : xml_node) (pred : xml_node → Bool) : Option xml_node :=
  n.children.find? pred

/-- The call `node.find_child_by_attribute(name, attr_name, attr_value)`: the first
child element of that name with an attribute `attr_name` whose value is `attr_value`. -/
def find_child_by_attribute (n : xml_node) (name_ attr_name attr_value : List Nat) :
    Option xml_node :=
  n.children.find? fun c =>
    match c with
    | element cn attrs _ =>
        decide (cn = name_) &&
          attrs.any (fun a => decide (a.1 = attr_name) && decide (a.2 = attr_value))
    | pcdata _ => false

/-- The call `node.text().get()`: the value of the node when it is a text node,
otherwise the value of its first text child, the empty string when there is none. -/
def text_get : xml_node → List Nat
  | pcdata v => v
  | element _ _ c =>
      match c.find? (fun x => match x with | pcdata _ => true | element _ _ _ => false) with
      | some (pcdata v) => v
      | _ => []

end xml_node

/-- The function `package_pred`. -/
def package_pred (node : xml_node) : Bool :=
  decide (node.name = bytes "package") || decide (node.name = bytes "opf:package")

/-- The function `metadata_pred`. -/
def metadata_pred (node : xml_node) : Bool :=
  decide (node.name = bytes "metadata") || decide (node.name = bytes "opf:metadata")

/-- The function `EPub::get_unique_identifier()`, on the parsed package document `opf`. -/
def get_unique_identifier (opf : xml_node) : List Nat :=
  match opf.find_child package_pred with
  | none => []
  | some node =>
      let id := node.attribute_value (bytes "unique-identifier")
      match node.find_child metadata_pred with
      | none => []
      | some node2 =>
          if (node2.find_child_by_attribute (bytes "dc:identifier") (bytes "id") id).isSome then
            node2.text_get
          else []

/-- The function `EPub::get_keys()` on the parsed package document. -/
def get_keys_opf (sha1 : List Nat → List Nat) (k : Keys) (opf : xml_node) : Bool × Keys :=
  get_keys sha1 k (get_unique_identifier opf)

/-- A package document that declares `unique-identifier="BookId"` and whose metadata
holds `<dc:identifier id="BookId">urn:uuid:01234567-89ab-cdef-ABCD-EF0123456789</dc:identifier>`
after a `dc:title` element. -/
def opf_example : xml_node :=
  xml_node.element [] []
    [xml_node.element (bytes "package")
      [(bytes "version", bytes "2.0"), (bytes "unique-identifier", bytes "BookId")]
      [xml_node.element (bytes "metadata") []
        [xml_node.element (bytes "dc:title") [] [xml_node.pcdata (bytes "A Book")],
         xml_node.element (bytes "dc:identifier") [(bytes "id", bytes "BookId")]
           [xml_node.pcdata (bytes "urn:uuid:01234567-89ab-cdef-ABCD-EF0123456789")]],
       xml_node.element (bytes "manifest") [] [],
       xml_node.element (bytes "spine") [] []]]

/-! ## The table of contents: `TOC` (toc.cpp) -/

/-- The pair `PageLocs::PageId`: `itemref_index` (`int16_t`) and `offset` (`int32_t`). -/
structure PageId where
  itemref_index : Int
  offset : Int
  deriving DecidableEq, Repr

/-- The `char *` label of a resident entry.  `pool s` points to a string that
`CharPool::allocate` handed out and that holds the bytes `s`; `buffer off` is the
pointer `char_buffer + off`; `null` is `nullptr`. -/
inductive Label
  | null
  | pool (s : List Nat)
  | buffer (off : Nat)
  deriving DecidableEq, Repr

/-- The struct `TOC::EntryRecord` of a resident entry. -/
structure EntryRecord where
  label : Label
  page_id : PageId
  level : Nat
  deriving DecidableEq, Repr

/-- The struct `TOC::Info` of the fragment index `infos`. -/
structure Info where
  filename : List Nat
  item_index : Int
  entries_index : Nat
  deriving DecidableEq, Repr

/-- A record of the store.  A record is kept as the struct that was written: a
`VersionRecord`, the bytes of the string block, or an `EntryRecord` whose label
field holds a byte offset. -/
inductive Record
  | version (app_name : List Nat) (version : Nat)
  | chars (data : List Nat)
  | entry (label : Nat) (page_id : PageId) (level : Nat)
  deriving DecidableEq, Repr

/-- The constants and types of `toc.hpp`, which is not among the sources: the tag
`TOC_NAME`, the number `TOC_DB_VERSION`, the two `sizeof` values and the value that
`entries.resize(count)` gives to a new element. -/
structure TocParams where
  TOC_NAME : List Nat
  TOC_DB_VERSION : Nat
  sizeof_VersionRecord : Nat
  sizeof_EntryRecord : Nat
  blank_entry : EntryRecord
  deriving Repr

/-- The string that a `char *` to the bytes `s` denotes: the bytes before the first 0. -/
def c_str (s : List Nat) : List Nat := s.takeWhile fun c => c ≠ 0

/-- Modelled from the spec: the record store `SimpleDB` behind `TOC::db`, whose
source is missing; the specification describes it as sequential records that are
opened, listed and read in order.  Field `present` says whether the store of the
current book exists, `record_count` is the count that the store reports, `records`
are the records that can be read, in order, `quota` is the number of further records
that the medium accepts, `can_create` says whether the store can be created, and
`current` is the position of the cursor. -/
structure SimpleDB where
  present : Bool
  record_count : Nat
  records : List Record
  quota : Nat
  can_create : Bool
  is_open : Bool
  current : Nat
  deriving DecidableEq, Repr

namespace SimpleDB

/-- Modelled from the spec: `SimpleDB::open` succeeds when the store exists and puts
the cursor on the first record. -/
def open_ (db : SimpleDB) : Bool × SimpleDB :=
  if db.present then (true, { db with is_open := true, current := 0 }) else (false, db)

/-- Modelled from the spec: `SimpleDB::create` makes an empty store, when the medium
allows it. -/
def create (db : SimpleDB) : Bool × SimpleDB :=
  if db.can_create then
    (true, { db with present := true, record_count := 0, records := [], is_open := true,
                     current := 0 })
  else (false, db)

/-- Modelled from the spec: `SimpleDB::close`. -/
def close (db : SimpleDB) : SimpleDB := { db with is_open := false }

/-- Modelled from the spec: `SimpleDB::add_record` appends one record and fails when
the medium accepts no further record. -/
def add_record (db : SimpleDB) (r : Record) : Bool × SimpleDB :=
  if db.quota = 0 then (false, db)
  else (true, { db with records := db.records ++ [r], record_count := db.record_count + 1,
                        quota := db.quota - 1 })

/-- Modelled from the spec: `SimpleDB::get_record_count`, the count the store reports. -/
def get_record_count (db : SimpleDB) : Nat := db.record_count

/-- Modelled from the spec: `SimpleDB::goto_first` puts the cursor on the first record. -/
def goto_first (db : SimpleDB) : Bool × SimpleDB :=
  (decide (0 < db.records.length), { db with current := 0 })

/-- Modelled from the spec: `SimpleDB::goto_next` moves the cursor to the next record
and fails when there is no further record to read. -/
def goto_next (db : SimpleDB) : Bool × SimpleDB :=
  if db.current + 1 < db.records.length then (true, { db with current := db.current + 1 })
  else (false, db)

/-- Modelled from the spec: `SimpleDB::get_record` reads the record under the cursor
and fails when there is none. -/
def get_record (db : SimpleDB) : Option Record := db.records.get? db.current

/-- Modelled from the spec: `SimpleDB::get_record_size`, the size in bytes of the
record under the cursor (0 when there is none). -/
def get_record_size (p : TocParams) (db : SimpleDB) : Nat :=
  match db.records.get? db.current with
  | some (Record.version _ _) => p.sizeof_VersionRecord
  | some (Record.chars data) => data.length
  | some (Record.entry _ _ _) => p.sizeof_EntryRecord
  | none => 0

end SimpleDB

/-- The data members of `TOC` that the operations below use.  `char_buffer` is `none`
for `nullptr` and otherwise holds the bytes of the block; `char_pool` says whether
the arena exists; `infos` is the map from fragment id to `Info`. -/
structure TOC where
  entries : List EntryRecord
  char_buffer : Option (List Nat)
  char_buffer_size : Nat
  char_pool : Bool
  infos : List (List Nat × Info)
  ready : Bool
  compacted : Bool
  saved : Bool
  some_ids : Bool
  deriving DecidableEq, Repr

/-- The function `TOC::clean()`. -/
def clean (t : TOC) : TOC :=
  { t with char_pool := false, char_buffer := none, infos := [], entries := [],
           ready := false, compacted := false, saved := false, some_ids := false }

/-- The version check at the start of `TOC::load()` (lines 30-42): the value of
`version_ok` and the store with its cursor moved.  A first record of the right size
that is not a `VersionRecord` has no defined result. -/
def load_version_ok (p : TocParams) (db : SimpleDB) : Option (Bool × SimpleDB) :=
  if db.get_record_count > 0 then
    let db := db.goto_first.2
    if db.get_record_size p = p.sizeof_VersionRecord then
      match db.get_record with
      | some (Record.version app_name version) =>
          some (decide (version = p.TOC_DB_VERSION) &&
                decide (c_str app_name = c_str p.TOC_NAME), db)
      | _ => none
    else some (false, db)
  else some (false, db)

/-- The loop `while ((idx < count) && db.goto_next()) { ... }` of `TOC::load()`
(lines 58-62); the first argument bounds the number of iterations.  The result is
the final `idx`, the entries and the store.  A record that is not an `EntryRecord`
has no defined result. -/
def load_loop (count : Nat) :
    Nat → Nat → List EntryRecord → SimpleDB → Option (Nat × List EntryRecord × SimpleDB)
  | 0, _, _, _ => none
  | fuel + 1, idx, entries, db =>
      if idx < count then
        match db.goto_next with
        | (false, db) => some (idx, entries, db)
        | (true, db) =>
            match db.get_record with
            | none => some (idx, entries, db)
            | some (Record.entry label page_id level) =>
                load_loop count fuel (idx + 1)
                  (entries.set idx ⟨Label.buffer label, page_id, level⟩) db
            | some _ => none
      else some (idx, entries, db)

/-- The value of `uint16_t count = db.get_record_count() - 2`. -/
def load_count (db : SimpleDB) : Nat := (((db.get_record_count : Int) - 2).emod 65536).toNat

/-- The function `TOC::load()`: the returned flag, the TOC and the store after the
call.  `alloc_ok` says whether `allocate` returns a buffer; reading the record into
a null buffer has no defined result. -/
def load (p : TocParams) (alloc_ok : Bool) (t : TOC) (db : SimpleDB) :
    Option (Bool × TOC × SimpleDB) :=
  let t := clean t
  match db.open_ with
  | (false, db) => some (false, t, db)
  | (true, db) =>
    match load_version_ok p db with
    | none => none
    | some (false, db) => some (false, t, db.close)
    | some (true, db) =>
      match db.goto_next with
      | (false, db) => some (t.ready, t, db.close)
      | (true, db) =>
        let t := { t with char_buffer_size := db.get_record_size p }
        if t.char_buffer_size > 0 then
          if alloc_ok then
            match db.get_record with
            | some (Record.chars data) =>
                let t := { t with char_buffer := some data }
                let count := load_count db
                let t := { t with entries := List.replicate count p.blank_entry }
                match load_loop count (count + 1) 0 t.entries db with
                | none => none
                | some (idx, entries, db) =>
                    let t := { t with entries := entries }
                    let t := if idx ≠ count then t
                             else { t with ready := true, compacted := true, saved := true }
                    some (t.ready, t, db.close)
            | some _ => none
            | none => some (t.ready, t, db.close)
          else none
        else some (t.ready, t, db.close)

/-- The string that `strlen` and `strcpy` read through a label inside
`TOC::compact()`, after `char_buffer` has been freed: defined for a label in the
arena only. -/
def pool_text : Label → Option (List Nat)
  | Label.pool s => some (c_str s)
  | _ => none

/-- The first loop of `TOC::compact()`: `char_buffer_size += strlen(e.label) + 1`. -/
def compact_size : List EntryRecord → Option Nat
  | [] => some 0
  | e :: rest =>
      match pool_text e.label, compact_size rest with
      | some s, some n => some (s.length + 1 + n)
      | _, _ => none

/-- The second loop of `TOC::compact()`, from the position `buff` on: the entries
with their labels moved into the block, and the bytes written from `buff` on. -/
def compact_copy : List EntryRecord → Nat → Option (List EntryRecord × List Nat)
  | [], _ => some ([], [])
  | e :: rest, buff =>
      match pool_text e.label with
      | none => none
      | some s =>
          match compact_copy rest (buff + (s.length + 1)) with
          | none => none
          | some (es, block) => some ({ e with label := Label.buffer buff } :: es, s ++ 0 :: block)

/-- The function `TOC::compact()`: the returned flag and the TOC after the call. -/
def compact (alloc_ok : Bool) (t : TOC) : Option (Bool × TOC) :=
  if t.compacted then some (true, t)
  else
    match compact_size t.entries with
    | none => none
    | some size =>
      let t := { t with char_buffer_size := size }
      if !alloc_ok then some (false, { t with char_buffer := none })
      else
        match compact_copy t.entries 0 with
        | none => none
        | some (es, block) =>
            some (true, { t with entries := es, char_buffer := some block, char_pool := false,
                                 infos := [], compacted := true })

/-- The loop `for (idx = 0; idx < entries.size(); idx++) { ... }` of `TOC::save()`
(lines 108-115), with `idx` a `uint16_t`; the first argument bounds the number of
iterations.  The result is the final `idx` and the store.  A label outside
`char_buffer` has no defined offset. -/
def save_loop (entries : List EntryRecord) : Nat → Nat → SimpleDB → Option (Nat × SimpleDB)
  | 0, _, _ => none
  | fuel + 1, idx, db =>
      if idx < entries.length then
        match entries.get? idx with
        | some ⟨Label.buffer off, page_id, level⟩ =>
            match db.add_record (Record.entry off page_id level) with
            | (false, db) => some (idx, db)
            | (true, db) => save_loop entries fuel ((idx + 1) % 65536) db
        | _ => none
      else some (idx, db)

/-- The function `TOC::save()`: the returned flag, the TOC and the store after the
call.  `alloc_ok` says whether `allocate` returns a buffer inside `compact()`. -/
def save (p : TocParams) (alloc_ok : Bool) (t : TOC) (db : SimpleDB) :
    Option (Bool × TOC × SimpleDB) :=
  if t.saved then some (true, t, db)
  else
    match compact alloc_ok t with
    | none => none
    | some (false, t) => some (false, t, db)
    | some (true, t) =>
      match db.create with
      | (false, db) => some (t.saved, t, db.close)
      | (true, db) =>
        match db.add_record (Record.version p.TOC_NAME p.TOC_DB_VERSION) with
        | (false, db) => some (t.saved, t, db.close)
        | (true, db) =>
          match t.char_buffer with
          | none => none
          | some block =>
            if t.char_buffer_size ≠ block.length then none
            else
              match db.add_record (Record.chars block) with
              | (false, db) => some (t.saved, t, db.close)
              | (true, db) =>
                match save_loop t.entries (db.quota + 1) 0 db with
                | none => none
                | some (idx, db) =>
                    let ok := decide (idx = t.entries.length)
                    let t := { t with ready := ok, saved := ok }
                    some (t.saved, t, db.close)

/-- The 16-bit signed value of an integer (`int16_t`). -/
def wrap_int16 (i : Int) : Int := (i + 32768).emod 65536 - 32768

/-- The loop of `TOC::set(int32_t)`: `idx++` for each entry, leaving the loop at the
first entry whose `itemref_index` is the current one.  The result is the final `idx`. -/
def set_loop (itemref_index : Int) : List EntryRecord → Int → Int
  | [], idx => idx
  | e :: rest, idx =>
      let idx := wrap_int16 (idx + 1)
      if e.page_id.itemref_index = itemref_index then idx else set_loop itemref_index rest idx

/-- The function `TOC::set(int32_t current_offset)`; `itemref_index` is the value of
`page_locs.get_current_itemref_index()`. -/
def set_offset (itemref_index : Int) (current_offset : Int) (t : TOC) : TOC :=
  let idx := set_loop itemref_index t.entries (-1)
  if idx ≥ 0 ∧ idx < t.entries.length then
    match t.entries.get? idx.toNat with
    | some e =>
        { t with entries := t.entries.set idx.toNat
                   { e with page_id := { e.page_id with offset := current_offset } } }
    | none => t
  else t

/-- The function `TOC::set(std::string & id, int32_t current_offset)`; `itemref_index`
is the value of `page_locs.get_current_itemref_index()`.  An `entries_index` outside
the entry list has no defined result. -/
def set_id (itemref_index : Int) (id : List Nat) (current_offset : Int) (t : TOC) :
    Option TOC :=
  match t.infos.find? (fun kv => decide (kv.1 = id)) with
  | some (_, info) =>
      match t.entries.get? info.entries_index with
      | some e =>
          some { t with entries := t.entries.set info.entries_index
                          { e with page_id := ⟨itemref_index, current_offset⟩ } }
      | none => none
  | none => some t

/-- The string at a label pointer, given the content of `char_buffer`: undefined
(`none`) for a null pointer and for a pointer into `char_buffer` with no 0 byte from
it on. -/
def label_text (char_buffer : Option (List Nat)) : Label → Option (List Nat)
  | Label.null => none
  | Label.pool s => some (c_str s)
  | Label.buffer off =>
      match char_buffer with
      | some block => if 0 ∈ block.drop off then some (c_str (block.drop off)) else none
      | none => none

/-- The label text, spine index, offset and level of a resident entry, the four
values that `show()` prints and that the specification enumerates. -/
def entry_view (t : TOC) (e : EntryRecord) : Option (List Nat) × Int × Int × Nat :=
  (label_text t.char_buffer e.label, e.page_id.itemref_index, e.page_id.offset, e.level)

/-- The views of entries with the label texts `texts` and the page ids and levels `pls`. -/
def views_of (texts : List (List Nat)) (pls : List (PageId × Nat)) :
    List (Option (List Nat) × Int × Int × Nat) :=
  List.zipWith (fun s pl => (some s, pl.1.itemref_index, pl.1.offset, pl.2)) texts pls

/-- The record that `TOC::save()` writes for an entry with label offset, page id and level. -/
def stored_record (r : Nat × PageId × Nat) : Record := Record.entry r.1 r.2.1 r.2.2

/-- The resident entry that `TOC::load()` makes of an entry record: the stored offset
becomes the pointer `char_buffer + offset`. -/
def resident_entry (r : Nat × PageId × Nat) : EntryRecord := ⟨Label.buffer r.1, r.2.1, r.2.2⟩

/-- The string block of the specification for the labels `texts`: all labels back to
back, in order, each followed by one 0 byte. -/
def string_block : List (List Nat) → List Nat
  | [] => []
  | s :: rest => s ++ 0 :: string_block rest

/-- The byte offsets of the labels `texts` in a block in which the first label starts
at offset `b`: each label starts where the previous one ended, after its 0 byte. -/
def label_offsets : Nat → List (List Nat) → List Nat
  | _, [] => []
  | b, s :: rest => b :: label_offsets (b + (s.length + 1)) rest

/-- The compacted form of a TOC whose labels are `texts`: `char_buffer` is the string
block of the labels and the label of entry `i` points to the start of label `i` in it. -/
def compact_form (t : TOC) (texts : List (List Nat)) : Prop :=
  (∀ s ∈ texts, 0 ∉ s) ∧
  t.char_buffer = some (string_block texts) ∧
  t.char_buffer_size = (string_block texts).length ∧
  t.entries.map (fun e => e.label) = (label_offsets 0 texts).map Label.buffer

/-- The labels of the entries of `t` are the strings `texts`, in one of the two forms
the specification names: live, every label a string of the arena and the TOC not
compacted, or compacted. -/
def labels_are (t : TOC) (texts : List (List Nat)) : Prop :=
  (t.compacted = false ∧ t.entries.map (fun e => pool_text e.label) = texts.map some) ∨
  (t.compacted = true ∧ compact_form t texts)

/-- The entry record that `TOC::save()` writes for a resident entry of a compacted
TOC (offset 0 stands in for a label that does not point into `char_buffer`). -/
def entry_record (e : EntryRecord) : Record :=
  Record.entry (match e.label with | Label.buffer off => off | _ => 0) e.page_id e.level

/-- Example values for `toc.hpp`: tag `EPUB-TOC`, version 1, record sizes 34 and 16,
and a zero-filled new element. -/
def params_example : TocParams :=
  ⟨bytes "EPUB-TOC", 1, 34, 16, ⟨Label.null, ⟨0, 0⟩, 0⟩⟩

/-- A TOC as `load_from_epub` leaves it: entry `Intro` for the whole of document 0 and
entry `One` for a fragment of document 1, whose offset is not yet known. -/
def toc_example : TOC :=
  ⟨[⟨Label.pool (bytes "Intro"), ⟨0, 0⟩, 0⟩, ⟨Label.pool (bytes "One"), ⟨1, -1⟩, 1⟩],
    none, 0, true, [(bytes "frag", ⟨bytes "one.xhtml", 1, 1⟩)], false, false, false, true⟩

/-- A medium without a store for the current book, with room for 100 records. -/
def db_example : SimpleDB := ⟨false, 0, [], 100, true, false, 0⟩

/-- A store whose count says four records while only three can be read. -/
def db_short_example : SimpleDB :=
  ⟨true, 4,
    [Record.version (bytes "EPUB-TOC") 1, Record.chars (bytes "Intro" ++ [0] ++ bytes "One" ++ [0]),
     Record.entry 0 ⟨0, 0⟩ 0],
    100, true, false, 0⟩

/-- The TOC of the example after its first `save()`. -/
def toc_saved_example : TOC :=
  ⟨[⟨Label.buffer 0, ⟨0, 0⟩, 0⟩, ⟨Label.buffer 6, ⟨1, -1⟩, 1⟩],
    some (bytes "Intro" ++ [0] ++ bytes "One" ++ [0]), 10, false, [], true, true, true, true⟩

/-- The store of the example after the first `save()`. -/
def db_saved_example : SimpleDB :=
  ⟨true, 4,
    [Record.version (bytes "EPUB-TOC") 1, Record.chars (bytes "Intro" ++ [0] ++ bytes "One" ++ [0]),
     Record.entry 0 ⟨0, 0⟩ 0, Record.entry 6 ⟨1, -1⟩ 1],
    96, true, false, 0⟩

/-- The TOC after `load()` on the store with the short read. -/
def toc_short_example : TOC :=
  ⟨[⟨Label.buffer 0, ⟨0, 0⟩, 0⟩, ⟨Label.null, ⟨0, 0⟩, 0⟩],
    some (bytes "Intro" ++ [0] ++ bytes "One" ++ [0]), 10, false, [], false, false, false, false⟩

/-- The TOC after `load()` on the store of the example. -/
def toc_loaded_example : TOC :=
  ⟨[⟨Label.buffer 0, ⟨0, 0⟩, 0⟩, ⟨Label.buffer 6, ⟨1, -1⟩, 1⟩],
    some (bytes "Intro" ++ [0] ++ bytes "One" ++ [0]), 10, false, [], true, true, true, false⟩

/-- The TOC of the example after `compact()`. -/
def toc_compacted_example : TOC :=
  ⟨[⟨Label.buffer 0, ⟨0, 0⟩, 0⟩, ⟨Label.buffer 6, ⟨1, -1⟩, 1⟩],
    some (bytes "Intro" ++ [0] ++ bytes "One" ++ [0]), 10, false, [], false, true, false, true⟩

/-! ## Path resolution: `EPub::filename_locate` (epub.cpp, lines 416-444) -/

/-- The inner loop `while (idx > 0) { idx -= 1; if (name[idx] == '/') break; }` of
`EPub::filename_locate`, started with the given `idx`: the value of `idx` after it. -/
def back_up (name : List Nat) : Nat → Nat
  | 0 => 0
  | idx + 1 => if name.getD idx 0 = 47 then idx else back_up name idx

/-- The loop `while ((idx < 255) && (*s != 0)) { ... }` of `EPub::filename_locate`.
The first argument bounds the number of iterations, `s` holds the bytes from the read
pointer on (a 0 byte or the end of the list is the terminator), `name` holds the
`idx` bytes written so far and `hi` is the largest value that `idx` has had.  The
result is the final `name` and `hi`.  After a `%` the code reads two bytes and moves
the pointer by 3: when the string ends before, the pointer leaves the string and
there is no defined result. -/
def locate_loop : Nat → List Nat → List Nat → Nat → Option (List Nat × Nat)
  | 0, _, _, _ => none
  | fuel + 1, s, name, hi =>
      if name.length < 255 ∧ s.headD 0 ≠ 0 then
        if s.headD 0 = 37 then
          if s.getD 1 0 = 0 ∨ s.getD 2 0 = 0 then none
          else
            locate_loop fuel (s.drop 3)
              (name ++ [((hex_to_bin (s.getD 1 0) <<< 4) + hex_to_bin (s.getD 2 0)) % 256])
              (max hi (name.length + 1))
        else if s.headD 0 = 47 ∧ s.getD 1 0 = 46 ∧ s.getD 2 0 = 46 ∧ s.getD 3 0 = 47 then
          let idx := back_up name name.length
          locate_loop fuel (s.drop (if idx > 0 then 3 else 4)) (name.take idx) hi
        else locate_loop fuel (s.drop 1) (name ++ [s.headD 0]) (max hi (name.length + 1))
      else some (name, hi)

/-- The function `EPub::filename_locate(fname)`: the folder `opf_base_path` followed by
the string in `name`. -/
def filename_locate (opf_base_path fname : List Nat) : Option (List Nat) :=
  (locate_loop (fname.length + 1) fname [] 0).map fun r => opf_base_path ++ c_str r.1

/-- The largest value of the output index `idx` during `EPub::filename_locate(fname)`. -/
def filename_locate_max_idx (fname : List Nat) : Option Nat :=
  (locate_loop (fname.length + 1) fname [] 0).map fun r => r.2

/-- The loop of `EPub::filename_locate` with a bound that suffices for `s`. -/
def locate_run (s name : List Nat) (hi : Nat) : Option (List Nat × Nat) :=
  locate_loop (s.length + 1) s name hi

/-- The four bytes `/../` start at position `i` of the path `p`. -/
def dotdot_at (p : List Nat) (i : Nat) : Prop := (p.drop i).take 4 = [47, 46, 46, 47]

instance (p : List Nat) (i : Nat) : Decidable (dotdot_at p i) := by
  unfold dotdot_at; infer_instance

/-- The path `p` has no occurrence of `/../`. -/
def no_dotdot (p : List Nat) : Prop := ∀ i, i < p.length → ¬ dotdot_at p i

instance (p : List Nat) : Decidable (no_dotdot p) := by
  unfold no_dotdot; infer_instance

/-- The bytes of `p` are plain: none is `%` and none is the terminator 0. -/
def plain_bytes (p : List Nat) : Prop := ∀ c ∈ p, c ≠ 37 ∧ c ≠ 0

instance (p : List Nat) : Decidable (plain_bytes p) := by
  unfold plain_bytes; infer_instance

/-- A piece of a path between two separators: a plain byte, or an escape `%xy`. -/
inductive PathToken
  | plain (c : Nat)
  | escape (x y : Nat)
  deriving DecidableEq, Repr

/-- The bytes of a token in the path. -/
def PathToken.render : PathToken → List Nat
  | PathToken.plain c => [c]
  | PathToken.escape x y => [37, x, y]

/-- The byte that the specification gives for a token: the byte itself, or the byte
of value `16 * X + Y` for the escape `%XY`. -/
def PathToken.decode : PathToken → Nat
  | PathToken.plain c => c
  | PathToken.escape x y => 16 * hex_digit_value x + hex_digit_value y

/-- A token of the paths of the claim: a plain byte is neither `%` nor 0, an escape has
two hexadecimal digits and is not `%00`. -/
def PathToken.ok : PathToken → Prop
  | PathToken.plain c => c ≠ 37 ∧ c ≠ 0
  | PathToken.escape x y =>
      valid_hex x = true ∧ valid_hex y = true ∧ 16 * hex_digit_value x + hex_digit_value y ≠ 0

instance (t : PathToken) : Decidable t.ok := by
  cases t <;> unfold PathToken.ok <;> infer_instance

/-- The path made of a list of tokens. -/
def render_path : List PathToken → List Nat
  | [] => []
  | t :: rest => t.render ++ render_path rest

/-! ## Building the TOC from the navigation document: `TOC::do_nav_points` and
`TOC::load_from_epub` (toc.cpp, lines 139-332) -/

namespace xml_node

/-- The call `node.child(name)`: the first child of that name, `none` for a null handle. -/
def child (n : xml_node) (name_ : List Nat) : Option xml_node :=
  n.children.find? fun c =>
    match c with
    | element cn _ _ => decide (cn = name_)
    | pcdata _ => false

/-- The call `node.attribute(name)`: the value of the first attribute of that name,
`none` for a null handle. -/
def attr (n : xml_node) (attr_name : List Nat) : Option (List Nat) :=
  (n.attributes.find? (fun a => decide (a.1 = attr_name))).map fun a => a.2

/-- The node `node.child(name)` together with the siblings that follow it, which is
what a walk with `next_sibling()` from that node visits; empty for a null handle. -/
def child_and_siblings (n : xml_node) (name_ : List Nat) : List xml_node :=
  n.children.dropWhile fun c =>
    match c with
    | element cn _ _ => !decide (cn = name_)
    | pcdata _ => true

end xml_node

/-- The text of `navLabel/text` of a navigation node (lines 151-154): `none` when
`label` stays `nullptr`. -/
def nav_label (node : xml_node) : Option (List Nat) :=
  match node.child (bytes "navLabel") with
  | some n =>
      match n.child (bytes "text") with
      | some n2 => some n2.text_get
      | none => none
  | none => none

/-- The attribute `src` of `content` of a navigation node (lines 155-158): `none` when
`fname` stays `nullptr`. -/
def nav_src (node : xml_node) : Option (List Nat) :=
  match node.child (bytes "content") with
  | some n => n.attr (bytes "src")
  | none => none

/-- The part of `fname` before its first `#` (the whole of it when there is none). -/
def target_path (fname : List Nat) : List Nat := fname.takeWhile fun c => c ≠ 35

/-- The string `the_id`: what follows the first `#` of `fname`, empty when there is none. -/
def fragment_id (fname : List Nat) : List Nat := (fname.dropWhile fun c => c ≠ 35).drop 1

/-- The search of the manifest (lines 180-190), over the first `item` and the siblings
that follow it: the first node with an attribute `href` equal to `fname`. -/
def manifest_loop (fname : List Nat) : List xml_node → Option xml_node
  | [] => none
  | n :: rest =>
      match n.attr (bytes "href") with
      | some v => if v = fname then some n else manifest_loop fname rest
      | none => manifest_loop fname rest

/-- The search of the spine (lines 199-205), over the first `itemref` and the siblings
that follow it, with `index` a `uint16_t`: the loop goes on while the node has an
attribute `idref` that differs from `idref`. -/
def spine_loop (idref : List Nat) : List xml_node → Nat → Option Nat
  | [], _ => none
  | n :: rest, index =>
      match n.attr (bytes "idref") with
      | some v => if v ≠ idref then spine_loop idref rest ((index + 1) % 65536) else some index
      | none => some index

/-- The resolution of a target path (lines 180-237): the `index` found in the spine
for the manifest node whose `href` is `fname`; `none` when the code returns false. -/
def resolve_target (opf : xml_node) (fname : List Nat) : Option Nat :=
  match opf.child (bytes "package") with
  | none => none
  | some package =>
      match package.child (bytes "manifest") with
      | none => none
      | some manifest =>
          match manifest_loop fname (manifest.child_and_siblings (bytes "item")) with
          | none => none
          | some n =>
              match n.attr (bytes "id") with
              | none => none
              | some idref =>
                  match package.child (bytes "spine") with
                  | none => none
                  | some spine =>
                      spine_loop idref (spine.child_and_siblings (bytes "itemref")) 0

/-- The assignment `infos[the_id] = info`. -/
def infos_assign (infos : List (List Nat × Info)) (the_id : List Nat) (info : Info) :
    List (List Nat × Info) :=
  (the_id, info) :: infos.filter fun kv => !decide (kv.1 = the_id)

/-- The entry that `do_nav_points` appends for a label, a `src`, the `index` found in
the spine and a level: the offset is -1 when there is a fragment id and 0 otherwise,
and the index becomes an `int16_t`. -/
def nav_entry_record (label fname : List Nat) (index level : Nat) : EntryRecord :=
  ⟨Label.pool label, ⟨wrap_int16 index, if fragment_id fname ≠ [] then -1 else 0⟩, level⟩

/-- The body of the loop of `TOC::do_nav_points` for one node, up to the push of its
entry (lines 145-237): the flag is false when the function returns false.  A missing
label or `src` is read through `nullptr`, and a label or target path that does not
fit a block of the arena (4096 bytes with its terminator) is copied past the block:
both have no defined result. -/
def nav_entry (opf : xml_node) (level : Nat) (node : xml_node) (t : TOC) :
    Option (Bool × TOC) :=
  match nav_label node, nav_src node with
  | some label, some src =>
      let label := c_str label
      let fname := c_str src
      if label.length + 1 > 4096 then none
      else if 35 ∈ fname ∧ (target_path fname).length + 1 > 4096 then none
      else
        match resolve_target opf (target_path fname) with
        | none => some (false, t)
        | some index =>
            let t1 :=
              if fragment_id fname ≠ [] then
                { t with infos := infos_assign t.infos (fragment_id fname)
                           ⟨target_path fname, wrap_int16 index, t.entries.length⟩,
                         some_ids := true }
              else t
            some (true, { t1 with entries := t1.entries ++
              [nav_entry_record label fname index level] })
  | _, _ => none

mutual

/-- One turn of the loop `do { ... } while (node)` of `TOC::do_nav_points(node, level)`
for the node `node`: its entry, then the call `do_nav_points(n, level + 1)` for its
first child `navPoint`, with `level` a `uint8_t`. -/
def do_nav_point (opf : xml_node) (level : Nat) : xml_node → TOC → Option (Bool × TOC)
  | xml_node.pcdata v, t => nav_entry opf level (xml_node.pcdata v) t
  | xml_node.element name_ attrs children, t =>
      match nav_entry opf level (xml_node.element name_ attrs children) t with
      | some (true, t1) => do_nav_child opf ((level + 1) % 256) children t1
      | r => r

/-- The statement `if ((n = node.child("navPoint"))) if (!do_nav_points(n, level)) return false;`
on the children of a node: the children before the first `navPoint` are passed over,
the walk starts at the first `navPoint`. -/
def do_nav_child (opf : xml_node) (level : Nat) : List xml_node → TOC → Option (Bool × TOC)
  | [], t => some (true, t)
  | c :: rest, t =>
      if c.name = bytes "navPoint" then
        match do_nav_point opf level c t with
        | some (true, t1) => do_nav_points opf level rest t1
        | r => r
      else do_nav_child opf level rest t

/-- The function `TOC::do_nav_points(node, level)` on the node and the siblings that
follow it. -/
def do_nav_points (opf : xml_node) (level : Nat) : List xml_node → TOC → Option (Bool × TOC)
  | [], t => some (true, t)
  | node :: rest, t =>
      match do_nav_point opf level node t with
      | some (true, t1) => do_nav_points opf level rest t1
      | r => r

end

/-- The search for the navigation file in `TOC::load_from_epub` (lines 266-275), over
the first `item` of the manifest and the siblings that follow it: the `href` of the
first node with `id="ncx"`; `none` when `filename` stays `nullptr`. -/
def ncx_loop : List xml_node → Option (List Nat)
  | [] => none
  | n :: rest =>
      match n.attr (bytes "id") with
      | some v => if v = bytes "ncx" then n.attr (bytes "href") else ncx_loop rest
      | none => ncx_loop rest

/-- The navigation nodes of a parsed navigation document: `ncx/navMap/navPoint` and
the siblings that follow it (lines 301-303). -/
def nav_nodes (ncx : xml_node) : List xml_node :=
  match ncx.child (bytes "ncx") with
  | none => []
  | some n =>
      match n.child (bytes "navMap") with
      | none => []
      | some m => m.child_and_siblings (bytes "navPoint")

/-- The name of the navigation file as `TOC::load_from_epub` finds it (lines 263-278):
`none` when the function returns false before it retrieves the file. -/
def ncx_filename (opf : xml_node) : Option (List Nat) :=
  match opf.child (bytes "package") with
  | none => none
  | some package =>
      match package.child (bytes "manifest") with
      | none => none
      | some manifest => ncx_loop (manifest.child_and_siblings (bytes "item"))

/-- The function `TOC::load_from_epub()`.  `opf` is the package document,
`opf_base_path` its folder, and `archive` gives the parsed content of a file of the
archive, `none` when the file cannot be retrieved or parsed. -/
def load_from_epub (opf : xml_node) (opf_base_path : List Nat)
    (archive : List Nat → Option xml_node) (t : TOC) : Option (Bool × TOC) :=
  let t := clean t
  match ncx_filename opf with
  | none => some (false, t)
  | some filename =>
      match filename_locate opf_base_path (c_str filename) with
      | none => none
      | some path =>
          match archive path with
          | none => some (false, t)
          | some ncx =>
              match nav_nodes ncx with
              | [] => some (false, t)
              | node :: rest =>
                  let t := { t with char_pool := true }
                  match do_nav_points opf 0 (node :: rest) t with
                  | none => none
                  | some (false, t1) => some (false, t1)
                  | some (true, t1) => some (!t1.infos.isEmpty, t1)

/-! ### The navigation tree of the specification -/

/-- A navigation point: the attributes of its element, its label, the `src` of its
content and the navigation points nested in it. -/
inductive NavPoint
  | mk (attrs : List (List Nat × List Nat)) (label src : List Nat) (children : List NavPoint)

mutual

/-- The element `navPoint` of a navigation point: `navLabel/text` with the label,
`content` with the `src`, then the nested points. -/
def render_nav : NavPoint → xml_node
  | NavPoint.mk attrs label src children =>
      xml_node.element (bytes "navPoint") attrs
        (xml_node.element (bytes "navLabel") []
            [xml_node.element (bytes "text") [] [xml_node.pcdata label]] ::
          xml_node.element (bytes "content") [(bytes "src", src)] [] ::
          render_navs children)

/-- The elements of a list of navigation points, in order. -/
def render_navs : List NavPoint → List xml_node
  | [] => []
  | p :: ps => render_nav p :: render_navs ps

end

mutual

/-- The navigation points of a tree in document order, each with its label, its `src`
and its nesting depth; the root is at depth `depth`. -/
def pre_order_point (depth : Nat) : NavPoint → List (List Nat × List Nat × Nat)
  | NavPoint.mk _ label src children => (label, src, depth) :: pre_order (depth + 1) children

/-- The navigation points of a list of trees in document order. -/
def pre_order (depth : Nat) : List NavPoint → List (List Nat × List Nat × Nat)
  | [] => []
  | p :: ps => pre_order_point depth p ++ pre_order depth ps

end

/-- The target of a navigation point resolves in the package document. -/
def nav_resolves (opf : xml_node) (x : List Nat × List Nat × Nat) : Bool :=
  (resolve_target opf (target_path x.2.1)).isSome

/-- The label and the target path of a navigation point are C strings that fit a block
of the arena: no 0 byte, fewer than 4096 bytes (the target path is copied to the
arena only when the `src` has a `#`). -/
def nav_fits (x : List Nat × List Nat × Nat) : Prop :=
  0 ∉ x.1 ∧ 0 ∉ x.2.1 ∧ x.1.length < 4096 ∧ (35 ∈ x.2.1 → (target_path x.2.1).length < 4096)

instance (x : List Nat × List Nat × Nat) : Decidable (nav_fits x) := by
  unfold nav_fits; infer_instance

/-- The entry of the specification for a navigation point with its depth: the label,
the spine index of the target, offset -1 for a non-empty fragment after the first `#`
and 0 otherwise, and the depth as an 8-bit level. -/
def spec_entry (opf : xml_node) (x : List Nat × List Nat × Nat) : EntryRecord :=
  { label := Label.pool x.1,
    page_id := ⟨wrap_int16 ((resolve_target opf (target_path x.2.1)).getD 0),
                if fragment_id x.2.1 ≠ [] then -1 else 0⟩,
    level := x.2.2 % 256 }

/-- A navigation document with the navigation points `forest` under `ncx/navMap`. -/
def ncx_document (forest : List NavPoint) : xml_node :=
  xml_node.element [] []
    [xml_node.element (bytes "ncx") []
      [xml_node.element (bytes "head") [] [],
       xml_node.element (bytes "navMap") [] (render_navs forest)]]

/-- A package document with the navigation file `toc.ncx` and two content documents,
`ch1.xhtml` at spine position 0 and `ch2.xhtml` at spine position 1. -/
def opf_nav_example : xml_node :=
  xml_node.element [] []
    [xml_node.element (bytes "package") []
      [xml_node.element (bytes "manifest") []
        [xml_node.element (bytes "item")
           [(bytes "id", bytes "ncx"), (bytes "href", bytes "toc.ncx")] [],
         xml_node.element (bytes "item")
           [(bytes "id", bytes "c1"), (bytes "href", bytes "ch1.xhtml")] [],
         xml_node.element (bytes "item")
           [(bytes "id", bytes "c2"), (bytes "href", bytes "ch2.xhtml")] []],
       xml_node.element (bytes "spine") []
        [xml_node.element (bytes "itemref") [(bytes "idref", bytes "c1")] [],
         xml_node.element (bytes "itemref") [(bytes "idref", bytes "c2")] []]]]

/-- The archive of the example: the file `OEBPS/toc.ncx` holds the navigation document
of `forest`. -/
def archive_example (forest : List NavPoint) (path : List Nat) : Option xml_node :=
  if path = bytes "OEBPS/toc.ncx" then some (ncx_document forest) else none

/-- A navigation tree: `One` (document 1) with the nested `One.a` (fragment `a` of
document 1), then `Two` (document 2). -/
def forest_example : List NavPoint :=
  [NavPoint.mk [] (bytes "One") (bytes "ch1.xhtml")
     [NavPoint.mk [] (bytes "One.a") (bytes "ch1.xhtml#a") []],
   NavPoint.mk [] (bytes "Two") (bytes "ch2.xhtml") []]

/-- A navigation list with the same fragment id in two documents: `One` is the fragment
`a` of document 1 and `Two` the fragment `a` of document 2. -/
def forest_same_fragment_example : List NavPoint :=
  [NavPoint.mk [] (bytes "One") (bytes "ch1.xhtml#a") [],
   NavPoint.mk [] (bytes "Two") (bytes "ch2.xhtml#a") []]

/-- A navigation list whose second entry targets a file that is not in the manifest. -/
def forest_miss_example : List NavPoint :=
  [NavPoint.mk [] (bytes "One") (bytes "ch1.xhtml") [],
   NavPoint.mk [] (bytes "Three") (bytes "ch3.xhtml") []]

/-- A chain of `n + 1` navigation points nested in each other, all with label `L` and
target `ch1.xhtml`. -/
def nav_chain : Nat → NavPoint
  | 0 => NavPoint.mk [] (bytes "L") (bytes "ch1.xhtml") []
  | n + 1 => NavPoint.mk [] (bytes "L") (bytes "ch1.xhtml") [nav_chain n]

/-- A package document whose spine has a second `itemref` without `idref`. -/
def opf_no_idref_example : xml_node :=
  xml_node.element [] []
    [xml_node.element (bytes "package") []
      [xml_node.element (bytes "manifest") []
        [xml_node.element (bytes "item")
           [(bytes "id", bytes "ncx"), (bytes "href", bytes "toc.ncx")] [],
         xml_node.element (bytes "item")
           [(bytes "id", bytes "c1"), (bytes "href", bytes "ch1.xhtml")] [],
         xml_node.element (bytes "item")
           [(bytes "id", bytes "c2"), (bytes "href", bytes "ch2.xhtml")] []],
       xml_node.element (bytes "spine") []
        [xml_node.element (bytes "itemref") [(bytes "idref", bytes "c1")] [],
         xml_node.element (bytes "itemref") [(bytes "linear", bytes "no")] []]]]

/-! ## The reads of `EPub::filename_locate` (epub.cpp, lines 416-444) -/

/-- The test `(*s == '/') && (s[1] == '.') && (s[2] == '.') && (s[3] == '/')` of
`EPub::filename_locate` on the memory `mem` with the read cursor at position `s`: the
value of the test and the highest position it reads (`&&` reads the next byte only
when the bytes before it match).  A read outside `mem` has no value: `none`. -/
def dotdot_test (mem : List Nat) (s : Nat) : Option (Bool × Nat) :=
  match mem.get? s with
  | none => none
  | some c0 =>
      if c0 ≠ 47 then some (false, s)
      else
        match mem.get? (s + 1) with
        | none => none
        | some c1 =>
            if c1 ≠ 46 then some (false, s + 1)
            else
              match mem.get? (s + 2) with
              | none => none
              | some c2 =>
                  if c2 ≠ 46 then some (false, s + 2)
                  else
                    match mem.get? (s + 3) with
                    | none => none
                    | some c3 => some (decide (c3 = 47), s + 3)

/-- The loop `while ((idx < 255) && (*s != 0)) { ... }` of `EPub::filename_locate` on
the memory `mem`, in which the string `fname` starts at position 0 and nothing is
assumed about the bytes that follow its terminator.  The first argument bounds the
number of iterations, `s` is the position of the read cursor, `name` holds the bytes
written so far and `hi` is the highest position read so far.  The result is `name`,
the cursor and the highest position read when the loop ends; a read outside `mem` has
no value: `none`. -/
def locate_mem : Nat → List Nat → Nat → List Nat → Nat → Option (List Nat × Nat × Nat)
  | 0, _, _, _, _ => none
  | fuel + 1, mem, s, name, hi =>
      if name.length < 255 then
        match mem.get? s with
        | none => none
        | some c =>
            if c = 0 then some (name, s, max hi s)
            else if c = 37 then
              match mem.get? (s + 1), mem.get? (s + 2) with
              | some c1, some c2 =>
                  locate_mem fuel mem (s + 3)
                    (name ++ [((hex_to_bin c1 <<< 4) + hex_to_bin c2) % 256]) (max hi (s + 2))
              | _, _ => none
            else
              match dotdot_test mem s with
              | none => none
              | some (true, h) =>
                  let idx := back_up name name.length
                  locate_mem fuel mem (s + (if idx > 0 then 3 else 4)) (name.take idx) (max hi h)
              | some (false, h) => locate_mem fuel mem (s + 1) (name ++ [c]) (max hi h)
      else some (name, s, hi)

/-- The loop of `EPub::filename_locate` from the start of the memory `mem`: the bytes
of `name`, the final position of the read cursor and the highest position read. -/
def filename_locate_reads (mem : List Nat) : Option (List Nat × Nat × Nat) :=
  locate_mem (mem.length + 1) mem 0 [] 0

/-- A memory that holds the path `%`, its terminator at position 1, and after it the
bytes `41` and a 0 byte that belong to something else. -/
def mem_percent_example : List Nat := [37, 0, 52, 49, 0]

/-- The package document `opf_nav_example` with the element names in the prefixed
form `opf:package`, `opf:manifest`, `opf:item`, `opf:spine`, `opf:itemref`. -/
def opf_prefixed_example : xml_node :=
  xml_node.element [] []
    [xml_node.element (bytes "opf:package") []
      [xml_node.element (bytes "opf:manifest") []
        [xml_node.element (bytes "opf:item")
           [(bytes "id", bytes "ncx"), (bytes "href", bytes "toc.ncx")] [],
         xml_node.element (bytes "opf:item")
           [(bytes "id", bytes "c1"), (bytes "href", bytes "ch1.xhtml")] [],
         xml_node.element (bytes "opf:item")
           [(bytes "id", bytes "c2"), (bytes "href", bytes "ch2.xhtml")] []],
       xml_node.element (bytes "opf:spine") []
        [xml_node.element (bytes "opf:itemref") [(bytes "idref", bytes "c1")] [],
         xml_node.element (bytes "opf:itemref") [(bytes "idref", bytes "c2")] []]]]

/-! ## The string arena: `CharPool` (char_pool.hpp) -/

/-- The object `CharPool`.  The blocks of `pool_list` are numbered in the order of their
allocation, so `blocks` is the length of `pool_list` and the number of the next block;
`current` is the number of the block that `current` points to, `none` for `nullptr`. -/
structure CharPool where
  blocks : Nat
  current : Option Nat
  current_idx : Nat
  total_allocated : Nat
  deriving DecidableEq, Repr

/-- The constant `CharPool::POOL_SIZE`. -/
def POOL_SIZE : Nat := 4096

/-- The constructor `CharPool()`. -/
def CharPool.new : CharPool := ⟨0, none, 0, 0⟩

/-- The function `CharPool::allocate(size)`, with `malloc_ok` saying whether `malloc`
succeeds when the function calls it.  The parameter is a `uint16_t`: of the number
that the caller passes the function receives the low 16 bits.  The result is the
returned pointer, as the number of the block and the offset in it (`none` for
`nullptr`), and the pool afterwards.  `current_idx` is a `uint16_t` and
`total_allocated` a `uint32_t`. -/
def CharPool.allocate (malloc_ok : Bool) (p : CharPool) (size : Nat) :
    Option (Nat × Nat) × CharPool :=
  let size := size % 65536
  let fresh := p.current.isNone || decide (p.current_idx + size ≥ POOL_SIZE)
  if fresh && !malloc_ok then (none, { p with current := none })
  else
    let p1 : CharPool :=
      if fresh then { p with blocks := p.blocks + 1, current := some p.blocks, current_idx := 0 }
      else p
    ((p1.current.map fun b => (b, p1.current_idx)),
      { p1 with current_idx := (p1.current_idx + size) % 65536,
                total_allocated := (p1.total_allocated + size) % 4294967296 })

/-- A buffer that `allocate` has returned: its block, its offset in the block and the
size that the function has received. -/
structure PoolBuffer where
  block : Nat
  offset : Nat
  size : Nat
  deriving DecidableEq, Repr

/-- The buffer lies inside its block of `POOL_SIZE` bytes. -/
def PoolBuffer.inside (b : PoolBuffer) : Prop := b.offset + b.size ≤ POOL_SIZE

instance (b : PoolBuffer) : Decidable b.inside := by
  unfold PoolBuffer.inside; infer_instance

/-- Two buffers have a byte in common. -/
def PoolBuffer.overlaps (a b : PoolBuffer) : Prop :=
  a.block = b.block ∧ a.offset < b.offset + b.size ∧ b.offset < a.offset + a.size

instance (a b : PoolBuffer) : Decidable (a.overlaps b) := by
  unfold PoolBuffer.overlaps; infer_instance

/-- A sequence of calls of `allocate` in which every `malloc` succeeds: the buffers
returned, the latest first, each with the size that the function has received, and
the pool afterwards. -/
def allocate_all : CharPool → List Nat → List PoolBuffer × CharPool
  | p, [] => ([], p)
  | p, size :: rest =>
      match p.allocate true size with
      | (some ptr, p1) =>
          let r := allocate_all p1 rest
          (r.1 ++ [⟨ptr.1, ptr.2, size % 65536⟩], r.2)
      | (none, p1) => allocate_all p1 rest

/-! ## The cover: `one_by_attr`, `EPub::get_cover_filename` (epub.cpp, lines 88-101
and 1006-1052) -/

/-- The function `manifest_pred`. -/
def manifest_pred (node : xml_node) : Bool :=
  decide (node.name = bytes "manifest") || decide (node.name = bytes "opf:manifest")

/-- The function `one_by_attr(n, name1, name2, attr, value)`; a null node has no
children. -/
def one_by_attr (n : Option xml_node) (name1 name2 attr_name value : List Nat) :
    Option xml_node :=
  match n with
  | none => none
  | some n =>
      match n.find_child_by_attribute name1 attr_name value with
      | some res => some res
      | none => n.find_child_by_attribute name2 attr_name value

/-- The children of `opf.find_child(package_pred).find_child(manifest_pred)`; a null
node has no children. -/
def manifest_children (opf : xml_node) : List xml_node :=
  match opf.find_child package_pred with
  | none => []
  | some package =>
      match package.find_child manifest_pred with
      | none => []
      | some manifest => manifest.children

/-- The first loop of `EPub::get_cover_filename` over the children of the manifest:
the `href` of the first `item` or `opf:item` whose `id` or whose `properties` equals
`itemref` and that has an `href`; `none` when `filename` stays null. -/
def cover_by_pointer (itemref : List Nat) : List xml_node → Option (List Nat)
  | [] => none
  | n :: rest =>
      if n.name = bytes "item" ∨ n.name = bytes "opf:item" then
        if (n.attr (bytes "id") = some itemref ∨ n.attr (bytes "properties") = some itemref) ∧
            (n.attr (bytes "href")).isSome then
          n.attr (bytes "href")
        else cover_by_pointer itemref rest
      else cover_by_pointer itemref rest

/-- The second loop of `EPub::get_cover_filename`: the `href` of the first `item` or
`opf:item` whose `id` is `cover-image` or `cover` and that has an `href`. -/
def cover_by_id : List xml_node → Option (List Nat)
  | [] => none
  | n :: rest =>
      if n.name = bytes "item" ∨ n.name = bytes "opf:item" then
        if (n.attr (bytes "id") = some (bytes "cover-image") ∨
              n.attr (bytes "id") = some (bytes "cover")) ∧
            (n.attr (bytes "href")).isSome then
          n.attr (bytes "href")
        else cover_by_id rest
      else cover_by_id rest

/-- The metadata pointer of `EPub::get_cover_filename`: the value of `content` of the
element `meta` (or `opf:meta`) with `name="cover"` in the metadata, the empty string
when the element has no `content`; `none` when there is no such element. -/
def cover_pointer (opf : xml_node) : Option (List Nat) :=
  match opf.find_child package_pred with
  | none => none
  | some package =>
      match one_by_attr (package.find_child metadata_pred) (bytes "meta") (bytes "opf:meta")
          (bytes "name") (bytes "cover") with
      | none => none
      | some node => some (node.attribute_value (bytes "content"))

/-- The function `EPub::get_cover_filename()`: `none` is the null pointer, `some s` a
string. -/
def get_cover_filename (file_is_open : Bool) (opf : xml_node) : Option (List Nat) :=
  if !file_is_open then none
  else
    let filename :=
      match cover_pointer opf with
      | some itemref => cover_by_pointer itemref (manifest_children opf)
      | none => none
    let filename :=
      match filename with
      | none => cover_by_id (manifest_children opf)
      | some f => some f
    match filename with
    | none => some []
    | some f => some f

/-- A package document with a cover pointer in the metadata and a manifest without a
cover image. -/
def opf_cover_example : xml_node :=
  xml_node.element [] []
    [xml_node.element (bytes "package") []
      [xml_node.element (bytes "metadata") []
        [xml_node.element (bytes "meta")
           [(bytes "name", bytes "cover"), (bytes "content", bytes "img1")] []],
       xml_node.element (bytes "manifest") []
        [xml_node.element (bytes "item")
           [(bytes "id", bytes "c1"), (bytes "href", bytes "ch1.xhtml")] [],
         xml_node.element (bytes "item") [(bytes "id", bytes "cover")] []],
       xml_node.element (bytes "spine") [] []]]

/-! ## Marker blanking in `EPub::get_item` (epub.cpp, lines 780-796) -/

/-- The bytes of `needle` stand at the start of `hay`. -/
def starts_with : List Nat → List Nat → Bool
  | [], _ => true
  | _ :: _, [] => false
  | a :: as, b :: bs => decide (a = b) && starts_with as bs

/-- The C function `strstr(hay, needle)` for a needle without 0 byte: the position of
the first occurrence of `needle` in the string that starts at `hay`, `none` for the
null pointer.  The string ends at the first 0 byte of `hay`; the buffer `hay` is
followed by a terminator. -/
def strstr (needle : List Nat) : List Nat → Option Nat
  | [] => if needle = [] then some 0 else none
  | c :: rest =>
      if starts_with needle (c :: rest) then some 0
      else if c = 0 then none
      else (strstr needle rest).map fun p => p + 1

/-- The body of the two blanking loops: with `str` at position `p`,
`*str++ = ' '; *str = ' '; str += skip; *str++ = ' '; *str = ' ';`. -/
def blank_at (data : List Nat) (p skip : Nat) : List Nat :=
  (((data.set p 32).set (p + 1) 32).set (p + 1 + skip) 32).set (p + 1 + skip + 1) 32

/-- The loop `while ((str = strstr(item.data, marker)) != nullptr) { ... }`; the first
argument bounds the number of iterations. -/
def blank_loop (marker : List Nat) (skip : Nat) : Nat → List Nat → Option (List Nat)
  | 0, _ => none
  | fuel + 1, data =>
      match strstr marker data with
      | none => some data
      | some p => blank_loop marker skip fuel (blank_at data p skip)

/-- The first marker. -/
def cdata_open : List Nat := bytes "/*<![CDATA[*/"

/-- The second marker. -/
def cdata_close : List Nat := bytes "/*]]>*/"

/-- The two blanking loops of `EPub::get_item` on the buffer `item.data`: the buffer
afterwards. -/
def blank_markers (data : List Nat) : Option (List Nat) :=
  match blank_loop cdata_open 10 (data.length + 1) data with
  | none => none
  | some d => blank_loop cdata_close 4 (d.length + 1) d

/-- The bytes of `needle` stand at position `p` of `d`. -/
def occurs_at (needle d : List Nat) (p : Nat) : Prop := (d.drop p).take needle.length = needle

instance (needle d : List Nat) (p : Nat) : Decidable (occurs_at needle d p) := by
  unfold occurs_at; infer_instance

/-- Position `i` of `data` lies inside an occurrence of one of the two markers. -/
def in_marker (data : List Nat) (i : Nat) : Prop :=
  ∃ p, p ≤ i ∧ ((occurs_at cdata_open data p ∧ i < p + 13) ∨
                (occurs_at cdata_close data p ∧ i < p + 7))

/-- The buffer `d` comes from `data` by blanking: same length, and every byte that
differs is a space at a position inside an occurrence of a marker in `data`. -/
def blanked (data d : List Nat) : Prop :=
  d.length = data.length ∧ ∀ i, d[i]? = data[i]? ∨ (d[i]? = some 32 ∧ in_marker data i)

/-- A document buffer with a 0 byte before a marker: `<p>`, a 0 byte, `/*]]>*/`. -/
def buffer_nul_example : List Nat := bytes "<p>" ++ [0] ++ bytes "/*]]>*/"

/-- A document buffer with both markers. -/
def buffer_example : List Nat := bytes "<p>/*<![CDATA[*/x/*]]>*/</p>"

/-! ## The session of the `EPub` object (epub.cpp)

The state is kept in three records: `Package` holds the fields that loading an item
only reads, `Loader` the fields and global objects that loading an item can change, and
`EPub` the two together with the fields of the session itself.  The collaborators that
are not part of the sources (the archive reader, the XML parser, the style engine, the
font registry, the book parameters) appear through the record `World`. -/

/-- The enumeration `MediaType`. -/
inductive MediaType
  | XML
  | JPEG
  | PNG
  | BMP
  | GIF
  deriving DecidableEq, Repr

/-- Modelled from the spec: a parsed style sheet of the style engine, known by its id,
its folder path and its source text. -/
structure CSS where
  id : List Nat
  folder_path : List Nat
  source : List Nat
  deriving DecidableEq, Repr

/-- A `@font-face` rule as the style engine reports it to `retrieve_fonts_from_css`:
the first value of `font-family` when the rule has one, the face style that
`fonts.adjust_font_style` gives for its `font-style` and `font-weight`, and the first
value of `src` when the rule has one and it is a URL. -/
structure FontFace where
  font_family : Option (List Nat)
  style : Nat
  src : Option (List Nat)
  deriving DecidableEq, Repr

/-- Modelled from the spec: an entry of the font registry `fonts`, from (family, style)
to the loaded font bytes and the file they come from. -/
structure FontEntry where
  font_family : List Nat
  style : Nat
  data : List Nat
  filename : List Nat
  deriving DecidableEq, Repr

/-- The collaborators.  `disk` gives the files of the archive of a given name (`none`
when the archive cannot be opened); `parse` is `load_buffer_inplace` (`none` for a
status other than `status_ok`); `font_faces` is the match of the `@font-face` rules of
a style sheet; `font_add_ok` is the result of `fonts.add`; `sha1` is the digest;
`use_epub_fonts` is the compile-time switch `USE_EPUB_FONTS`; `book_use_fonts` is the
value of `book_format_params.use_fonts_in_book` that `open_params` and
`update_book_format_params` produce for a book. -/
structure World where
  disk : List Nat → Option (List (List Nat × List Nat))
  parse : List Nat → Option xml_node
  font_faces : CSS → List FontFace
  font_add_ok : List Nat → Nat → List Nat → Bool
  sha1 : List Nat → List Nat
  use_epub_fonts : Bool
  book_use_fonts : List Nat → Int

/-- The struct `ItemInfo`.  `data` is `none` for the null pointer; `xml_doc` is the empty
document after `reset()`; `css` holds the sheets merged into the sheet of the item. -/
structure ItemInfo where
  data : Option (List Nat)
  xml_doc : xml_node
  media_type : MediaType
  file_path : List Nat
  css_list : List CSS
  css_cache : List CSS
  css : List CSS
  itemref_index : Int

/-- The fields that loading an item only reads: the package document, its folder, the
encryption document with its flag, the two keys and
`book_format_params.use_fonts_in_book`. -/
structure Package where
  opf : xml_node
  opf_base_path : List Nat
  encryption : xml_node
  encryption_present : Bool
  keys : Keys
  use_fonts_in_book : Int

/-- The fields and global objects that loading an item can change.  Modelled from the
spec: the archive reader `unzip` is the list `zip` of the files of the open archive
(`none` when no archive is open) and the counter `reads` of the calls of `get_file`.
`fonts` is the font registry; `css_cache`, `fonts_size` (32 bits) and
`fonts_size_too_large` are fields of the `EPub` object. -/
structure Loader where
  zip : Option (List (List Nat × List Nat))
  reads : Nat
  fonts : List FontEntry
  css_cache : List CSS
  fonts_size : Nat
  fonts_size_too_large : Bool
  deriving DecidableEq, Repr

/-- The `EPub` object with the global objects it uses.  `current_itemref` is the handle
of a child of the spine, kept as the position of the child (`none` for the null
handle); `opf_data`, `encryption_data` and `book_params` say whether the pointers are
non-null. -/
structure EPub where
  package : Package
  loader : Loader
  opf_data : Option (List Nat)
  encryption_data : Option (List Nat)
  current_item_info : ItemInfo
  current_itemref : Option Nat
  file_is_open : Bool
  current_filename : List Nat
  book_params : Bool

/-- The empty document, as after `xml_document::reset()`. -/
def empty_document : xml_node := xml_node.element [] [] []

/-! ### The archive reader -/

/-- The content of the file `path` in a list of files, the first of that name. -/
def archive_file (files : List (List Nat × List Nat)) (path : List Nat) : Option (List Nat) :=
  (files.find? fun f => decide (f.1 = path)).map fun f => f.2

namespace Loader

/-- Modelled from the spec: `unzip.open_zip_file(name)`. -/
def open_zip_file (w : World) (ld : Loader) (name_ : List Nat) : Bool × Loader :=
  match w.disk name_ with
  | some files => (true, { ld with zip := some files })
  | none => (false, ld)

/-- Modelled from the spec: `unzip.close_zip_file()`. -/
def close_zip_file (ld : Loader) : Loader := { ld with zip := none }

/-- The content of a file of the open archive. -/
def lookup (ld : Loader) (path : List Nat) : Option (List Nat) :=
  match ld.zip with
  | none => none
  | some files => archive_file files path

/-- Modelled from the spec: `unzip.get_file(path, size)`: the bytes of the file (`none`
for the null pointer) and the reader afterwards; every call is counted. -/
def get_file (ld : Loader) (path : List Nat) : Option (List Nat) × Loader :=
  (ld.lookup path, { ld with reads := ld.reads + 1 })

/-- Modelled from the spec: `unzip.get_file_size(path)`, 0 for a file that is not
there. -/
def get_file_size (ld : Loader) (path : List Nat) : Nat :=
  match ld.lookup path with
  | some d => d.length
  | none => 0

/-- Modelled from the spec: `unzip.file_exists(path)`. -/
def file_exists (ld : Loader) (path : List Nat) : Bool := (ld.lookup path).isSome

end Loader

/-! ### Fonts: `EPub::get_file_obfuscation`, `EPub::load_font`,
`EPub::retrieve_fonts_from_css` (epub.cpp, lines 153-178 and 500-625) -/

/-- The loop of `EPub::get_file_obfuscation` over the `enc:EncryptedData` children. -/
def obfuscation_loop (filename : List Nat) : List xml_node → ObfuscationType
  | [] => ObfuscationType.NONE
  | n :: rest =>
      if n.name = bytes "enc:EncryptedData" then
        let uri :=
          match n.child (bytes "enc:CipherData") with
          | none => []
          | some c =>
              match c.child (bytes "enc:CipherReference") with
              | none => []
              | some r => r.attribute_value (bytes "URI")
        if uri = filename then
          let algorithm :=
            match n.child (bytes "enc:EncryptionMethod") with
            | none => []
            | some m => m.attribute_value (bytes "Algorithm")
          if algorithm = bytes "http://ns.adobe.com/pdf/enc#RC" then ObfuscationType.ADOBE
          else if algorithm = bytes "http://www.idpf.org/2008/embedding" then
            ObfuscationType.IDPF
          else ObfuscationType.UNKNOWN
        else obfuscation_loop filename rest
      else obfuscation_loop filename rest

/-- The function `EPub::get_file_obfuscation(filename)`. -/
def get_file_obfuscation (pkg : Package) (filename : List Nat) : ObfuscationType :=
  if pkg.encryption_present then
    match pkg.encryption.child (bytes "encryption") with
    | none => ObfuscationType.NONE
    | some e => obfuscation_loop filename e.children
  else ObfuscationType.NONE

/-- The function `EPub::load_font(filename, font_family, style)`: the returned flag and
the state afterwards. -/
def load_font (w : World) (pkg : Package) (ld : Loader)
    (filename font_family : List Nat) (style : Nat) : Bool × Loader :=
  let size := ld.get_file_size (c_str filename)
  if size > 0 then
    if (ld.fonts_size + size) % 4294967296 > 800000 then
      (false, { ld with fonts_size_too_large := true })
    else
      let obf_type := get_file_obfuscation pkg (c_str filename)
      if obf_type = ObfuscationType.UNKNOWN then (false, ld)
      else
        match ld.get_file (c_str filename) with
        | (none, ld1) => (false, ld1)
        | (some buffer, ld1) =>
            let buffer := decrypt pkg.keys buffer buffer.length obf_type
            if w.font_add_ok font_family style buffer then
              (true, { ld1 with
                fonts := ld1.fonts ++ [⟨font_family, style, buffer, filename⟩],
                fonts_size := (ld1.fonts_size + buffer.length) % 4294967296 })
            else (false, ld1)
  else (false, ld)

/-- The call `fonts.get_index(font_family, style) == -1`: no font of that family and
style is in the registry. -/
def font_not_loaded (ld : Loader) (font_family : List Nat) (style : Nat) : Bool :=
  ld.fonts.all fun e => !(decide (e.font_family = font_family) && decide (e.style = style))

/-- The loop `for (auto & rule : font_rules)` of `EPub::retrieve_fonts_from_css`; `none`
when `filename_locate` has no defined result. -/
def font_rules_loop (w : World) (pkg : Package) (css : CSS) :
    List FontFace → Loader → Option Loader
  | [], ld => some ld
  | rule :: rest, ld =>
      match rule.font_family, rule.src with
      | some font_family, some src =>
          if font_not_loaded ld (c_str font_family) rule.style then
            match filename_locate pkg.opf_base_path (c_str (css.folder_path ++ src)) with
            | none => none
            | some filename =>
                let ld1 := (load_font w pkg ld filename font_family rule.style).2
                if ld1.fonts_size_too_large then some ld1
                else font_rules_loop w pkg css rest ld1
          else font_rules_loop w pkg css rest ld
      | _, _ => font_rules_loop w pkg css rest ld

/-- The function `EPub::retrieve_fonts_from_css(css)`. -/
def retrieve_fonts_from_css (w : World) (pkg : Package) (css : CSS) (ld : Loader) :
    Option Loader :=
  if !w.use_epub_fonts then some ld
  else if pkg.use_fonts_in_book = 0 ∨ ld.fonts_size_too_large = true then some ld
  else font_rules_loop w pkg css (w.font_faces css) ld

/-- The loop of `EPub::load_fonts()` over the style sheets of `css_cache`. -/
def load_fonts_loop (w : World) (pkg : Package) : List CSS → Loader → Option Loader
  | [], ld => some ld
  | css :: rest, ld =>
      match retrieve_fonts_from_css w pkg css ld with
      | none => none
      | some ld1 => load_fonts_loop w pkg rest ld1

/-- The function `EPub::load_fonts()`. -/
def load_fonts (w : World) (pkg : Package) (ld : Loader) : Option Loader :=
  load_fonts_loop w pkg ld.css_cache ld

/-! ### Loading an item: `extract_path`, `EPub::retrieve_file`, `EPub::retrieve_css`,
`EPub::clear_item_data`, `EPub::get_item` (epub.cpp, lines 121-128, 446-461, 627-832
and 927-945) -/

/-- The loop `while ((i > 0) && (fname[i] != '/')) i--;` of `extract_path`. -/
def extract_path_loop (fname : List Nat) : Nat → Nat
  | 0 => 0
  | i + 1 => if fname.getD (i + 1) 0 ≠ 47 then extract_path_loop fname i else i + 1

/-- The function `extract_path(fname, path)`: the value of `path` afterwards. -/
def extract_path (fname : List Nat) : List Nat :=
  let i := extract_path_loop fname (fname.length - 1)
  if i > 0 then fname.take (i + 1) else []

/-- The function `EPub::clear_item_data(item)`. -/
def clear_item_data (item : ItemInfo) : ItemInfo :=
  { item with xml_doc := empty_document, data := none, css_list := [], css_cache := [],
              itemref_index := -1 }

/-- The function `EPub::retrieve_file(fname, size)`: the bytes of the file (`none` for
the null pointer) and the state afterwards; no defined result when `filename_locate`
has none. -/
def retrieve_file (pkg : Package) (ld : Loader) (fname : List Nat) :
    Option (Option (List Nat) × Loader) :=
  match filename_locate pkg.opf_base_path (c_str fname) with
  | none => none
  | some filename => some (ld.get_file filename)

/-- The loop of `EPub::retrieve_css` over the `link` children of `html/head`. -/
def css_link_loop (w : World) (pkg : Package) :
    List xml_node → Loader → ItemInfo → Option (Loader × ItemInfo)
  | [], ld, item => some (ld, item)
  | node :: rest, ld, item =>
      if node.name = bytes "link" ∧ node.attr (bytes "type") = some (bytes "text/css") then
        match node.attr (bytes "href") with
        | none => css_link_loop w pkg rest ld item
        | some css_id =>
            match ld.css_cache.find? fun c => decide (c.id = css_id) with
            | some css =>
                css_link_loop w pkg rest ld { item with css_list := item.css_list ++ [css] }
            | none =>
                let fname := item.file_path ++ c_str css_id
                match retrieve_file pkg ld fname with
                | none => none
                | some (none, ld1) => css_link_loop w pkg rest ld1 item
                | some (some data, ld1) =>
                    let css_tmp : CSS := ⟨css_id, extract_path fname, data⟩
                    match retrieve_fonts_from_css w pkg css_tmp ld1 with
                    | none => none
                    | some ld2 =>
                        css_link_loop w pkg rest
                          { ld2 with css_cache := ld2.css_cache ++ [css_tmp] }
                          { item with css_list := item.css_list ++ [css_tmp] }
      else css_link_loop w pkg rest ld item

/-- The text that `EPub::retrieve_css` takes from a `style` element: the value of its
first child. -/
def style_text (node : xml_node) : List Nat :=
  match node.children with
  | xml_node.pcdata v :: _ => v
  | _ => []

/-- The loop of `EPub::retrieve_css` over the `style` children of `html/head`. -/
def css_style_loop (w : World) (pkg : Package) :
    List xml_node → Loader → ItemInfo → Option (Loader × ItemInfo)
  | [], ld, item => some (ld, item)
  | node :: rest, ld, item =>
      if node.name = bytes "style" then
        let css_tmp : CSS := ⟨bytes "current-item", item.file_path, c_str (style_text node)⟩
        match retrieve_fonts_from_css w pkg css_tmp ld with
        | none => none
        | some ld1 =>
            css_style_loop w pkg rest ld1 { item with css_cache := item.css_cache ++ [css_tmp] }
      else css_style_loop w pkg rest ld item

/-- The children of `item.xml_doc.child("html").child("head")`. -/
def head_children (doc : xml_node) : List xml_node :=
  match doc.child (bytes "html") with
  | none => []
  | some html =>
      match html.child (bytes "head") with
      | none => []
      | some head => head.children

/-- The function `EPub::retrieve_css(item)`. -/
def retrieve_css (w : World) (pkg : Package) (ld : Loader) (item : ItemInfo) :
    Option (Loader × ItemInfo) :=
  match css_link_loop w pkg (head_children item.xml_doc) ld item with
  | none => none
  | some (ld1, item1) =>
      match css_style_loop w pkg (head_children item1.xml_doc) ld1 item1 with
      | none => none
      | some (ld2, item2) => some (ld2, { item2 with css := item2.css_list ++ item2.css_cache })

/-- The media types that `EPub::get_item` accepts. -/
def media_type_of (media_type : List Nat) : Option MediaType :=
  if media_type = bytes "application/xhtml+xml" then some MediaType.XML
  else if media_type = bytes "image/jpeg" then some MediaType.JPEG
  else if media_type = bytes "image/png" then some MediaType.PNG
  else if media_type = bytes "image/bmp" then some MediaType.BMP
  else if media_type = bytes "image/gif" then some MediaType.GIF
  else none

/-- The manifest item `one_by_attr(opf.find_child(package_pred).find_child(manifest_pred),
"item", "opf:item", "id", id)`. -/
def manifest_item (opf : xml_node) (id : List Nat) : Option xml_node :=
  one_by_attr
    (match opf.find_child package_pred with
     | none => none
     | some package => package.find_child manifest_pred)
    (bytes "item") (bytes "opf:item") (bytes "id") id

/-- The function `EPub::get_item(itemref, item)`: the returned flag, the state and the
item afterwards; no defined result when `filename_locate` has none.  The changes that
the parser makes in the buffer it parses in place are not modelled. -/
def get_item (w : World) (pkg : Package) (file_is_open : Bool) (itemref : xml_node)
    (ld : Loader) (item : ItemInfo) : Option (Bool × Loader × ItemInfo) :=
  if !file_is_open then some (false, ld, item)
  else
    let item := clear_item_data item
    let id := itemref.attribute_value (bytes "idref")
    match manifest_item pkg.opf id with
    | none => some (false, ld, clear_item_data item)
    | some node =>
        match node.attr (bytes "media-type") with
        | none => some (false, ld, clear_item_data item)
        | some media_type =>
            match media_type_of media_type with
            | none => some (false, ld, clear_item_data item)
            | some m =>
                let item := { item with media_type := m }
                match node.attr (bytes "href") with
                | none => some (false, ld, clear_item_data item)
                | some href =>
                    let item := { item with file_path := extract_path (c_str href) }
                    match retrieve_file pkg ld href with
                    | none => none
                    | some (none, ld1) => some (false, ld1, clear_item_data item)
                    | some (some data, ld1) =>
                        if m = MediaType.XML then
                          match blank_markers data with
                          | none => none
                          | some data1 =>
                              match w.parse data1 with
                              | none =>
                                  some (false, ld1,
                                    { item with xml_doc := empty_document, data := none })
                              | some doc =>
                                  match retrieve_css w pkg ld1
                                      { item with data := some data1, xml_doc := doc } with
                                  | none => none
                                  | some (ld2, item2) => some (true, ld2, item2)
                        else some (true, ld1, { item with data := some data })

/-! ### The session: `EPub::open_file`, `EPub::close_file`,
`EPub::get_item_at_index` (epub.cpp, lines 130-149, 180-265, 365-414, 878-986 and
1071-1095) -/

/-- The function `spine_pred`. -/
def spine_pred (node : xml_node) : Bool :=
  decide (node.name = bytes "spine") || decide (node.name = bytes "opf:spine")

/-- The function `xmlns_pred`, on the name of an attribute. -/
def xmlns_pred (a : List Nat × List Nat) : Bool :=
  decide (a.1 = bytes "xmlns") || decide (a.1 = bytes "xmlns:opf")

/-- The function `EPub::check_mimetype()`. -/
def check_mimetype (ld : Loader) : Bool × Loader :=
  match ld.get_file (bytes "mimetype") with
  | (none, ld1) => (false, ld1)
  | (some data, ld1) => (decide (data.take 20 = bytes "application/epub+zip"), ld1)

/-- The loop of `EPub::get_opf_filename` on the parsed container document: the value of
`full-path`, `none` for the errors 1, 2 and 3. -/
def container_rootfile (doc : xml_node) : Option (List Nat) :=
  match doc.child (bytes "container") with
  | none => none
  | some node =>
      if node.attr (bytes "version") = some (bytes "1.0") then
        match node.child (bytes "rootfiles") with
        | none => none
        | some rootfiles =>
            match rootfiles.find_child_by_attribute (bytes "rootfile") (bytes "media-type")
                (bytes "application/oebps-package+xml") with
            | none => none
            | some rootfile => rootfile.attr (bytes "full-path")
      else none

/-- The function `EPub::get_opf_filename(filename)`: the name it stores when it returns
true, `none` when it returns false, and the state afterwards. -/
def get_opf_filename (w : World) (ld : Loader) : Option (List Nat) × Loader :=
  match ld.get_file (bytes "META-INF/container.xml") with
  | (none, ld1) => (none, ld1)
  | (some data, ld1) =>
      match w.parse data with
      | none => (none, ld1)
      | some doc => (container_rootfile doc, ld1)

/-- The version check of `EPub::get_opf` on the parsed package document. -/
def opf_version_ok (opf : xml_node) : Bool :=
  match opf.find_child package_pred with
  | none => false
  | some node =>
      match node.attributes.find? xmlns_pred with
      | none => false
      | some a =>
          decide (a.2 = bytes "http://www.idpf.org/2007/opf") &&
            (decide (node.attr (bytes "version") = some (bytes "1.0")) ||
             decide (node.attr (bytes "version") = some (bytes "2.0")) ||
             decide (node.attr (bytes "version") = some (bytes "3.0")))

/-- The function `EPub::get_opf(filename)`.  After a failed version check the buffer
`opf_data` is freed and the pointer keeps its value. -/
def get_opf (w : World) (s : EPub) (filename : List Nat) : Bool × EPub :=
  let s := { s with package := { s.package with opf_base_path := extract_path (c_str filename) } }
  match s.loader.get_file (c_str filename) with
  | (none, ld1) =>
      (false, { s with loader := ld1, opf_data := none,
                       package := { s.package with opf := empty_document } })
  | (some data, ld1) =>
      match w.parse data with
      | none =>
          (false, { s with loader := ld1, opf_data := none,
                           package := { s.package with opf := empty_document } })
      | some doc =>
          if opf_version_ok doc then
            (true, { s with loader := ld1, opf_data := some data,
                            package := { s.package with opf := doc } })
          else
            (false, { s with loader := ld1, opf_data := some data,
                             package := { s.package with opf := empty_document } })

/-- The function `EPub::get_encryption_xml()`; its result is not used.  After a parse
error the encryption document is taken to be empty. -/
def get_encryption_xml (w : World) (s : EPub) : EPub :=
  let s := { s with package := { s.package with encryption_present := false } }
  let fname := bytes "META-INF/encryption.xml"
  if s.loader.file_exists fname then
    match s.loader.get_file fname with
    | (none, ld1) => { s with loader := ld1, encryption_data := none }
    | (some data, ld1) =>
        match w.parse data with
        | none =>
            { s with loader := ld1, encryption_data := none,
                     package := { s.package with encryption := empty_document } }
        | some doc =>
            let e :=
              match doc.child (bytes "encryption") with
              | none => empty_document
              | some e => e
            if e.attribute_value (bytes "xmlns") ≠
                  bytes "urn:oasis:names:tc:opendocument:xmlns:container" ∨
                e.attribute_value (bytes "xmlns:enc") ≠
                  bytes "http://www.w3.org/2001/04/xmlenc#" then
              { s with loader := ld1, encryption_data := none,
                       package := { s.package with encryption := empty_document } }
            else
              { s with loader := ld1, encryption_data := some data,
                       package := { s.package with
                         encryption := doc,
                         keys := (get_keys_opf w.sha1 s.package.keys s.package.opf).2,
                         encryption_present := true } }
  else s

/-- The function `EPub::close_file()`. -/
def close_file (s : EPub) : Bool × EPub :=
  if !s.file_is_open then (true, s)
  else
    (true,
      { s with
        current_item_info := clear_item_data s.current_item_info,
        opf_data := none,
        encryption_data := none,
        package := { s.package with
          opf := if s.opf_data.isSome then empty_document else s.package.opf,
          opf_base_path := [],
          encryption :=
            if s.encryption_data.isSome then empty_document else s.package.encryption,
          encryption_present := false },
        loader := { s.loader.close_zip_file with css_cache := [], fonts := [] },
        file_is_open := false,
        current_filename := [],
        book_params := false })

/-- The function `EPub::open_file(epub_filename)`.  The calls `page_locs.clear()` and
`fonts.adjust_default_font` touch objects that the model does not hold. -/
def open_file (w : World) (s : EPub) (epub_filename : List Nat) : Bool × EPub :=
  if s.file_is_open ∧ s.current_filename = epub_filename then (true, s)
  else
    let s := if s.file_is_open then (close_file s).2 else s
    match s.loader.open_zip_file w (c_str epub_filename) with
    | (false, ld) => (false, { s with loader := ld })
    | (true, ld) =>
        match check_mimetype ld with
        | (false, ld1) => (false, { s with loader := ld1 })
        | (true, ld1) =>
            match get_opf_filename w ld1 with
            | (none, ld2) => (false, { s with loader := ld2 })
            | (some filename, ld2) =>
                match get_opf w { s with loader := ld2 } filename with
                | (false, s1) => (false, { s1 with loader := s1.loader.close_zip_file })
                | (true, s1) =>
                    let s2 := get_encryption_xml w s1
                    (true,
                      { s2 with
                        book_params := true,
                        package := { s2.package with
                          use_fonts_in_book := w.book_use_fonts epub_filename },
                        current_item_info := clear_item_data s2.current_item_info,
                        current_filename := epub_filename,
                        file_is_open := true,
                        loader := { s2.loader with
                          fonts_size_too_large := false, fonts_size := 0 } })

/-- The loop `for (auto n : ...children()) { if (index == itemref_index) { node = n; break; } index++; }`
of `EPub::get_item_at_index`: the position of the node found and the node; `index` is
an `int16_t`. -/
def spine_node_loop (itemref_index : Int) : List xml_node → Int → Nat → Option (Nat × xml_node)
  | [], _, _ => none
  | n :: rest, index, pos =>
      if index = itemref_index then some (pos, n)
      else spine_node_loop itemref_index rest (wrap_int16 (index + 1)) (pos + 1)

/-- The children of `opf.find_child(package_pred).find_child(spine_pred)`. -/
def spine_children (opf : xml_node) : List xml_node :=
  match opf.find_child package_pred with
  | none => []
  | some package =>
      match package.find_child spine_pred with
      | none => []
      | some spine => spine.children

/-- The function `EPub::get_item_at_index(itemref_index)` with one argument: the
returned flag and the state afterwards. -/
def get_item_at_index (w : World) (s : EPub) (itemref_index : Int) : Option (Bool × EPub) :=
  if !s.file_is_open then some (false, s)
  else if s.current_item_info.itemref_index = itemref_index then some (true, s)
  else
    match spine_node_loop itemref_index (spine_children s.package.opf) 0 0 with
    | none => some (false, s)
    | some (pos, node) =>
        if s.current_item_info.data.isNone ∨ s.current_itemref ≠ some pos then
          match get_item w s.package s.file_is_open node s.loader s.current_item_info with
          | none => none
          | some (res, ld, item) =>
              some (res,
                { s with
                  loader := ld,
                  current_item_info := { item with itemref_index := itemref_index },
                  current_itemref := if res then some pos else s.current_itemref })
        else some (false, s)

/-! ### An example session -/

/-- The parsed container document of the example. -/
def container_example : xml_node :=
  xml_node.element [] []
    [xml_node.element (bytes "container") [(bytes "version", bytes "1.0")]
      [xml_node.element (bytes "rootfiles") []
        [xml_node.element (bytes "rootfile")
          [(bytes "full-path", bytes "OEBPS/content.opf"),
           (bytes "media-type", bytes "application/oebps-package+xml")] []]]]

/-- The parsed package document of the example: the manifest has the item `c1`, and the
spine refers to `c1` and to `c2`, which the manifest does not have. -/
def opf_session_example : xml_node :=
  xml_node.element [] []
    [xml_node.element (bytes "package")
      [(bytes "xmlns", bytes "http://www.idpf.org/2007/opf"), (bytes "version", bytes "2.0")]
      [xml_node.element (bytes "metadata") [] [],
       xml_node.element (bytes "manifest") []
        [xml_node.element (bytes "item")
           [(bytes "id", bytes "c1"), (bytes "href", bytes "ch1.xhtml"),
            (bytes "media-type", bytes "application/xhtml+xml")] []],
       xml_node.element (bytes "spine") []
        [xml_node.element (bytes "itemref") [(bytes "idref", bytes "c1")] [],
         xml_node.element (bytes "itemref") [(bytes "idref", bytes "c2")] []]]]

/-- The parsed content document of the example. -/
def chapter_example : xml_node :=
  xml_node.element [] []
    [xml_node.element (bytes "html") []
      [xml_node.element (bytes "head") [] [],
       xml_node.element (bytes "body") [] [xml_node.pcdata (bytes "One")]]]

/-- The files of the archive `book.epub` of the example. -/
def book_files_example : List (List Nat × List Nat) :=
  [(bytes "mimetype", bytes "application/epub+zip"),
   (bytes "META-INF/container.xml", bytes "<container/>"),
   (bytes "OEBPS/content.opf", bytes "<package/>"),
   (bytes "OEBPS/ch1.xhtml", bytes "<html/>")]

/-- The collaborators of the example: the archives `book.epub` and `bare.epub`, the
latter without `META-INF/container.xml`; a parser that knows the three documents of
`book.epub`; no fonts. -/
def world_example : World where
  disk := fun name_ =>
    if name_ = bytes "book.epub" then some book_files_example
    else if name_ = bytes "bare.epub" then
      some [(bytes "mimetype", bytes "application/epub+zip")]
    else none
  parse := fun data =>
    if data = bytes "<container/>" then some container_example
    else if data = bytes "<package/>" then some opf_session_example
    else if data = bytes "<html/>" then some chapter_example
    else none
  font_faces := fun _ => []
  font_add_ok := fun _ _ _ => true
  sha1 := fun _ => List.replicate 20 0
  use_epub_fonts := true
  book_use_fonts := fun _ => 1

/-- The `EPub` object after its constructor. -/
def epub_new : EPub where
  package := ⟨empty_document, [], empty_document, false, ⟨List.replicate 16 0, List.replicate 20 0⟩, 0⟩
  loader := ⟨none, 0, [], [], 0, false⟩
  opf_data := none
  encryption_data := none
  current_item_info := ⟨none, empty_document, MediaType.XML, [], [], [], [], -1⟩
  current_itemref := none
  file_is_open := false
  current_filename := []
  book_params := false

/-- The session of the example after `open_file("book.epub")`. -/
def epub_open_example : EPub := (open_file world_example epub_new (bytes "book.epub")).2

/-- The session of the example after `open_file("book.epub")` and
`get_item_at_index(0)`. -/
def epub_loaded_example : EPub :=
  match get_item_at_index world_example epub_open_example 0 with
  | some r => r.2
  | none => epub_open_example

/-! ### Operations of a session that can load fonts -/

/-- An operation of an open session that can reach `EPub::load_font`: the call of
`retrieve_fonts_from_css` for a style sheet, `load_fonts()`, and the single-argument
`get_item_at_index(i)`. -/
inductive FontOp
  | retrieve (css : CSS)
  | load_all
  | item_at (i : Int)

/-- The state after one operation; `none` when it has no defined result. -/
def run_font_op (w : World) (s : EPub) : FontOp → Option EPub
  | FontOp.retrieve css =>
      (retrieve_fonts_from_css w s.package css s.loader).map fun ld => { s with loader := ld }
  | FontOp.load_all => (load_fonts w s.package s.loader).map fun ld => { s with loader := ld }
  | FontOp.item_at i => (get_item_at_index w s i).map fun r => r.2

/-- The state after a sequence of operations. -/
def run_font_ops (w : World) : List FontOp → EPub → Option EPub
  | [], s => some s
  | op :: rest, s =>
      match run_font_op w s op with
      | none => none
      | some s1 => run_font_ops w rest s1

/-- The files of the archive `fonts.epub` of the example: the fonts `big.ttf` of 20
bytes and `small.ttf` of 5 bytes. -/
def fonts_files_example : List (List Nat × List Nat) :=
  [(bytes "big.ttf", List.replicate 20 0), (bytes "small.ttf", List.replicate 5 0)]

/-- The collaborators of the example with fonts: every style sheet has one `@font-face`
rule, whose family is the id of the sheet and whose `src` is its source text. -/
def world_fonts_example : World :=
  { world_example with
    disk := fun name_ => if name_ = bytes "fonts.epub" then some fonts_files_example else none
    font_faces := fun css => [⟨some css.id, 0, some css.source⟩] }

/-- A session with `fonts.epub` open in which 799990 bytes of fonts are loaded. -/
def epub_fonts_example : EPub :=
  { epub_new with
    file_is_open := true
    current_filename := bytes "fonts.epub"
    package := { epub_new.package with use_fonts_in_book := 1 }
    loader := ⟨some fonts_files_example, 0, [], [], 799990, false⟩ }

/-- The session `epub_fonts_example` after the load of `big.ttf` has set the flag. -/
def epub_flagged_example : EPub :=
  { epub_fonts_example with
    loader := { epub_fonts_example.loader with fonts_size_too_large := true } }

/-! # Theorems -/

/-! ### De-obfuscation -/

/-- The loop, started at offset `o` with `key_idx = o mod key_size`, computes the
indexed map of the reference definition. -/
theorem decrypt_loop_eq_map (key : List Nat) (key_size : Nat) (hk : 0 < key_size) :
    ∀ (str : List Nat) (length o : Nat),
      decrypt_loop key key_size length (o % key_size) str =
        (str.enumFrom o).map fun p =>
          if p.1 < o + length then p.2 ^^^ key.getD (p.1 % key_size) 0 else p.2 := by
  intro str
  induction str with
  | nil => intro length o; cases length <;> simp [decrypt_loop]
  | cons b str ih =>
    intro length o
    cases length with
    | zero =>
      simp only [decrypt_loop, Nat.add_zero]
      have : ∀ (l : List Nat) (m : Nat), o ≤ m →
          l = (l.enumFrom m).map fun p =>
            if p.1 < o then p.2 ^^^ key.getD (p.1 % key_size) 0 else p.2 := by
        intro l
        induction l with
        | nil => intro m _; simp
        | cons a l ihl =>
          intro m hm
          simp only [List.enumFrom_cons, List.map_cons]
          rw [if_neg (by omega), ← ihl (m + 1) (by omega)]
      exact this _ o (le_refl o)
    | succ length =>
      simp only [decrypt_loop, List.enumFrom_cons, List.map_cons]
      have hstep : (if o % key_size + 1 ≥ key_size then 0 else o % key_size + 1)
          = (o + 1) % key_size := by
        have hlt := Nat.mod_lt o hk
        have hsplit : (o + 1) % key_size = (o % key_size + 1) % key_size := by
          conv_lhs => rw [← Nat.div_add_mod o key_size, Nat.add_assoc, Nat.mul_add_mod]
        rw [hsplit]
        split
        · have h1 : o % key_size + 1 = key_size := by omega
          rw [h1, Nat.mod_self]
        · exact (Nat.mod_eq_of_lt (a := o % key_size + 1) (by omega)).symm
      rw [hstep, ih length (o + 1), if_pos (by omega)]
      have hadd : o + 1 + length = o + (length + 1) := by omega
      rw [hadd]

/-- The loop started at the beginning of the buffer. -/
theorem decrypt_loop_zero (key : List Nat) (key_size : Nat) (hk : 0 < key_size)
    (str : List Nat) (length : Nat) :
    decrypt_loop key key_size length 0 str =
      str.enum.map fun p =>
        if p.1 < length then p.2 ^^^ key.getD (p.1 % key_size) 0 else p.2 := by
  have h := decrypt_loop_eq_map key key_size hk str length 0
  simpa [List.enum] using h

/-- The clamped length of `EPub::decrypt` is the minimum of `size` and the constant. -/
theorem clamp_eq_min (size L : Nat) : (if size > L then L else size) = min size L := by
  split <;> omega

/-- The loop keeps the number of bytes. -/
theorem decrypt_loop_length (key : List Nat) (key_size : Nat) :
    ∀ (str : List Nat) (length key_idx : Nat),
      (decrypt_loop key key_size length key_idx str).length = str.length := by
  intro str
  induction str with
  | nil => intro length key_idx; cases length <;> simp [decrypt_loop]
  | cons b str ih =>
    intro length key_idx
    cases length with
    | zero => simp [decrypt_loop]
    | succ length => simp [decrypt_loop, ih]

/-- Running the loop twice from the same `key_idx` over the same length gives back the bytes. -/
theorem decrypt_loop_twice (key : List Nat) (key_size : Nat) :
    ∀ (str : List Nat) (length key_idx : Nat),
      decrypt_loop key key_size length key_idx
        (decrypt_loop key key_size length key_idx str) = str := by
  intro str
  induction str with
  | nil => intro length key_idx; cases length <;> simp [decrypt_loop]
  | cons b str ih =>
    intro length key_idx
    cases length with
    | zero => simp [decrypt_loop]
    | succ length =>
      simp only [decrypt_loop, ih, List.cons.injEq, and_true]
      rw [Nat.xor_assoc, Nat.xor_self, Nat.xor_zero]

/-- C1: `EPub::decrypt` equals the reference definition for every key pair, buffer,
size and kind: for ADOBE (length 1024, key `bin_uuid` cycled modulo 16) and IDPF
(length 1040, key `sha_uuid` cycled modulo 20) byte `i < min(size, L)` becomes
`buffer[i] XOR key[i mod k]` and the other bytes are unchanged; for NONE and
UNKNOWN the buffer is unchanged. -/
theorem decrypt_eq_reference (k : Keys) (buffer : List Nat) (size : Nat)
    (obf_type : ObfuscationType) :
    decrypt k buffer size obf_type = decrypt_reference k buffer size obf_type := by
  cases obf_type
  · rfl
  · simp only [decrypt, decrypt_reference, clamp_eq_min]
    exact decrypt_loop_zero k.bin_uuid 16 (by decide) buffer (min size 1024)
  · simp only [decrypt, decrypt_reference, clamp_eq_min]
    exact decrypt_loop_zero k.sha_uuid 20 (by decide) buffer (min size 1040)
  · rfl

/-- C2: `EPub::decrypt` is self-inverse: for every buffer, size, kind and fixed keys,
applying it twice with the same kind gives back the original bytes. -/
theorem decrypt_self_inverse (k : Keys) (buffer : List Nat) (size : Nat)
    (obf_type : ObfuscationType) :
    decrypt k (decrypt k buffer size obf_type) size obf_type = buffer := by
  cases obf_type
  · rfl
  · simp only [decrypt]; exact decrypt_loop_twice _ _ _ _ _
  · simp only [decrypt]; exact decrypt_loop_twice _ _ _ _ _
  · rfl

/-! ### Key derivation and the unique identifier -/

/-- On a valid hexadecimal digit `hex_to_bin` gives the digit value, which is below 16. -/
theorem hex_to_bin_valid (ch : Nat) (h : valid_hex ch = true) :
    hex_to_bin ch = hex_digit_value ch ∧ hex_to_bin ch < 16 ∧ ch ≠ 45 ∧ ch ≠ 117 := by
  have hle : ch ≤ 102 := by
    simp only [valid_hex, Bool.or_eq_true, Bool.and_eq_true, decide_eq_true_eq] at h
    omega
  interval_cases ch <;> first | (exact absurd h (by decide)) | decide

/-- The byte that `to_bin` stores for two valid digits. -/
theorem to_bin_valid (str : List Nat) (i : Nat) (h0 : valid_hex (str.getD i 0) = true)
    (h1 : valid_hex (str.getD (i + 1) 0) = true) :
    to_bin str i = some (16 * hex_digit_value (str.getD i 0) + hex_digit_value (str.getD (i + 1) 0)) := by
  obtain ⟨e0, l0, _, _⟩ := hex_to_bin_valid _ h0
  obtain ⟨e1, l1, _, _⟩ := hex_to_bin_valid _ h1
  simp only [to_bin, h0, h1, Bool.and_self, if_true, Option.some.injEq]
  rw [Nat.shiftLeft_eq, ← e0, ← e1]
  omega

/-- A list of 36 bytes is the list of its 36 elements. -/
theorem list_of_length_36 (u : List Nat) (h : u.length = 36) :
    u = (List.range 36).map fun i => u.getD i 0 := by
  apply List.ext_getElem
  · simp [h]
  · intro n h1 h2
    simp [List.getElem?_eq_getElem h1]

/-- When every digit pair of the table is valid the loop succeeds and overwrites one
byte per table entry, in order. -/
theorem get_keys_loop_ok (str : List Nat) (pos : Nat) :
    ∀ (rest : List Nat) (pre mid post : List Nat),
      (∀ i ∈ rest, valid_hex (str.getD (pos + i) 0) = true ∧
        valid_hex (str.getD (pos + i + 1) 0) = true) →
      mid.length = rest.length →
      get_keys_loop str pos rest pre.length (pre ++ mid ++ post) =
        (true, pre ++
          rest.map (fun i => 16 * hex_digit_value (str.getD (pos + i) 0) +
            hex_digit_value (str.getD (pos + i + 1) 0)) ++ post) := by
  intro rest
  induction rest with
  | nil =>
    intro pre mid post _ hm
    have : mid = [] := List.length_eq_zero.mp hm
    simp [get_keys_loop, this]
  | cons i rest ih =>
    intro pre mid post hv hm
    have hi := hv i (List.mem_cons_self _ _)
    cases mid with
    | nil => simp at hm
    | cons m mid =>
      simp only [List.length_cons, Nat.add_right_cancel_iff] at hm
      rw [get_keys_loop, to_bin_valid str (pos + i) hi.1 hi.2]
      simp only
      have hset : (pre ++ m :: mid ++ post).set pre.length
          (16 * hex_digit_value (str.getD (pos + i) 0) +
            hex_digit_value (str.getD (pos + i + 1) 0)) =
          (pre ++ [16 * hex_digit_value (str.getD (pos + i) 0) +
            hex_digit_value (str.getD (pos + i + 1) 0)]) ++ mid ++ post := by
        simp [List.append_assoc]
      have hl : pre.length + 1 = (pre ++ [16 * hex_digit_value (str.getD (pos + i) 0) +
            hex_digit_value (str.getD (pos + i + 1) 0)]).length := by simp
      rw [hset, hl, ih _ mid post (fun j hj => hv j (List.mem_cons_of_mem _ hj)) hm]
      simp [List.append_assoc]

/-- For an identifier of the UUID shape the bytes written by the loop are the key of
the specification. -/
theorem idxs_map_eq_uuid_key (u : List Nat) (hu : uuid_shape u) :
    idxs.map (fun i => 16 * hex_digit_value (u.getD i 0) + hex_digit_value (u.getD (i + 1) 0)) =
      uuid_key u := by
  have h0 := hu.2 0 (by decide)
  have h1 := hu.2 1 (by decide)
  have h2 := hu.2 2 (by decide)
  have h3 := hu.2 3 (by decide)
  have h4 := hu.2 4 (by decide)
  have h5 := hu.2 5 (by decide)
  have h6 := hu.2 6 (by decide)
  have h7 := hu.2 7 (by decide)
  have h8 := hu.2 8 (by decide)
  have h9 := hu.2 9 (by decide)
  have h10 := hu.2 10 (by decide)
  have h11 := hu.2 11 (by decide)
  have h12 := hu.2 12 (by decide)
  have h13 := hu.2 13 (by decide)
  have h14 := hu.2 14 (by decide)
  have h15 := hu.2 15 (by decide)
  have h16 := hu.2 16 (by decide)
  have h17 := hu.2 17 (by decide)
  have h18 := hu.2 18 (by decide)
  have h19 := hu.2 19 (by decide)
  have h20 := hu.2 20 (by decide)
  have h21 := hu.2 21 (by decide)
  have h22 := hu.2 22 (by decide)
  have h23 := hu.2 23 (by decide)
  have h24 := hu.2 24 (by decide)
  have h25 := hu.2 25 (by decide)
  have h26 := hu.2 26 (by decide)
  have h27 := hu.2 27 (by decide)
  have h28 := hu.2 28 (by decide)
  have h29 := hu.2 29 (by decide)
  have h30 := hu.2 30 (by decide)
  have h31 := hu.2 31 (by decide)
  have h32 := hu.2 32 (by decide)
  have h33 := hu.2 33 (by decide)
  have h34 := hu.2 34 (by decide)
  have h35 := hu.2 35 (by decide)
  simp only [Nat.reduceEqDiff, or_self, or_false, or_true, false_or, true_or, if_true, if_false] at h0 h1 h2 h3 h4 h5 h6 h7 h8 h9 h10 h11 h12 h13 h14 h15 h16 h17 h18 h19 h20 h21 h22 h23 h24 h25 h26 h27 h28 h29 h30 h31 h32 h33 h34 h35
  have n0 : u.getD 0 0 ≠ 45 := (hex_to_bin_valid _ h0).2.2.1
  have n1 : u.getD 1 0 ≠ 45 := (hex_to_bin_valid _ h1).2.2.1
  have n2 : u.getD 2 0 ≠ 45 := (hex_to_bin_valid _ h2).2.2.1
  have n3 : u.getD 3 0 ≠ 45 := (hex_to_bin_valid _ h3).2.2.1
  have n4 : u.getD 4 0 ≠ 45 := (hex_to_bin_valid _ h4).2.2.1
  have n5 : u.getD 5 0 ≠ 45 := (hex_to_bin_valid _ h5).2.2.1
  have n6 : u.getD 6 0 ≠ 45 := (hex_to_bin_valid _ h6).2.2.1
  have n7 : u.getD 7 0 ≠ 45 := (hex_to_bin_valid _ h7).2.2.1
  have n9 : u.getD 9 0 ≠ 45 := (hex_to_bin_valid _ h9).2.2.1
  have n10 : u.getD 10 0 ≠ 45 := (hex_to_bin_valid _ h10).2.2.1
  have n11 : u.getD 11 0 ≠ 45 := (hex_to_bin_valid _ h11).2.2.1
  have n12 : u.getD 12 0 ≠ 45 := (hex_to_bin_valid _ h12).2.2.1
  have n14 : u.getD 14 0 ≠ 45 := (hex_to_bin_valid _ h14).2.2.1
  have n15 : u.getD 15 0 ≠ 45 := (hex_to_bin_valid _ h15).2.2.1
  have n16 : u.getD 16 0 ≠ 45 := (hex_to_bin_valid _ h16).2.2.1
  have n17 : u.getD 17 0 ≠ 45 := (hex_to_bin_valid _ h17).2.2.1
  have n19 : u.getD 19 0 ≠ 45 := (hex_to_bin_valid _ h19).2.2.1
  have n20 : u.getD 20 0 ≠ 45 := (hex_to_bin_valid _ h20).2.2.1
  have n21 : u.getD 21 0 ≠ 45 := (hex_to_bin_valid _ h21).2.2.1
  have n22 : u.getD 22 0 ≠ 45 := (hex_to_bin_valid _ h22).2.2.1
  have n24 : u.getD 24 0 ≠ 45 := (hex_to_bin_valid _ h24).2.2.1
  have n25 : u.getD 25 0 ≠ 45 := (hex_to_bin_valid _ h25).2.2.1
  have n26 : u.getD 26 0 ≠ 45 := (hex_to_bin_valid _ h26).2.2.1
  have n27 : u.getD 27 0 ≠ 45 := (hex_to_bin_valid _ h27).2.2.1
  have n28 : u.getD 28 0 ≠ 45 := (hex_to_bin_valid _ h28).2.2.1
  have n29 : u.getD 29 0 ≠ 45 := (hex_to_bin_valid _ h29).2.2.1
  have n30 : u.getD 30 0 ≠ 45 := (hex_to_bin_valid _ h30).2.2.1
  have n31 : u.getD 31 0 ≠ 45 := (hex_to_bin_valid _ h31).2.2.1
  have n32 : u.getD 32 0 ≠ 45 := (hex_to_bin_valid _ h32).2.2.1
  have n33 : u.getD 33 0 ≠ 45 := (hex_to_bin_valid _ h33).2.2.1
  have n34 : u.getD 34 0 ≠ 45 := (hex_to_bin_valid _ h34).2.2.1
  have n35 : u.getD 35 0 ≠ 45 := (hex_to_bin_valid _ h35).2.2.1
  have e := list_of_length_36 u hu.1
  simp only [List.range, List.range.loop, List.map_cons, List.map_nil] at e
  simp only [uuid_key, idxs, List.map_cons, List.map_nil, Nat.zero_add, Nat.reduceAdd]
  clear hu
  generalize u.getD 0 0 = c0 at *
  generalize u.getD 1 0 = c1 at *
  generalize u.getD 2 0 = c2 at *
  generalize u.getD 3 0 = c3 at *
  generalize u.getD 4 0 = c4 at *
  generalize u.getD 5 0 = c5 at *
  generalize u.getD 6 0 = c6 at *
  generalize u.getD 7 0 = c7 at *
  generalize u.getD 8 0 = c8 at *
  generalize u.getD 9 0 = c9 at *
  generalize u.getD 10 0 = c10 at *
  generalize u.getD 11 0 = c11 at *
  generalize u.getD 12 0 = c12 at *
  generalize u.getD 13 0 = c13 at *
  generalize u.getD 14 0 = c14 at *
  generalize u.getD 15 0 = c15 at *
  generalize u.getD 16 0 = c16 at *
  generalize u.getD 17 0 = c17 at *
  generalize u.getD 18 0 = c18 at *
  generalize u.getD 19 0 = c19 at *
  generalize u.getD 20 0 = c20 at *
  generalize u.getD 21 0 = c21 at *
  generalize u.getD 22 0 = c22 at *
  generalize u.getD 23 0 = c23 at *
  generalize u.getD 24 0 = c24 at *
  generalize u.getD 25 0 = c25 at *
  generalize u.getD 26 0 = c26 at *
  generalize u.getD 27 0 = c27 at *
  generalize u.getD 28 0 = c28 at *
  generalize u.getD 29 0 = c29 at *
  generalize u.getD 30 0 = c30 at *
  generalize u.getD 31 0 = c31 at *
  generalize u.getD 32 0 = c32 at *
  generalize u.getD 33 0 = c33 at *
  generalize u.getD 34 0 = c34 at *
  generalize u.getD 35 0 = c35 at *
  subst e
  simp [List.filter_cons, n0, n1, n2, n3, n4, n5, n6, n7, n9, n10, n11, n12, n14, n15, n16, n17, n19, n20, n21, n22, n24, n25, n26, n27, n28, n29, n30, n31, n32, n33, n34, n35, h8, h13, h18, h23, hex_pairs]

/-- The bytes of the URN scheme tag. -/
theorem bytes_urn : bytes "urn:uuid:" = [117, 114, 110, 58, 117, 117, 105, 100, 58] := by
  decide

/-- The result of `get_keys` on an identifier `pfx ++ u` where `u` has the UUID shape
and the prefix length is the `pos` that the function computes. -/
theorem get_keys_of_shape (sha1 : List Nat → List Nat) (k : Keys) (pfx u : List Nat)
    (hpos : (if (pfx ++ u).take 9 = bytes "urn:uuid:" then 9 else 0) = pfx.length)
    (hk : k.bin_uuid.length = 16) (hu : uuid_shape u) :
    get_keys sha1 k (pfx ++ u) =
      (true, { bin_uuid := uuid_key u,
               sha_uuid := sha1 ((pfx ++ u).filter fun c => !isspace c) }) := by
  have hget : ∀ i, (pfx ++ u).getD (pfx.length + i) 0 = u.getD i 0 := by
    intro i
    simp [List.getD_eq_getElem?_getD, List.getElem?_append_right]
  have hne : (pfx ++ u).isEmpty = false := by
    cases u with
    | nil => exact absurd hu.1 (by simp)
    | cons a u => cases pfx <;> rfl
  have h8 := hu.2 8 (by decide)
  have h13 := hu.2 13 (by decide)
  have h18 := hu.2 18 (by decide)
  have h23 := hu.2 23 (by decide)
  simp only [Nat.reduceEqDiff, or_false, or_true, true_or, if_true] at h8 h13 h18 h23
  have hvalid : ∀ i ∈ idxs, valid_hex ((pfx ++ u).getD (pfx.length + i) 0) = true ∧
      valid_hex ((pfx ++ u).getD (pfx.length + i + 1) 0) = true := by
    intro i hi
    rw [Nat.add_assoc, hget, hget]
    simp only [idxs, List.mem_cons, List.mem_singleton, List.not_mem_nil, or_false] at hi
    have a := hu.2 i (by omega)
    have b := hu.2 (i + 1) (by omega)
    rw [if_neg (by omega)] at a b
    exact ⟨a, b⟩
  have hloop := get_keys_loop_ok (pfx ++ u) pfx.length idxs [] k.bin_uuid []
    hvalid (by simp [hk, idxs])
  simp only [List.length_nil, List.nil_append, List.append_nil] at hloop
  have hmap : idxs.map (fun i => 16 * hex_digit_value ((pfx ++ u).getD (pfx.length + i) 0) +
      hex_digit_value ((pfx ++ u).getD (pfx.length + i + 1) 0)) = uuid_key u := by
    rw [← idxs_map_eq_uuid_key u hu]
    apply List.map_congr_left
    intro i _
    rw [Nat.add_assoc, hget, hget]
  rw [hmap] at hloop
  unfold get_keys get_keys_convert
  simp only [hne, Bool.false_eq_true, if_false, hpos, hget, h8, h13, h18, h23,
    List.length_append, hu.1, and_self, if_true, hloop]

/-- C3: for every identifier `u` of the 36-character UUID shape (and every digest
function and previous content of the 16-byte key array), `EPub::get_keys` returns
true on `u` and on `"urn:uuid:" ++ u` and stores the same `bin_uuid` for both: the
32 hexadecimal digits of `u` read in order, two digits per byte, most significant
digit first. -/
theorem get_keys_uuid_urn_independent (sha1 : List Nat → List Nat) (k : Keys)
    (u : List Nat) (hk : k.bin_uuid.length = 16) (hu : uuid_shape u) :
    (get_keys sha1 k u).1 = true ∧
    (get_keys sha1 k (bytes "urn:uuid:" ++ u)).1 = true ∧
    (get_keys sha1 k u).2.bin_uuid = uuid_key u ∧
    (get_keys sha1 k (bytes "urn:uuid:" ++ u)).2.bin_uuid = uuid_key u := by
  have h0 := hu.2 0 (by decide)
  rw [if_neg (by decide)] at h0
  have hnu : u.getD 0 0 ≠ 117 := (hex_to_bin_valid _ h0).2.2.2
  have hplain : (if ([] ++ u).take 9 = bytes "urn:uuid:" then 9 else 0) =
      ([] : List Nat).length := by
    rw [if_neg]
    · rfl
    · intro h
      apply hnu
      rw [List.nil_append] at h
      have : (u.take 9).getD 0 0 = 117 := by rw [h]; decide
      cases u with
      | nil => exact absurd hu.1 (by simp)
      | cons a u => simpa using this
  have hurn : (if (bytes "urn:uuid:" ++ u).take 9 = bytes "urn:uuid:" then 9 else 0) =
      (bytes "urn:uuid:").length := by
    rw [if_pos]
    · decide
    · rw [List.take_append_of_le_length (by decide)]
      decide
  have e1 := get_keys_of_shape sha1 k [] u hplain hk hu
  have e2 := get_keys_of_shape sha1 k (bytes "urn:uuid:") u hurn hk hu
  rw [List.nil_append] at e1
  rw [e1, e2]
  exact ⟨rfl, rfl, rfl, rfl⟩

/-- Witness for C3 on the identifier `01234567-89ab-cdef-ABCD-EF0123456789`. -/
theorem get_keys_uuid_urn_independent_witness :
    (get_keys (fun d => d.take 20) ⟨List.replicate 16 0, List.replicate 20 0⟩
        (bytes "01234567-89ab-cdef-ABCD-EF0123456789")).2.bin_uuid =
      [1, 35, 69, 103, 137, 171, 205, 239, 171, 205, 239, 1, 35, 69, 103, 137] ∧
    (get_keys (fun d => d.take 20) ⟨List.replicate 16 0, List.replicate 20 0⟩
        (bytes "urn:uuid:" ++ bytes "01234567-89ab-cdef-ABCD-EF0123456789")).2.bin_uuid =
      [1, 35, 69, 103, 137, 171, 205, 239, 171, 205, 239, 1, 35, 69, 103, 137] := by
  have h := get_keys_uuid_urn_independent (fun d => d.take 20)
    ⟨List.replicate 16 0, List.replicate 20 0⟩
    (bytes "01234567-89ab-cdef-ABCD-EF0123456789") (by decide) (by decide)
  have hkey : uuid_key (bytes "01234567-89ab-cdef-ABCD-EF0123456789") =
      [1, 35, 69, 103, 137, 171, 205, 239, 171, 205, 239, 1, 35, 69, 103, 137] := by
    decide
  exact ⟨h.2.2.1.trans hkey, h.2.2.2.trans hkey⟩

/-- Whenever `get_keys` returns true it has stored the digest of the identifier
without its whitespace. -/
theorem get_keys_true_digest (sha1 : List Nat → List Nat) (k : Keys) (unique_id : List Nat)
    (h : (get_keys sha1 k unique_id).1 = true) :
    (get_keys sha1 k unique_id).2.sha_uuid = sha1 (unique_id.filter fun c => !isspace c) := by
  by_cases he : unique_id.isEmpty = true
  · simp [get_keys, he] at h
  · have he2 : unique_id.isEmpty = false := by simpa using he
    simp only [get_keys, he2, Bool.false_eq_true, if_false] at h ⊢
    generalize get_keys_convert unique_id k.bin_uuid = r at h ⊢
    cases hr : r.1 <;> simp [hr] at h ⊢

/-- The conversion loop returns true when every digit pair of the rest of the table
converts. -/
theorem get_keys_loop_flag_true (str : List Nat) (pos : Nat) :
    ∀ (rest : List Nat) (idx : Nat) (bin_uuid : List Nat),
      (∀ i ∈ rest, (to_bin str (pos + i)).isSome = true) →
      (get_keys_loop str pos rest idx bin_uuid).1 = true := by
  intro rest
  induction rest with
  | nil => intro idx bin_uuid _; rfl
  | cons i rest ih =>
    intro idx bin_uuid h
    have hi := h i (List.mem_cons_self _ _)
    obtain ⟨b, hb⟩ := Option.isSome_iff_exists.mp hi
    simp only [get_keys_loop, hb]
    exact ih _ _ (fun j hj => h j (List.mem_cons_of_mem _ hj))

/-- The conversion loop returns false when some digit pair of the rest of the table
does not convert. -/
theorem get_keys_loop_flag_false (str : List Nat) (pos : Nat) :
    ∀ (rest : List Nat) (idx : Nat) (bin_uuid : List Nat),
      (¬ ∀ i ∈ rest, (to_bin str (pos + i)).isSome = true) →
      (get_keys_loop str pos rest idx bin_uuid).1 = false := by
  intro rest
  induction rest with
  | nil => intro idx bin_uuid h; exact absurd (by simp) h
  | cons i rest ih =>
    intro idx bin_uuid h
    cases hb : to_bin str (pos + i) with
    | none => simp only [get_keys_loop, hb]
    | some b =>
      simp only [get_keys_loop, hb]
      apply ih
      intro hall
      apply h
      intro j hj
      rcases List.mem_cons.mp hj with e | e
      · rw [e, hb]; rfl
      · exact hall j e

/-- C4 (amended): for every non-empty unique identifier, `EPub::get_keys` returns true
and stores in `sha_uuid` the digest of the identifier with all whitespace removed
(case unchanged) whenever the identifier has not the frame of a UUID (36 characters
after the optional tag, `-` at 8, 13, 18, 23) or has it with 32 hexadecimal digits;
when the identifier has the frame and a digit pair that does not convert, it returns
false and leaves `sha_uuid` as it was. -/
theorem get_keys_digest (sha1 : List Nat → List Nat) (k : Keys) (unique_id : List Nat)
    (hne : unique_id ≠ []) :
    ((uuid_frame unique_id → uuid_digits_valid unique_id) →
      (get_keys sha1 k unique_id).1 = true ∧
      (get_keys sha1 k unique_id).2.sha_uuid =
        sha1 (unique_id.filter fun c => !isspace c)) ∧
    (uuid_frame unique_id ∧ ¬ uuid_digits_valid unique_id →
      (get_keys sha1 k unique_id).1 = false ∧
      (get_keys sha1 k unique_id).2.sha_uuid = k.sha_uuid) := by
  have he : unique_id.isEmpty = false := by
    cases unique_id with
    | nil => exact absurd rfl hne
    | cons a l => rfl
  have hconv : get_keys_convert unique_id k.bin_uuid =
      if uuid_frame unique_id then
        get_keys_loop unique_id (uuid_pos unique_id) idxs 0 k.bin_uuid
      else (true, k.bin_uuid) := rfl
  constructor
  · intro h
    have hflag : (get_keys_convert unique_id k.bin_uuid).1 = true := by
      rw [hconv]
      by_cases hf : uuid_frame unique_id
      · rw [if_pos hf]
        exact get_keys_loop_flag_true _ _ _ _ _ (h hf)
      · rw [if_neg hf]
    simp only [get_keys, he, Bool.false_eq_true, if_false, hflag, if_true, and_self]
  · intro ⟨hf, hv⟩
    have hflag : (get_keys_convert unique_id k.bin_uuid).1 = false := by
      rw [hconv, if_pos hf]
      exact get_keys_loop_flag_false _ _ _ _ _ hv
    simp only [get_keys, he, Bool.false_eq_true, if_false, hflag, and_self]

/-- Witness for C4 (amended): the identifier `isbn 978 0`, which has no UUID frame; the
digest function of the witness keeps the first 20 bytes. -/
theorem get_keys_digest_witness :
    (get_keys (fun d => d.take 20) ⟨List.replicate 16 0, List.replicate 20 0⟩
        (bytes "isbn 978 0")).1 = true ∧
    (get_keys (fun d => d.take 20) ⟨List.replicate 16 0, List.replicate 20 0⟩
        (bytes "isbn 978 0")).2.sha_uuid = bytes "isbn9780" := by
  have h := (get_keys_digest (fun d => d.take 20) ⟨List.replicate 16 0, List.replicate 20 0⟩
    (bytes "isbn 978 0") (by decide)).1 (fun hf => absurd hf (by decide))
  exact ⟨h.1, h.2.trans (by decide)⟩

/-- C4 (the claim as stated fails): on the non-empty identifier
`g1234567-89ab-cdef-ABCD-EF0123456789`, which has the frame of a UUID and a first
digit that is not hexadecimal, `EPub::get_keys` returns false from inside the
conversion loop and `sha_uuid` keeps its previous content (here 20 zero bytes), which
is not the digest of the identifier (here its first 20 bytes). -/
theorem get_keys_invalid_hex_no_digest :
    get_keys (fun d => d.take 20) ⟨List.replicate 16 0, List.replicate 20 0⟩
        (bytes "g1234567-89ab-cdef-ABCD-EF0123456789") =
      (false, ⟨List.replicate 16 0, List.replicate 20 0⟩) ∧
    (get_keys (fun d => d.take 20) ⟨List.replicate 16 0, List.replicate 20 0⟩
        (bytes "g1234567-89ab-cdef-ABCD-EF0123456789")).2.sha_uuid ≠
      (fun d => d.take 20)
        ((bytes "g1234567-89ab-cdef-ABCD-EF0123456789").filter fun c => !isspace c) := by
  constructor <;> decide

/-- C5 (the code at the failing input): on a package document that declares
`unique-identifier="BookId"` and whose metadata holds a `dc:identifier` element with
`id="BookId"` and text `urn:uuid:01234567-89ab-cdef-ABCD-EF0123456789`,
`EPub::get_unique_identifier` returns the empty string: it reads the text of the
metadata element, not of the `dc:identifier` element it has found. -/
theorem get_unique_identifier_reads_metadata_text :
    get_unique_identifier opf_example = [] ∧
    get_unique_identifier opf_example ≠ bytes "urn:uuid:01234567-89ab-cdef-ABCD-EF0123456789" := by
  have h : get_unique_identifier opf_example = [] := by decide
  exact ⟨h, by rw [h]; decide⟩


/-! ### The TOC store -/

/-- Opening a store that exists. -/
theorem open_present (db : SimpleDB) (hp : db.present = true) :
    db.open_ = (true, { db with is_open := true, current := 0 }) := by
  unfold SimpleDB.open_
  rw [if_pos hp]

/-- When the version check says no, `load` closes the store and returns false with
the TOC cleaned. -/
theorem load_of_version_not_ok (p : TocParams) (alloc_ok : Bool) (t : TOC) (db d : SimpleDB)
    (hp : db.present = true)
    (hv : load_version_ok p { db with is_open := true, current := 0 } = some (false, d)) :
    load p alloc_ok t db = some (false, clean t, d.close) := by
  unfold load
  simp only [open_present db hp, hv]

/-- C8: `TOC::load()` rejects a store that is absent or empty (record count 0), or
whose first record has not the size of the version record, or whose first record is
a version record with a tag other than `TOC_NAME` or a version other than
`TOC_DB_VERSION`: it returns false and the TOC is empty afterwards (no entries, no
fragment index, `ready = false`), whatever the TOC held before the call. -/
theorem load_rejects_bad_version (p : TocParams) (alloc_ok : Bool) (t : TOC) (db : SimpleDB)
    (h : db.present = false ∨ db.record_count = 0 ∨
      SimpleDB.get_record_size p { db with is_open := true, current := 0 } ≠
        p.sizeof_VersionRecord ∨
      ∃ app_name version, db.records.head? = some (Record.version app_name version) ∧
        (c_str app_name ≠ c_str p.TOC_NAME ∨ version ≠ p.TOC_DB_VERSION)) :
    ∃ t1 db1, load p alloc_ok t db = some (false, t1, db1) ∧
      t1.entries = [] ∧ t1.infos = [] ∧ t1.ready = false ∧ t1.saved = false := by
  by_cases hp : db.present = false
  · exact ⟨clean t, db, by simp [load, SimpleDB.open_, hp], rfl, rfl, rfl, rfl⟩
  · have hp1 : db.present = true := by simpa using hp
    suffices hv : ∃ d, load_version_ok p { db with is_open := true, current := 0 } =
        some (false, d) by
      obtain ⟨d, hd⟩ := hv
      exact ⟨clean t, d.close, load_of_version_not_ok p alloc_ok t db d hp1 hd, rfl, rfl, rfl, rfl⟩
    unfold load_version_ok
    by_cases hc : db.record_count = 0
    · simp only [SimpleDB.get_record_count, hc, gt_iff_lt, lt_self_iff_false, if_false]
      exact ⟨_, rfl⟩
    · have hc1 : db.record_count > 0 := Nat.pos_of_ne_zero hc
      simp only [SimpleDB.get_record_count, hc1, if_true, SimpleDB.goto_first]
      by_cases hs : SimpleDB.get_record_size p { db with is_open := true, current := 0 } =
          p.sizeof_VersionRecord
      · rcases h with h | h | h | ⟨app_name, version, hrec, hbad⟩
        · exact absurd h hp
        · exact absurd h hc
        · exact absurd hs h
        · have hget : SimpleDB.get_record { db with is_open := true, current := 0 } =
              some (Record.version app_name version) := by
            cases hr : db.records with
            | nil => simp [hr] at hrec
            | cons r rs =>
              simp only [hr, List.head?_cons, Option.some.injEq] at hrec
              simp [SimpleDB.get_record, hr, hrec]
          have hfalse : (decide (version = p.TOC_DB_VERSION) &&
              decide (c_str app_name = c_str p.TOC_NAME)) = false := by
            rcases hbad with hb | hb <;> simp [hb]
          simp only [hs, if_true, hget, hfalse]
          exact ⟨_, rfl⟩
      · simp only [hs, if_false]
        exact ⟨_, rfl⟩

/-- Witness for C8: a store whose version record carries the tag `OTHER`. -/
theorem load_rejects_bad_version_witness :
    ∃ t1 db1,
      load ⟨bytes "EPUB-TOC", 1, 34, 16, ⟨Label.null, ⟨0, 0⟩, 0⟩⟩ true
        ⟨[⟨Label.pool (bytes "Old"), ⟨3, 0⟩, 0⟩], none, 0, true, [], true, false, false, false⟩
        ⟨true, 2, [Record.version (bytes "OTHER") 1, Record.chars [65, 0]], 10, true, false, 0⟩ =
        some (false, t1, db1) ∧
      t1.entries = [] ∧ t1.infos = [] ∧ t1.ready = false ∧ t1.saved = false :=
  load_rejects_bad_version _ true _ _
    (Or.inr (Or.inr (Or.inr ⟨bytes "OTHER", 1, rfl, Or.inl (by decide)⟩)))

/-- What a list that starts with `a :: rest` from position `n` on says about position `n`. -/
theorem drop_eq_cons_facts {α : Type} (l : List α) (n : Nat) (a : α) (rest : List α)
    (h : l.drop n = a :: rest) :
    n < l.length ∧ l.get? n = some a ∧ l.drop (n + 1) = rest := by
  induction l generalizing n with
  | nil => simp at h
  | cons x xs ih =>
    cases n with
    | zero =>
      simp only [List.drop_zero, List.cons.injEq] at h
      simp [h.1, h.2]
    | succ n =>
      simp only [List.drop_succ_cons] at h
      obtain ⟨h1, h2, h3⟩ := ih n h
      exact ⟨by simp; omega, by simpa using h2, by simpa using h3⟩

/-- The reading loop of `TOC::load()`: with `todo` the entry records that follow the
cursor and `rest` the elements of the entry list from `idx` on, the loop reads
`k = min(|todo|, |rest|)` records, stores them in order from position `idx` on and
leaves the other elements as they were. -/
theorem load_loop_reads (count : Nat) :
    ∀ (todo : List (Nat × PageId × Nat)) (fuel idx : Nat) (done rest : List EntryRecord)
      (db : SimpleDB),
      db.records.drop (db.current + 1) = todo.map stored_record →
      done.length = idx →
      idx + rest.length = count →
      rest.length < fuel →
      load_loop count fuel idx (done ++ rest) db =
        some (idx + min todo.length rest.length,
          done ++ (todo.take (min todo.length rest.length)).map resident_entry ++
            rest.drop (min todo.length rest.length),
          { db with current := db.current + min todo.length rest.length }) := by
  intro todo
  induction todo with
  | nil =>
    intro fuel idx done rest db hdrop hdone hcount hfuel
    cases fuel with
    | zero => omega
    | succ fuel =>
      cases rest with
      | nil =>
        have : ¬ idx < count := by simp at hcount; omega
        simp [load_loop, this]
      | cons b rest =>
        have hlt : idx < count := by simp at hcount; omega
        have hnext : ¬ db.current + 1 < db.records.length := by
          intro hc
          have := List.drop_eq_nil_iff.mp (by simpa using hdrop)
          omega
        simp [load_loop, hlt, SimpleDB.goto_next, hnext]
  | cons r todo ih =>
    intro fuel idx done rest db hdrop hdone hcount hfuel
    cases fuel with
    | zero => omega
    | succ fuel =>
      cases rest with
      | nil =>
        have : ¬ idx < count := by simp at hcount; omega
        simp [load_loop, this]
      | cons b rest =>
        have hlt : idx < count := by simp at hcount; omega
        simp only [List.map_cons] at hdrop
        obtain ⟨h1, h2, h3⟩ := drop_eq_cons_facts _ _ _ _ hdrop
        have hset : (done ++ b :: rest).set idx (resident_entry r) =
            (done ++ [resident_entry r]) ++ rest := by
          subst hdone
          simp
        have hih := ih fuel (idx + 1) (done ++ [resident_entry r]) rest
          { db with current := db.current + 1 } h3 (by simp [hdone])
          (by simp only [List.length_cons] at hcount; omega)
          (by simp only [List.length_cons] at hfuel; omega)
        unfold load_loop
        simp only [hlt, if_true, SimpleDB.goto_next, h1, SimpleDB.get_record, h2, stored_record]
        have hr : resident_entry r = ⟨Label.buffer r.1, r.2.1, r.2.2⟩ := rfl
        rw [← hr, hset, hih]
        simp only [List.length_cons, Nat.add_min_add_right, List.take_succ_cons, List.map_cons,
          List.drop_succ_cons, List.append_assoc, List.singleton_append, Option.some.injEq,
          Prod.mk.injEq, SimpleDB.mk.injEq, true_and, and_true]
        refine ⟨by omega, by omega⟩

/-- The result of `TOC::load()` on a store that passes the version check and holds the
string block `data` followed by the entry records `todo`, when the buffer for the
block can be allocated: with `count` the 16-bit value of the record count minus 2,
the entry list holds the first `min(|todo|, count)` records read, followed by the
elements of `entries.resize(count)` that were not overwritten; the flags are set when
all `count` records were read. -/
theorem load_reads (p : TocParams) (t : TOC) (db : SimpleDB) (app_name data : List Nat)
    (todo : List (Nat × PageId × Nat))
    (hp : db.present = true) (hc : db.record_count > 0)
    (hrec : db.records =
      Record.version app_name p.TOC_DB_VERSION :: Record.chars data :: todo.map stored_record)
    (hname : c_str app_name = c_str p.TOC_NAME) (hdata : data.length > 0) :
    load p true t db =
      some (decide (load_count db ≤ todo.length),
        { entries :=
            (todo.take (min todo.length (load_count db))).map
                resident_entry ++
              List.replicate ((load_count db) -
                min todo.length (load_count db)) p.blank_entry,
          char_buffer := some data,
          char_buffer_size := data.length,
          char_pool := false,
          infos := [],
          ready := decide (load_count db ≤ todo.length),
          compacted := decide (load_count db ≤ todo.length),
          saved := decide (load_count db ≤ todo.length),
          some_ids := false },
        { db with is_open := false,
                  current := 1 + min todo.length (load_count db) }) := by
  have hcount1 : load_count { db with is_open := true, current := 1 } = load_count db := rfl
  generalize hcount : load_count db = count at hcount1
  have hv : load_version_ok p { db with is_open := true, current := 0 } =
      some (true, { db with is_open := true, current := 0 }) := by
    simp [load_version_ok, SimpleDB.get_record_count, hc, SimpleDB.goto_first,
      SimpleDB.get_record_size, SimpleDB.get_record, hrec, hname]
  have hloop := load_loop_reads count todo (count + 1) 0 [] (List.replicate count p.blank_entry)
    { db with is_open := true, current := 1 } (by simp [hrec]) rfl (by simp) (by simp)
  simp only [List.nil_append, List.length_replicate, Nat.zero_add, List.drop_replicate] at hloop
  have hn : SimpleDB.goto_next { db with is_open := true, current := 0 } =
      (true, { db with is_open := true, current := 1 }) := by
    simp [SimpleDB.goto_next, hrec]
  have hsize : SimpleDB.get_record_size p { db with is_open := true, current := 1 } =
      data.length := by
    simp [SimpleDB.get_record_size, hrec]
  have hget : SimpleDB.get_record { db with is_open := true, current := 1 } =
      some (Record.chars data) := by
    simp [SimpleDB.get_record, hrec]
  unfold load
  simp only [open_present db hp, hv, hn, hsize, hget, hdata, gt_iff_lt, if_true, hcount1, hloop,
    clean, SimpleDB.close]
  by_cases hle : count ≤ todo.length
  · have hmin : min todo.length count = count := by omega
    simp [hle, hmin]
  · have hmin : min todo.length count = todo.length := by omega
    have hne : todo.length ≠ count := by omega
    simp [hle, hmin, hne]

/-- C9 (the claim as stated fails): on a store that passes the version check, whose
count says four records (two entries) while only one entry record can be read,
`TOC::load()` returns false with `ready = false`, but the entry list has two
elements, the record that was read and the element that `entries.resize(count)` had
created, and not only the record that was read. -/
theorem short_read_keeps_resized_list :
    load params_example true toc_example db_short_example =
      some (false, toc_short_example, { db_short_example with current := 2 }) ∧
    toc_short_example.ready = false ∧
    toc_short_example.entries = [resident_entry (0, ⟨0, 0⟩, 0), params_example.blank_entry] ∧
    toc_short_example.entries ≠ [resident_entry (0, ⟨0, 0⟩, 0)] := by
  refine ⟨?_, ?_, ?_, ?_⟩ <;> decide

/-- C9 (amended): when the store passes the version check and holds a non-empty
string block, and only the `m` entry records `todo` can be read although the count
implies `c > m` entries, `TOC::load()` returns false with `ready = false`, and the
entry list has `c` elements: the `m` records that were read, in order, followed by
the `c - m` elements created by `entries.resize(count)`. -/
theorem load_short_read (p : TocParams) (t : TOC) (db : SimpleDB) (app_name data : List Nat)
    (todo : List (Nat × PageId × Nat))
    (hp : db.present = true) (hc : db.record_count > 0)
    (hrec : db.records =
      Record.version app_name p.TOC_DB_VERSION :: Record.chars data :: todo.map stored_record)
    (hname : c_str app_name = c_str p.TOC_NAME) (hdata : data.length > 0)
    (hshort : todo.length < load_count db) :
    ∃ t1 db1, load p true t db = some (false, t1, db1) ∧
      t1.ready = false ∧
      t1.entries = todo.map resident_entry ++
        List.replicate (load_count db - todo.length) p.blank_entry := by
  have hmin : min todo.length (load_count db) = todo.length := by omega
  have hdec : decide (load_count db ≤ todo.length) = false := by simp; omega
  have h := load_reads p t db app_name data todo hp hc hrec hname hdata
  rw [hdec, hmin, List.take_length] at h
  exact ⟨_, _, h, rfl, rfl⟩

/-- Witness for C9 (amended): the store of the example, one readable entry record of two. -/
theorem load_short_read_witness :
    ∃ t1 db1, load params_example true toc_example db_short_example = some (false, t1, db1) ∧
      t1.ready = false ∧
      t1.entries = [(0, (⟨0, 0⟩ : PageId), 0)].map resident_entry ++
        List.replicate (load_count db_short_example - 1) params_example.blank_entry :=
  load_short_read params_example toc_example db_short_example (bytes "EPUB-TOC")
    (bytes "Intro" ++ [0] ++ bytes "One" ++ [0]) [(0, ⟨0, 0⟩, 0)]
    rfl (by decide) rfl rfl (by decide) (by decide)

/-- C10 (the code at the failing input): the TOC of the example is saved, then
`TOC::set(7)` is called while document 1 is open, then `save()` is called again.
The first save writes the offset -1 of entry `One`; the set writes 7 into the resident
entry and leaves `saved = true`; the second save returns true without touching the
store, whose entry records then differ from the resident entry list. -/
theorem save_skipped_after_set :
    save params_example true toc_example db_example =
      some (true, toc_saved_example, db_saved_example) ∧
    (set_offset 1 7 toc_saved_example).saved = true ∧
    (set_offset 1 7 toc_saved_example).entries.map (fun e => e.page_id.offset) = [0, 7] ∧
    save params_example true (set_offset 1 7 toc_saved_example) db_saved_example =
      some (true, set_offset 1 7 toc_saved_example, db_saved_example) ∧
    db_saved_example.records.drop 2 = [Record.entry 0 ⟨0, 0⟩ 0, Record.entry 6 ⟨1, -1⟩ 1] ∧
    db_saved_example.records.drop 2 ≠
      (set_offset 1 7 toc_saved_example).entries.map entry_record := by
  refine ⟨?_, ?_, ?_, ?_, ?_, ?_⟩ <;> decide

/-- A C string has no 0 byte. -/
theorem c_str_no_zero (s : List Nat) : 0 ∉ c_str s := by
  unfold c_str
  intro h
  have := List.mem_takeWhile_imp h
  simp at this

/-- The C string at the start of `s ++ 0 :: rest` is `s`, when `s` has no 0 byte. -/
theorem c_str_append_zero (s rest : List Nat) (h : 0 ∉ s) : c_str (s ++ 0 :: rest) = s := by
  unfold c_str
  induction s with
  | nil => simp
  | cons a s ih =>
    have ha : a ≠ 0 := fun e => h (by simp [e])
    have hs : 0 ∉ s := fun e => h (List.mem_cons_of_mem _ e)
    have := ih hs
    simp only [List.cons_append, List.takeWhile_cons, ha, ne_eq, not_false_eq_true,
      decide_True, if_true, this]

/-- The length of the string block is the sum that the first loop of `compact` computes. -/
theorem compact_size_eq (es : List EntryRecord) (texts : List (List Nat))
    (h : es.map (fun e => pool_text e.label) = texts.map some) :
    compact_size es = some (string_block texts).length := by
  induction es generalizing texts with
  | nil =>
    cases texts with
    | nil => rfl
    | cons s texts => simp at h
  | cons e es ih =>
    cases texts with
    | nil => simp at h
    | cons s texts =>
      simp only [List.map_cons, List.cons.injEq] at h
      simp only [compact_size, h.1, ih texts h.2, string_block, List.length_append,
        List.length_cons]
      congr 1
      omega

/-- The second loop of `compact` writes the string block and points the label of each
entry to the start of its string; page ids and levels are kept. -/
theorem compact_copy_eq (es : List EntryRecord) (texts : List (List Nat)) (b : Nat)
    (h : es.map (fun e => pool_text e.label) = texts.map some) :
    ∃ es1, compact_copy es b = some (es1, string_block texts) ∧
      es1.map (fun e => e.label) = (label_offsets b texts).map Label.buffer ∧
      es1.map (fun e => (e.page_id, e.level)) = es.map (fun e => (e.page_id, e.level)) := by
  induction es generalizing texts b with
  | nil =>
    cases texts with
    | nil => exact ⟨[], rfl, rfl, rfl⟩
    | cons s texts => simp at h
  | cons e es ih =>
    cases texts with
    | nil => simp at h
    | cons s texts =>
      simp only [List.map_cons, List.cons.injEq] at h
      obtain ⟨es1, h1, h2, h3⟩ := ih texts (b + (s.length + 1)) h.2
      refine ⟨{ e with label := Label.buffer b } :: es1, ?_, ?_, ?_⟩
      · simp only [compact_copy, h.1, h1, string_block]
      · simp only [List.map_cons, label_offsets, h2]
      · simp only [List.map_cons, h3]

/-- The strings that `pool_text` reads have no 0 byte. -/
theorem pool_texts_no_zero (es : List EntryRecord) (texts : List (List Nat))
    (h : es.map (fun e => pool_text e.label) = texts.map some) : ∀ s ∈ texts, 0 ∉ s := by
  induction es generalizing texts with
  | nil =>
    cases texts with
    | nil => simp
    | cons s texts => simp at h
  | cons e es ih =>
    cases texts with
    | nil => simp at h
    | cons s texts =>
      simp only [List.map_cons, List.cons.injEq] at h
      intro x hx
      rcases List.mem_cons.mp hx with hx | hx
      · subst hx
        cases hl : e.label with
        | null => simp [hl, pool_text] at h
        | buffer off => simp [hl, pool_text] at h
        | pool s0 =>
          simp only [hl, pool_text, Option.some.injEq] at h
          rw [← h.1]
          exact c_str_no_zero s0
      · exact ih texts h.2 x hx

/-- When `compact` returns true on a TOC whose labels are `texts`, the TOC is in
compacted form for the same labels, and the page ids, the levels and the flags
`saved` and `ready` are unchanged. -/
theorem compact_true (a : Bool) (t t1 : TOC) (texts : List (List Nat))
    (hl : labels_are t texts) (hc : compact a t = some (true, t1)) :
    compact_form t1 texts ∧ t1.compacted = true ∧ t1.saved = t.saved ∧
      t1.entries.map (fun e => (e.page_id, e.level)) =
        t.entries.map (fun e => (e.page_id, e.level)) := by
  rcases hl with ⟨hnc, hpool⟩ | ⟨hcomp, hform⟩
  · obtain ⟨es1, h1, h2, h3⟩ := compact_copy_eq t.entries texts 0 hpool
    unfold compact at hc
    simp only [hnc, Bool.false_eq_true, if_false, compact_size_eq t.entries texts hpool, h1] at hc
    cases a with
    | false => simp at hc
    | true =>
      simp only [Bool.not_true, Bool.false_eq_true, if_false, Option.some.injEq, Prod.mk.injEq,
        true_and] at hc
      subst hc
      exact ⟨⟨pool_texts_no_zero t.entries texts hpool, rfl, rfl, h2⟩, rfl, rfl, h3⟩
  · unfold compact at hc
    simp only [hcomp, if_true, Option.some.injEq, Prod.mk.injEq, true_and] at hc
    subst hc
    exact ⟨hform, hcomp, rfl, rfl⟩

/-- When the writing loop of `TOC::save()` ends with `idx = entries.size()`, the list
has fewer than 65536 entries, every label from `idx` on points into `char_buffer`, and
the store has received one entry record per entry from `idx` on, in order. -/
theorem save_loop_complete (es : List EntryRecord) :
    ∀ (fuel idx : Nat) (db db1 : SimpleDB), idx < 65536 →
      save_loop es fuel idx db = some (es.length, db1) →
      idx ≤ es.length ∧ es.length < 65536 ∧
      db1.records = db.records ++ (es.drop idx).map entry_record ∧
      db1.record_count = db.record_count + (es.length - idx) ∧
      db1.present = db.present ∧ db1.can_create = db.can_create ∧
      db1.is_open = db.is_open ∧ db1.current = db.current := by
  intro fuel
  induction fuel with
  | zero => intro idx db db1 _ h; simp [save_loop] at h
  | succ fuel ih =>
    intro idx db db1 hidx h
    unfold save_loop at h
    by_cases hlt : idx < es.length
    · simp only [hlt, if_true] at h
      rw [List.get?_eq_getElem?] at h
      cases hget : es[idx]? with
      | none => simp [hget] at h
      | some e =>
        obtain ⟨label, page_id, level⟩ := e
        cases label with
        | null => simp [hget] at h
        | pool s => simp [hget] at h
        | buffer off =>
          simp only [hget, SimpleDB.add_record] at h
          by_cases hq : db.quota = 0
          · simp only [hq, if_true, Option.some.injEq, Prod.mk.injEq] at h
            omega
          · simp only [hq, if_false] at h
            have hmod : (idx + 1) % 65536 < 65536 := Nat.mod_lt _ (by decide)
            obtain ⟨h1, h2, h3, h4, h5, h6, h7, h8⟩ := ih _ _ _ hmod h
            have hnowrap : (idx + 1) % 65536 = idx + 1 := Nat.mod_eq_of_lt (by omega)
            rw [hnowrap] at h3 h4
            have hdrop : es.drop idx = ⟨Label.buffer off, page_id, level⟩ :: es.drop (idx + 1) := by
              have := List.getElem?_eq_some_iff.mp hget
              obtain ⟨hl, he⟩ := this
              rw [← he]
              exact List.drop_eq_getElem_cons hl
            refine ⟨by omega, h2, ?_, ?_, h5, h6, h7, h8⟩
            · rw [h3, hdrop]
              simp [entry_record]
            · rw [h4]
              simp only
              omega
    · simp only [hlt, if_false, Option.some.injEq, Prod.mk.injEq] at h
      obtain ⟨h1, h2⟩ := h
      subst h2
      rw [h1]
      simp
      omega

/-- What a `save()` that was not skipped and that returned true has done: the TOC is
in compacted form with unchanged page ids and levels and has its flags set, there are
fewer than 65536 entries, and the store holds the version record, the string block
and one entry record per entry, in order. -/
theorem save_true (p : TocParams) (a : Bool) (t t1 : TOC) (db db1 : SimpleDB)
    (texts : List (List Nat)) (hs : t.saved = false) (hl : labels_are t texts)
    (h : save p a t db = some (true, t1, db1)) :
    t.entries.length < 65536 ∧ compact_form t1 texts ∧
    t1.ready = true ∧ t1.saved = true ∧ t1.compacted = true ∧
    t1.entries.map (fun e => (e.page_id, e.level)) =
      t.entries.map (fun e => (e.page_id, e.level)) ∧
    db1.present = true ∧ db1.record_count = t.entries.length + 2 ∧
    db1.records = Record.version p.TOC_NAME p.TOC_DB_VERSION ::
      Record.chars (string_block texts) :: t1.entries.map entry_record := by
  unfold save at h
  simp only [hs, Bool.false_eq_true, if_false] at h
  cases hc : compact a t with
  | none => simp [hc] at h
  | some r =>
    obtain ⟨b, tc⟩ := r
    cases b with
    | false => simp [hc] at h
    | true =>
      obtain ⟨hform, hcomp, hsaved, hpl⟩ := compact_true a t tc texts hl hc
      have hsf : tc.saved = false := by rw [hsaved, hs]
      obtain ⟨hnz, hbuf, hsize, hlabels⟩ := hform
      simp only [hc, SimpleDB.create, SimpleDB.add_record, hbuf, hsize, ne_eq,
        not_true_eq_false, if_false] at h
      by_cases hcr : db.can_create = true
      · simp only [hcr, if_true] at h
        by_cases hq : db.quota = 0
        · simp [hq, hsf] at h
        · simp only [hq, if_false] at h
          by_cases hq1 : db.quota - 1 = 0
          · simp [hq1, hsf] at h
          · simp only [hq1, if_false] at h
            split at h
            · simp at h
            · rename_i idx d hloop
              simp only [Option.some.injEq, Prod.mk.injEq, decide_eq_true_eq] at h
              obtain ⟨hidx, ht1, hd1⟩ := h
              subst hidx
              obtain ⟨_, g2, g3, g4, g5, _, _, _⟩ :=
                save_loop_complete tc.entries _ 0 _ d (by decide) hloop
              have hlen : tc.entries.length = t.entries.length := by
                have := congrArg List.length hpl
                simpa using this
              subst ht1
              subst hd1
              simp only [List.drop_zero, List.nil_append, List.singleton_append,
                List.cons_append] at g3
              refine ⟨hlen ▸ g2, ⟨hnz, rfl, rfl, hlabels⟩, by simp, by simp, hcomp, hpl,
                ?_, ?_, ?_⟩
              · simpa [SimpleDB.close] using g5
              · simp only [SimpleDB.close, g4]
                omega
              · simpa [SimpleDB.close] using g3
      · simp [hcr, hsf] at h

/-- There is one offset per label. -/
theorem label_offsets_length (texts : List (List Nat)) (b : Nat) :
    (label_offsets b texts).length = texts.length := by
  induction texts generalizing b with
  | nil => rfl
  | cons s texts ih => simp [label_offsets, ih]

/-- In a block that holds the string block of `texts` after `pre`, the label pointers
at the offsets of `texts` denote the strings `texts`. -/
theorem label_text_block (texts : List (List Nat)) (pre : List Nat)
    (hnz : ∀ s ∈ texts, 0 ∉ s) :
    (label_offsets pre.length texts).map
        (fun off => label_text (some (pre ++ string_block texts)) (Label.buffer off)) =
      texts.map some := by
  induction texts generalizing pre with
  | nil => rfl
  | cons s texts ih =>
    have hs : 0 ∉ s := hnz s (List.mem_cons_self _ _)
    have hrest : ∀ x ∈ texts, 0 ∉ x := fun x hx => hnz x (List.mem_cons_of_mem _ hx)
    have h := ih (pre ++ (s ++ [0])) hrest
    have hlen : (pre ++ (s ++ [0])).length = pre.length + (s.length + 1) := by simp
    have hblock : pre ++ (s ++ [0]) ++ string_block texts = pre ++ string_block (s :: texts) := by
      simp [string_block]
    rw [hlen, hblock] at h
    simp only [label_offsets, List.map_cons, h, List.cons.injEq, and_true]
    simp only [label_text, string_block, List.drop_left, List.mem_append, List.mem_cons, true_or,
      or_true, if_true, c_str_append_zero s _ hs]

/-- The views of entries whose label pointers denote the strings `texts`. -/
theorem views_of_label_texts (buf : Option (List Nat)) (es : List EntryRecord)
    (texts : List (List Nat))
    (h : es.map (fun e => label_text buf e.label) = texts.map some) :
    es.map (fun e => (label_text buf e.label, e.page_id.itemref_index, e.page_id.offset,
        e.level)) =
      views_of texts (es.map fun e => (e.page_id, e.level)) := by
  unfold views_of
  induction es generalizing texts with
  | nil => cases texts <;> simp_all
  | cons e es ih =>
    cases texts with
    | nil => simp at h
    | cons s texts =>
      simp only [List.map_cons, List.cons.injEq] at h
      simp only [List.map_cons, List.zipWith_cons_cons, List.cons.injEq, Prod.mk.injEq,
        and_true, true_and]
      exact ⟨h.1, ih texts h.2⟩

/-- The views of the entries of a TOC in compacted form. -/
theorem views_compact_form (t : TOC) (texts : List (List Nat)) (h : compact_form t texts) :
    t.entries.map (entry_view t) =
      views_of texts (t.entries.map fun e => (e.page_id, e.level)) := by
  obtain ⟨hnz, hbuf, _, hlabels⟩ := h
  have hb := label_text_block texts [] hnz
  simp only [List.length_nil, List.nil_append] at hb
  have htexts : t.entries.map (fun e => label_text t.char_buffer e.label) = texts.map some := by
    rw [← hb, hbuf]
    have := congrArg (List.map (label_text (some (string_block texts)))) hlabels
    simpa [List.map_map, Function.comp] using this
  exact views_of_label_texts t.char_buffer t.entries texts htexts

/-- The views of the entries of a TOC that is live or compacted with labels `texts`. -/
theorem views_labels_are (t : TOC) (texts : List (List Nat)) (h : labels_are t texts) :
    t.entries.map (entry_view t) =
      views_of texts (t.entries.map fun e => (e.page_id, e.level)) := by
  rcases h with ⟨_, hpool⟩ | ⟨_, hform⟩
  · apply views_of_label_texts t.char_buffer t.entries texts
    rw [← hpool]
    apply List.map_congr_left
    intro e he
    have hmem : pool_text e.label ∈ texts.map some := by
      rw [← hpool]
      exact List.mem_map.mpr ⟨e, he, rfl⟩
    obtain ⟨s, _, hs⟩ := List.mem_map.mp hmem
    cases hl : e.label with
    | null => simp [hl, pool_text] at hs
    | buffer off => simp [hl, pool_text] at hs
    | pool s0 => rfl
  · exact views_compact_form t texts hform

/-- The count that `load` computes from a store of `n + 2` records, `n < 65536`. -/
theorem load_count_eq (db : SimpleDB) (n : Nat) (hn : n < 65536) (h : db.record_count = n + 2) :
    load_count db = n := by
  unfold load_count SimpleDB.get_record_count
  rw [h]
  have e : ((n + 2 : Nat) : Int) - 2 = (n : Int) := by push_cast; omega
  rw [e]
  have : (n : Int).emod 65536 = (n : Int) := Int.emod_eq_of_lt (by omega) (by omega)
  rw [this]
  simp

/-- The round trip of a save that writes: for every non-empty entry list whose labels
are the strings `texts`, when `TOC::save()` is not skipped (`saved = false`) and
returns true, a following `TOC::load()` of the store it wrote (with the buffer for the
string block allocated) returns true and yields an entry list of the same length and
order in which every entry has the same label text, spine index, offset and level as
before the save. -/
theorem save_load_round_trip (p : TocParams) (a : Bool) (t t1 : TOC) (db db1 : SimpleDB)
    (texts : List (List Nat)) (hne : t.entries ≠ []) (hs : t.saved = false)
    (hl : labels_are t texts) (h : save p a t db = some (true, t1, db1)) :
    ∃ t2 db2, load p true t1 db1 = some (true, t2, db2) ∧ t2.ready = true ∧
      t2.entries.map (entry_view t2) = t.entries.map (entry_view t) ∧
      t.entries.map (entry_view t) = views_of texts (t.entries.map fun e => (e.page_id, e.level)) ∧
      texts.length = t.entries.length := by
  obtain ⟨hn, hform, _, _, _, hpl, hpres, hcount, hrec⟩ := save_true p a t t1 db db1 texts hs hl h
  have hform1 := hform
  obtain ⟨_, hbuf, _, hlabels⟩ := hform
  have hlen : t1.entries.length = t.entries.length := by
    simpa using congrArg List.length hpl
  have htl : texts.length = t.entries.length := by
    have := congrArg List.length hlabels
    simp only [List.length_map, label_offsets_length] at this
    omega
  have hrec1 : db1.records = Record.version p.TOC_NAME p.TOC_DB_VERSION ::
      Record.chars (string_block texts) ::
        (t1.entries.map fun e =>
          ((match e.label with | Label.buffer off => off | _ => 0), e.page_id, e.level)).map
          stored_record := by
    rw [hrec, List.map_map]
    rfl
  have hdata : (string_block texts).length > 0 := by
    cases texts with
    | nil =>
      have : t.entries.length = 0 := by simpa using htl.symm
      exact absurd (List.length_eq_zero.mp this) hne
    | cons s texts => simp [string_block]
  have hload := load_reads p t1 db1 p.TOC_NAME (string_block texts) _ hpres (by omega) hrec1 rfl
    hdata
  rw [load_count_eq db1 t.entries.length hn hcount] at hload
  simp only [List.length_map, hlen, le_refl, decide_True, min_self, Nat.sub_self,
    List.replicate_zero, List.append_nil] at hload
  have htake : (t1.entries.map fun e =>
      ((match e.label with | Label.buffer off => off | _ => 0), e.page_id, e.level)).take
        t.entries.length =
      t1.entries.map fun e =>
        ((match e.label with | Label.buffer off => off | _ => 0), e.page_id, e.level) := by
    apply List.take_of_length_le
    simp [hlen]
  have hback : (t1.entries.map fun e =>
      ((match e.label with | Label.buffer off => off | _ => 0), e.page_id, e.level)).map
        resident_entry = t1.entries := by
    rw [List.map_map]
    conv_rhs => rw [← List.map_id t1.entries]
    apply List.map_congr_left
    intro e he
    have hmem : e.label ∈ (label_offsets 0 texts).map Label.buffer := by
      rw [← hlabels]
      exact List.mem_map.mpr ⟨e, he, rfl⟩
    obtain ⟨off, _, hoff⟩ := List.mem_map.mp hmem
    obtain ⟨label, page_id, level⟩ := e
    simp only at hoff
    subst hoff
    rfl
  rw [htake, hback] at hload
  refine ⟨_, _, hload, rfl, ?_, views_labels_are t texts hl, htl⟩
  rw [views_labels_are t texts hl, ← hpl, ← views_compact_form t1 texts hform1]
  apply List.map_congr_left
  intro e _
  simp only [entry_view, hbuf]

/-- The round trip of the first save of the example. -/
theorem save_load_round_trip_example :
    ∃ t2 db2, load params_example true toc_saved_example db_saved_example =
        some (true, t2, db2) ∧ t2.ready = true ∧
      t2.entries.map (entry_view t2) = toc_example.entries.map (entry_view toc_example) ∧
      toc_example.entries.map (entry_view toc_example) =
        views_of [bytes "Intro", bytes "One"]
          (toc_example.entries.map fun e => (e.page_id, e.level)) ∧
      [bytes "Intro", bytes "One"].length = toc_example.entries.length :=
  save_load_round_trip params_example true toc_example toc_saved_example db_example
    db_saved_example [bytes "Intro", bytes "One"] (by decide) rfl (Or.inl ⟨rfl, by decide⟩)
    (by decide)

/-- C6: the round trip fails after a `set`.  The TOC of the example is saved, then
`TOC::set(7)` is called with document 1 open, which leaves `saved = true`.  The entry
list is not empty and the next `save()` returns true on a store that would accept 96
more records, but it returns before it writes; the following `load()` returns true
and yields offset -1 for entry `One`, not the offset 7 that the entry had before the
save. -/
theorem save_load_after_set_differs :
    save params_example true toc_example db_example =
      some (true, toc_saved_example, db_saved_example) ∧
    (set_offset 1 7 toc_saved_example).saved = true ∧
    (set_offset 1 7 toc_saved_example).entries ≠ [] ∧
    save params_example true (set_offset 1 7 toc_saved_example) db_saved_example =
      some (true, set_offset 1 7 toc_saved_example, db_saved_example) ∧
    load params_example true (set_offset 1 7 toc_saved_example) db_saved_example =
      some (true, toc_loaded_example, { db_saved_example with current := 3 }) ∧
    toc_loaded_example.entries.map (entry_view toc_loaded_example) ≠
      (set_offset 1 7 toc_saved_example).entries.map
        (entry_view (set_offset 1 7 toc_saved_example)) := by
  refine ⟨?_, ?_, ?_, ?_, ?_, ?_⟩ <;> decide


/-! ### Compaction and the two `set` operations -/

/-- C11: compaction is idempotent: after `TOC::compact()` has returned true, a second
`compact()` with no mutation in between returns true and leaves the whole TOC as it
is, so the string block (its bytes and its size) and the label, spine index, offset
and level of every entry are unchanged, whether or not the allocator would succeed. -/
theorem compact_idempotent (a a2 : Bool) (t t1 : TOC) (h : compact a t = some (true, t1)) :
    compact a2 t1 = some (true, t1) ∧
    (∀ r, compact a2 t1 = some r →
      r.2.char_buffer = t1.char_buffer ∧ r.2.char_buffer_size = t1.char_buffer_size ∧
      r.2.entries = t1.entries) := by
  have hc : t1.compacted = true := by
    unfold compact at h
    by_cases hcomp : t.compacted = true
    · simp only [hcomp, if_true, Option.some.injEq, Prod.mk.injEq, true_and] at h
      rw [← h]; exact hcomp
    · simp only [hcomp, if_false] at h
      cases hs : compact_size t.entries with
      | none => simp [hs] at h
      | some size =>
        simp only [hs] at h
        cases a with
        | false => simp at h
        | true =>
          simp only [Bool.not_true, Bool.false_eq_true, if_false] at h
          cases hcp : compact_copy t.entries 0 with
          | none => simp [hcp] at h
          | some r =>
            obtain ⟨es, block⟩ := r
            simp only [hcp, Option.some.injEq, Prod.mk.injEq, true_and] at h
            rw [← h]
  have h2 : compact a2 t1 = some (true, t1) := by
    unfold compact
    rw [if_pos hc]
  refine ⟨h2, ?_⟩
  intro r hr
  rw [h2] at hr
  cases hr
  exact ⟨rfl, rfl, rfl⟩

/-- Witness for C11: the TOC of the example, compacted once and then again without an
allocator. -/
theorem compact_idempotent_witness :
    compact false toc_compacted_example = some (true, toc_compacted_example) :=
  (compact_idempotent true false toc_example toc_compacted_example (by decide)).1


/-- C15: `TOC::set(id, offset)` writes the pair (spine index of the document that is
open, offset) into the entry that the fragment index holds for the id, whatever the
document of that entry is.  In the TOC built from the navigation list
`forest_same_fragment_example`, entry `One` is the fragment `a` of document 0 and entry
`Two` the fragment `a` of document 1, and the fragment index, keyed by the fragment id
alone, holds entry `Two` for `a`: `set("a", 50)` with document 0 open leaves entry
`One` as it is and turns entry `Two` into (spine 0, offset 50).  In the TOC of the
example, `set("frag", 120)` with document 3 open replaces the spine index 1 of entry
`One` by 3. -/
theorem set_id_overwrites_spine_index :
    (load_from_epub opf_nav_example (bytes "OEBPS/")
        (archive_example forest_same_fragment_example) toc_example).map
        (fun r => (r.1, r.2.infos.map (fun kv => (kv.1, kv.2.entries_index)),
          r.2.entries.map fun e => (e.label, e.page_id.itemref_index, e.page_id.offset))) =
      some (true, [(bytes "a", 1)],
        [(Label.pool (bytes "One"), 0, -1), (Label.pool (bytes "Two"), 1, -1)]) ∧
    ((load_from_epub opf_nav_example (bytes "OEBPS/")
        (archive_example forest_same_fragment_example) toc_example).bind fun r =>
        (set_id 0 (bytes "a") 50 r.2).map fun t =>
          t.entries.map fun e => (e.label, e.page_id.itemref_index, e.page_id.offset)) =
      some [(Label.pool (bytes "One"), 0, -1), (Label.pool (bytes "Two"), 0, 50)] ∧
    toc_example.entries.map (fun e => (e.page_id.itemref_index, e.page_id.offset)) =
      [(0, 0), (1, -1)] ∧
    (set_id 3 (bytes "frag") 120 toc_example).map
        (fun t => t.entries.map fun e => (e.page_id.itemref_index, e.page_id.offset)) =
      some [(0, 0), (3, 120)] := by
  refine ⟨?_, ?_, ?_, ?_⟩ <;> rfl

/-- What `TOC::set(id, offset)` does: for a fragment id that the fragment index maps to
an entry of the list, it replaces the page id of that entry by the pair (spine index
of the document currently open, offset) and changes nothing else; for an id that is
not in the fragment index the whole TOC is unchanged. -/
theorem set_id_effect (cur : Int) (id : List Nat) (off : Int) (t : TOC) :
    (∀ k info e, t.infos.find? (fun kv => decide (kv.1 = id)) = some (k, info) →
      t.entries[info.entries_index]? = some e →
      ∃ t1, set_id cur id off t = some t1 ∧
        t1 = { t with entries := t1.entries } ∧
        t1.entries.length = t.entries.length ∧
        t1.entries[info.entries_index]? = some ⟨e.label, ⟨cur, off⟩, e.level⟩ ∧
        ∀ j, j ≠ info.entries_index → t1.entries[j]? = t.entries[j]?) ∧
    (t.infos.find? (fun kv => decide (kv.1 = id)) = none → set_id cur id off t = some t) := by
  constructor
  · intro k info e hfind hget
    have hlt : info.entries_index < t.entries.length := (List.getElem?_eq_some_iff.mp hget).1
    refine ⟨{ t with entries := t.entries.set info.entries_index ⟨e.label, ⟨cur, off⟩, e.level⟩ },
      ?_, rfl, ?_, ?_, ?_⟩
    · simp only [set_id, hfind, List.get?_eq_getElem?, hget]
    · simp
    · simp [List.getElem?_set_self hlt]
    · intro j hj
      simp [List.getElem?_set_ne (Ne.symm hj)]
  · intro hnone
    simp only [set_id, hnone]

/-- The 16-bit signed value of a number between 0 and 32767 is the number. -/
theorem wrap_int16_small (i : Int) (h0 : 0 ≤ i) (h1 : i < 32768) : wrap_int16 i = i := by
  unfold wrap_int16
  have : (i + 32768).emod 65536 = i + 32768 := Int.emod_eq_of_lt (by omega) (by omega)
  rw [this]
  omega

/-- The loop of `TOC::set(int32_t)` stops at the first entry of the current document:
started with `idx = i - 1` before the entries `before ++ e :: rest`, where no entry of
`before` and the entry `e` are of the current document, it ends with
`idx = i + |before|`, as long as this is below 32768. -/
theorem set_loop_first (cur : Int) (e : EntryRecord) (rest : List EntryRecord)
    (he : e.page_id.itemref_index = cur) :
    ∀ (before : List EntryRecord) (i : Nat),
      (∀ x ∈ before, x.page_id.itemref_index ≠ cur) → i + before.length < 32768 →
      set_loop cur (before ++ e :: rest) ((i : Int) - 1) = ((i + before.length : Nat) : Int) := by
  intro before
  induction before with
  | nil =>
    intro i _ hi
    simp only [List.length_nil, Nat.add_zero] at hi
    simp only [List.nil_append, set_loop, he, if_true, Int.sub_add_cancel, List.length_nil,
      Nat.add_zero]
    exact wrap_int16_small _ (by omega) (by omega)
  | cons x before ih =>
    intro i hx hi
    simp only [List.length_cons] at hi
    have hne : x.page_id.itemref_index ≠ cur := hx x (List.mem_cons_self _ _)
    simp only [List.cons_append, set_loop, hne, if_false, Int.sub_add_cancel]
    rw [wrap_int16_small _ (by omega) (by omega)]
    have := ih (i + 1) (fun y hy => hx y (List.mem_cons_of_mem _ hy)) (by omega)
    simp only [Nat.cast_add, Nat.cast_one, Int.add_sub_cancel] at this
    show set_loop cur (before ++ e :: rest) (i : Int) = _
    rw [this]
    simp only [List.length_cons, Nat.cast_add, Nat.cast_one]
    omega

/-- When an entry of the current document exists (at a position below 32768),
`TOC::set(int32_t)` writes the offset into the first such entry and changes nothing
else. -/
theorem set_offset_first (cur off : Int) (t : TOC) (before rest : List EntryRecord)
    (e : EntryRecord) (ht : t.entries = before ++ e :: rest)
    (hb : ∀ x ∈ before, x.page_id.itemref_index ≠ cur) (he : e.page_id.itemref_index = cur)
    (hlen : before.length < 32768) :
    set_offset cur off t =
      { t with entries := before ++ { e with page_id := ⟨e.page_id.itemref_index, off⟩ } :: rest } := by
  have hloop := set_loop_first cur e rest he before 0 hb (by omega)
  simp only [Nat.cast_zero, Int.zero_sub, Nat.zero_add] at hloop
  have hget : (before ++ e :: rest).get? before.length = some e := by
    rw [List.get?_eq_getElem?, List.getElem?_append_right (le_refl _)]
    simp
  unfold set_offset
  simp only [ht, hloop, List.length_append, List.length_cons, Int.toNat_ofNat, hget]
  have hcond : ((before.length : Nat) : Int) ≥ 0 ∧
      ((before.length : Nat) : Int) < ((before.length + (rest.length + 1) : Nat) : Int) := by
    constructor <;> omega
  rw [if_pos hcond]
  simp

/-- C16 (the code at the failing input): in the TOC of the example no entry has spine
index 5; `TOC::set(7)` called while document 5 is open leaves its loop with `idx` on
the last entry and writes the offset 7 into that entry, `One` of document 1, so the
entry list is not left unchanged. -/
theorem set_offset_without_match_writes_last :
    (∀ e ∈ toc_example.entries, e.page_id.itemref_index ≠ 5) ∧
    set_loop 5 toc_example.entries (-1) = 1 ∧
    (set_offset 5 7 toc_example).entries =
      [⟨Label.pool (bytes "Intro"), ⟨0, 0⟩, 0⟩, ⟨Label.pool (bytes "One"), ⟨1, 7⟩, 1⟩] ∧
    (set_offset 5 7 toc_example).entries ≠ toc_example.entries := by
  refine ⟨?_, ?_, ?_, ?_⟩ <;> decide


/-! ### Path resolution -/

/-- The test for `/../` at the read pointer, on the bytes from the pointer on. -/
theorem dotdot_test_iff (s : List Nat) :
    (s.headD 0 = 47 ∧ s.getD 1 0 = 46 ∧ s.getD 2 0 = 46 ∧ s.getD 3 0 = 47) ↔ dotdot_at s 0 := by
  unfold dotdot_at
  rcases s with _ | ⟨a, _ | ⟨b, _ | ⟨c, _ | ⟨d, s⟩⟩⟩⟩ <;> simp

/-- An occurrence in the tail of a path. -/
theorem dotdot_at_cons (c : Nat) (s : List Nat) (i : Nat) :
    dotdot_at (c :: s) (i + 1) ↔ dotdot_at s i := by
  unfold dotdot_at
  simp

/-- An occurrence after a first part of a path. -/
theorem dotdot_at_append (x s : List Nat) (i : Nat) :
    dotdot_at (x ++ s) (x.length + i) ↔ dotdot_at s i := by
  unfold dotdot_at
  simp

/-- The bound on the iterations does not matter once it exceeds the number of bytes
left to read. -/
theorem locate_loop_fuel : ∀ (f1 f2 : Nat) (s name : List Nat) (hi : Nat),
    s.length < f1 → s.length < f2 →
    locate_loop f1 s name hi = locate_loop f2 s name hi := by
  intro f1
  induction f1 with
  | zero => intro f2 s name hi h; omega
  | succ f1 ih =>
    intro f2 s name hi h1 h2
    cases f2 with
    | zero => omega
    | succ f2 =>
      unfold locate_loop
      by_cases hc : name.length < 255 ∧ s.headD 0 ≠ 0
      · have hne : s ≠ [] := by
          intro e; rw [e] at hc; simp at hc
        have hpos : 0 < s.length := List.length_pos.mpr hne
        simp only [hc, and_self, if_true]
        have hd : ∀ k, 0 < k → (s.drop k).length < f1 ∧ (s.drop k).length < f2 := by
          intro k hk
          simp only [List.length_drop]
          omega
        have hk : 0 < (if back_up name name.length > 0 then 3 else 4) := by split <;> omega
        rw [ih f2 (s.drop 3) _ _ (hd 3 (by omega)).1 (hd 3 (by omega)).2,
          ih f2 (s.drop 1) _ _ (hd 1 (by omega)).1 (hd 1 (by omega)).2,
          ih f2 (s.drop (if back_up name name.length > 0 then 3 else 4)) _ _ (hd _ hk).1
            (hd _ hk).2]
      · simp only [hc, if_false]

/-- The loop on a given bound equals the run. -/
theorem locate_loop_eq_run (fuel : Nat) (s name : List Nat) (hi : Nat) (h : s.length < fuel) :
    locate_loop fuel s name hi = locate_run s name hi :=
  locate_loop_fuel _ _ _ _ _ h (Nat.lt_succ_self _)

/-- The run at the end of the string, or with 255 bytes written. -/
theorem locate_run_stop (s name : List Nat) (hi : Nat)
    (h : ¬ (name.length < 255 ∧ s.headD 0 ≠ 0)) : locate_run s name hi = some (name, hi) := by
  unfold locate_run locate_loop
  rw [if_neg h]

/-- One step of the run on a plain byte that does not start `/../`. -/
theorem locate_run_plain (c : Nat) (s name : List Nat) (hi : Nat) (hlen : name.length < 255)
    (hc : c ≠ 37 ∧ c ≠ 0) (hd : ¬ dotdot_at (c :: s) 0) :
    locate_run (c :: s) name hi = locate_run s (name ++ [c]) (max hi (name.length + 1)) := by
  have hd2 := (dotdot_test_iff (c :: s)).not.mpr hd
  unfold locate_run
  rw [locate_loop]
  simp only [List.headD_cons] at hd2 ⊢
  rw [if_pos ⟨hlen, hc.2⟩, if_neg hc.1, if_neg hd2]
  simp only [List.drop_succ_cons, List.drop_zero]
  exact locate_loop_eq_run _ _ _ _ (by simp)

/-- One step of the run on an escape `%xy` with two bytes after the `%`. -/
theorem locate_run_escape (x y : Nat) (s name : List Nat) (hi : Nat) (hlen : name.length < 255)
    (hx : x ≠ 0) (hy : y ≠ 0) :
    locate_run (37 :: x :: y :: s) name hi =
      locate_run s (name ++ [((hex_to_bin x <<< 4) + hex_to_bin y) % 256])
        (max hi (name.length + 1)) := by
  unfold locate_run
  rw [locate_loop]
  have h1 : name.length < 255 ∧ (37 :: x :: y :: s).headD 0 ≠ 0 := ⟨hlen, by simp⟩
  have h2 : ¬ ((37 :: x :: y :: s).getD 1 0 = 0 ∨ (37 :: x :: y :: s).getD 2 0 = 0) := by
    simp [hx, hy]
  rw [if_pos h1, if_pos (show (37 :: x :: y :: s).headD 0 = 37 from rfl), if_neg h2]
  exact locate_loop_eq_run _ _ _ _ (by simp; omega)

/-- One step of the run on `/../`. -/
theorem locate_run_dotdot (s name : List Nat) (hi : Nat) (hlen : name.length < 255) :
    locate_run (47 :: 46 :: 46 :: 47 :: s) name hi =
      locate_run (if back_up name name.length > 0 then 47 :: s else s)
        (name.take (back_up name name.length)) hi := by
  unfold locate_run
  rw [locate_loop]
  have h1 : name.length < 255 ∧ (47 :: 46 :: 46 :: 47 :: s).headD 0 ≠ 0 := ⟨hlen, by simp⟩
  have h2 : ¬ (47 :: 46 :: 46 :: 47 :: s).headD 0 = 37 := by simp
  have h3 : (47 :: 46 :: 46 :: 47 :: s).headD 0 = 47 ∧ (47 :: 46 :: 46 :: 47 :: s).getD 1 0 = 46 ∧
      (47 :: 46 :: 46 :: 47 :: s).getD 2 0 = 46 ∧ (47 :: 46 :: 46 :: 47 :: s).getD 3 0 = 47 :=
    ⟨rfl, rfl, rfl, rfl⟩
  rw [if_pos h1, if_neg h2, if_pos h3]
  simp only
  split
  · exact locate_loop_eq_run _ _ _ _ (by simp)
  · exact locate_loop_eq_run _ _ _ _ (by simp; omega)


/-- A list without 0 byte is its own C string. -/
theorem c_str_of_no_zero (s : List Nat) (h : 0 ∉ s) : c_str s = s := by
  unfold c_str
  induction s with
  | nil => rfl
  | cons a s ih =>
    have ha : a ≠ 0 := fun e => h (by simp [e])
    have hs : 0 ∉ s := fun e => h (List.mem_cons_of_mem _ e)
    simp only [List.takeWhile_cons, ha, ne_eq, not_false_eq_true, decide_True, if_true,
      List.cons.injEq, true_and]
    exact ih hs

/-- The run copies a stretch `x` of plain bytes in which no `/../` starts. -/
theorem locate_run_copy (x y : List Nat) :
    ∀ (name : List Nat) (hi : Nat), plain_bytes x →
      (∀ i, i < x.length → ¬ dotdot_at (x ++ y) i) →
      name.length + x.length ≤ 255 → name.length ≤ hi →
      locate_run (x ++ y) name hi =
        locate_run y (name ++ x) (max hi (name.length + x.length)) := by
  induction x with
  | nil =>
    intro name hi _ _ _ hhi
    simp only [List.nil_append, List.append_nil, List.length_nil, Nat.add_zero]
    rw [Nat.max_eq_left hhi]
  | cons c x ih =>
    intro name hi hp hd hlen hhi
    simp only [List.length_cons] at hlen
    have hc := hp c (List.mem_cons_self _ _)
    rw [List.cons_append, locate_run_plain c (x ++ y) name hi (by omega) hc
      (hd 0 (by simp))]
    rw [ih (name ++ [c]) _ (fun d hdm => hp d (List.mem_cons_of_mem _ hdm))
      (fun i hi2 => by
        have := hd (i + 1) (by simp; omega)
        rwa [List.cons_append, dotdot_at_cons] at this)
      (by simp; omega) (by simp)]
    simp only [List.append_assoc, List.singleton_append, List.length_append, List.length_cons,
      List.length_nil]
    congr 1
    omega

/-- C19: for every path of at most 255 bytes with no `%` (and no 0 byte) and no
occurrence of `/../`, also when it begins with `../`, `EPub::filename_locate` returns
the folder followed by the path unchanged, and the output index `idx`, which starts
at 0 and is unsigned, never exceeds the length of the path, hence never 255. -/
theorem filename_locate_plain (opf_base_path path : List Nat) (hlen : path.length ≤ 255)
    (hp : plain_bytes path) (hd : no_dotdot path) :
    filename_locate opf_base_path path = some (opf_base_path ++ path) ∧
    filename_locate_max_idx path = some path.length ∧ path.length ≤ 255 := by
  have hrun : locate_run path [] 0 = some (path, path.length) := by
    have h := locate_run_copy path [] [] 0 hp
      (fun i hi => by simpa using hd i hi) (by simpa using hlen) (le_refl _)
    simp only [List.append_nil, List.nil_append, List.length_nil, Nat.zero_add,
      Nat.zero_max] at h
    rw [h]
    exact locate_run_stop _ _ _ (by simp)
  have hz : 0 ∉ path := fun h => (hp 0 h).2 rfl
  refine ⟨?_, ?_, hlen⟩
  · show (locate_run path [] 0).map _ = _
    rw [hrun]
    simp only [Option.map, c_str_of_no_zero path hz]
  · show (locate_run path [] 0).map _ = _
    rw [hrun]
    rfl

/-- Witness for C19: `chapter1.xhtml` in the folder `OEBPS/`. -/
theorem filename_locate_plain_witness :
    filename_locate (bytes "OEBPS/") (bytes "chapter1.xhtml") =
      some (bytes "OEBPS/" ++ bytes "chapter1.xhtml") ∧
    filename_locate_max_idx (bytes "chapter1.xhtml") = some (bytes "chapter1.xhtml").length ∧
    (bytes "chapter1.xhtml").length ≤ 255 :=
  filename_locate_plain (bytes "OEBPS/") (bytes "chapter1.xhtml") (by decide) (by decide)
    (by decide)

/-- C18 (the claim as stated fails): `filename_locate("../images/a.png")` with the
folder `OEBPS/text/` yields `OEBPS/text/../images/a.png`, not `OEBPS/images/a.png`:
the `..` at the start of the path is not preceded by `/` and stays a literal segment. -/
theorem filename_locate_leading_dotdot :
    filename_locate (bytes "OEBPS/text/") (bytes "../images/a.png") =
      some (bytes "OEBPS/text/../images/a.png") ∧
    filename_locate (bytes "OEBPS/text/") (bytes "../images/a.png") ≠
      some (bytes "OEBPS/images/a.png") := by
  constructor <;> decide

/-- C18 (amended): `filename_locate("../images/a.png")` with the folder `OEBPS/text/`
yields `OEBPS/text/../images/a.png`; the path `OEBPS/images/a.png` is what results with
the folder `OEBPS/` for the path `text/../images/a.png`, in which the caller has put
the folder `text/` of the document before the reference. -/
theorem filename_locate_parent_reference :
    filename_locate (bytes "OEBPS/text/") (bytes "../images/a.png") =
      some (bytes "OEBPS/text/../images/a.png") ∧
    filename_locate (bytes "OEBPS/") (bytes "text/" ++ bytes "../images/a.png") =
      some (bytes "OEBPS/images/a.png") := by
  constructor <;> decide


/-- The byte that the code computes for an escape with two hexadecimal digits. -/
theorem escape_byte (x y : Nat) (hx : valid_hex x = true) (hy : valid_hex y = true) :
    ((hex_to_bin x <<< 4) + hex_to_bin y) % 256 = 16 * hex_digit_value x + hex_digit_value y := by
  obtain ⟨e0, l0, _, _⟩ := hex_to_bin_valid _ hx
  obtain ⟨e1, l1, _, _⟩ := hex_to_bin_valid _ hy
  rw [Nat.shiftLeft_eq, ← e0, ← e1]
  omega

/-- A hexadecimal digit is not the terminator. -/
theorem valid_hex_ne_zero (x : Nat) (hx : valid_hex x = true) : x ≠ 0 := by
  intro e
  rw [e] at hx
  exact absurd hx (by decide)

/-- The run decodes a path made of plain bytes and escapes, in which no `/../` starts. -/
theorem locate_run_tokens :
    ∀ (toks : List PathToken) (name : List Nat) (hi : Nat), (∀ t ∈ toks, t.ok) →
      (∀ i, i < (render_path toks).length → ¬ dotdot_at (render_path toks) i) →
      name.length + toks.length ≤ 255 → name.length ≤ hi →
      locate_run (render_path toks) name hi =
        some (name ++ toks.map PathToken.decode, max hi (name.length + toks.length)) := by
  intro toks
  induction toks with
  | nil =>
    intro name hi _ _ _ hhi
    simp only [render_path, List.map_nil, List.append_nil, List.length_nil, Nat.add_zero,
      Nat.max_eq_left hhi]
    exact locate_run_stop _ _ _ (by simp)
  | cons t toks ih =>
    intro name hi hok hd hlen hhi
    simp only [List.length_cons] at hlen
    have ht := hok t (List.mem_cons_self _ _)
    have hrest : ∀ u ∈ toks, u.ok := fun u hu => hok u (List.mem_cons_of_mem _ hu)
    have hfin : max (max hi (name.length + 1)) (name.length + 1 + toks.length) =
        max hi (name.length + (toks.length + 1)) := by omega
    cases t with
    | plain c =>
      simp only [render_path, PathToken.render, List.singleton_append] at hd ⊢
      rw [locate_run_plain c _ name hi (by omega) ht (hd 0 (by simp))]
      rw [ih (name ++ [c]) _ hrest
        (fun i hi2 => by
          have := hd (i + 1) (by simp; omega)
          rwa [dotdot_at_cons] at this)
        (by simp; omega) (by simp)]
      simp only [List.length_append, List.length_cons, List.length_nil, Nat.zero_add,
        List.map_cons, PathToken.decode, List.append_assoc, List.singleton_append, hfin]
    | escape x y =>
      obtain ⟨hx, hy, _⟩ := ht
      simp only [render_path, PathToken.render, List.cons_append, List.nil_append] at hd ⊢
      rw [locate_run_escape x y _ name hi (by omega) (valid_hex_ne_zero x hx)
        (valid_hex_ne_zero y hy), escape_byte x y hx hy]
      rw [ih (name ++ [16 * hex_digit_value x + hex_digit_value y]) _ hrest
        (fun i hi2 => by
          have := hd (i + 1 + 1 + 1) (by simp; omega)
          rwa [dotdot_at_cons, dotdot_at_cons, dotdot_at_cons] at this)
        (by simp; omega) (by simp)]
      simp only [List.length_append, List.length_cons, List.length_nil, Nat.zero_add,
        List.map_cons, PathToken.decode, List.append_assoc, List.singleton_append, hfin]

/-- C20: `EPub::filename_locate` percent-decodes: for every path made of plain bytes
(neither `%` nor 0) and escapes `%XY` with `X` and `Y` hexadecimal digits of either
case (`XY` not `00`), with no occurrence of `/../` and decoding to at most 255 bytes,
the result is the folder followed by the path in which each `%XY` is replaced by the
single byte of value `16 * X + Y`. -/
theorem filename_locate_decodes (opf_base_path : List Nat) (toks : List PathToken)
    (hok : ∀ t ∈ toks, t.ok) (hd : no_dotdot (render_path toks)) (hlen : toks.length ≤ 255) :
    filename_locate opf_base_path (render_path toks) =
      some (opf_base_path ++ toks.map PathToken.decode) := by
  have hrun := locate_run_tokens toks [] 0 hok hd (by simpa using hlen) (le_refl _)
  have hz : 0 ∉ toks.map PathToken.decode := by
    intro h
    obtain ⟨t, ht, h0⟩ := List.mem_map.mp h
    have := hok t ht
    cases t with
    | plain c => exact this.2 h0
    | escape x y => exact this.2.2 h0
  show (locate_run (render_path toks) [] 0).map _ = _
  rw [hrun]
  simp only [Option.map, List.nil_append, c_str_of_no_zero _ hz]

/-- Witness for C20: `%20img.png` resolves to a path with a literal space. -/
theorem filename_locate_decodes_witness :
    render_path (PathToken.escape 50 48 :: (bytes "img.png").map PathToken.plain) =
      bytes "%20img.png" ∧
    filename_locate (bytes "OEBPS/")
        (render_path (PathToken.escape 50 48 :: (bytes "img.png").map PathToken.plain)) =
      some (bytes "OEBPS/ img.png") :=
  ⟨by decide,
   (filename_locate_decodes (bytes "OEBPS/")
      (PathToken.escape 50 48 :: (bytes "img.png").map PathToken.plain)
      (by decide) (by decide) (by decide)).trans (by decide)⟩


/-- The inner loop backs up to the last `/` of the name: from the end of
`p ++ "/" ++ s`, where `s` has no `/`, it stops with `idx` on that `/`. -/
theorem back_up_slash (p s : List Nat) (hs : 47 ∉ s) :
    ∀ j, j ≤ s.length → back_up (p ++ 47 :: s) (p.length + 1 + j) = p.length := by
  intro j
  induction j with
  | zero =>
    intro _
    have : (p ++ 47 :: s).getD p.length 0 = 47 := by
      simp [List.getD_eq_getElem?_getD, List.getElem?_append_right (le_refl _)]
    simp only [Nat.add_zero, back_up, this, if_true]
  | succ j ih =>
    intro hj
    have hjlt : j < s.length := by omega
    have hget : (p ++ 47 :: s).getD (p.length + 1 + j) 0 = s[j] := by
      have h1 : p.length ≤ p.length + 1 + j := by omega
      have h2 : p.length + 1 + j - p.length = j + 1 := by omega
      simp [List.getD_eq_getElem?_getD, List.getElem?_append_right h1, h2,
        List.getElem?_eq_getElem hjlt]
    have hne : s[j] ≠ 47 := fun e => hs (e ▸ List.getElem_mem _)
    have hstep : p.length + 1 + (j + 1) = (p.length + 1 + j) + 1 := by omega
    rw [hstep, back_up, hget, if_neg hne]
    exact ih (by omega)

/-- C17: `EPub::filename_locate` resolves an embedded `/../` by backing up to the
previous `/`: for every input `p ++ "/" ++ s ++ "/../" ++ r` of at most 255 bytes with
no `%` (and no 0 byte) and exactly one occurrence of `/../`, where `s` has no `/`, the
result is the folder followed by `p ++ "/" ++ r` when `p` is not empty, and the folder
followed by `r` when `p` is empty. -/
theorem filename_locate_embedded_dotdot (opf_base_path p s r : List Nat)
    (hlen : (p ++ 47 :: s ++ 47 :: 46 :: 46 :: 47 :: r).length ≤ 255)
    (hplain : plain_bytes (p ++ 47 :: s ++ 47 :: 46 :: 46 :: 47 :: r))
    (hone : ∀ i, i < (p ++ 47 :: s ++ 47 :: 46 :: 46 :: 47 :: r).length →
      dotdot_at (p ++ 47 :: s ++ 47 :: 46 :: 46 :: 47 :: r) i → i = p.length + 1 + s.length)
    (hs : 47 ∉ s) :
    filename_locate opf_base_path (p ++ 47 :: s ++ 47 :: 46 :: 46 :: 47 :: r) =
      some (if p = [] then opf_base_path ++ r else opf_base_path ++ (p ++ 47 :: r)) := by
  have hxl : (p ++ 47 :: s).length = p.length + 1 + s.length := by simp; omega
  simp only [List.length_append, List.length_cons] at hlen
  have h1 := locate_run_copy (p ++ 47 :: s) (47 :: 46 :: 46 :: 47 :: r) [] 0
    (fun c hc => hplain c (by
      simp only [List.mem_append, List.mem_cons] at hc ⊢
      tauto))
    (fun i hi hd => by
      have := hone i (by simp at hi ⊢; omega) hd
      omega)
    (by simp; omega) (le_refl _)
  simp only [List.nil_append, List.length_nil, Nat.zero_add, Nat.zero_max] at h1
  have hback : back_up (p ++ 47 :: s) (p ++ 47 :: s).length = p.length := by
    rw [hxl]
    exact back_up_slash p s hs s.length (le_refl _)
  have h2 := locate_run_dotdot r (p ++ 47 :: s) (p ++ 47 :: s).length (by rw [hxl]; omega)
  rw [hback, List.take_left] at h2
  obtain ⟨hi0, hhi0, hdef⟩ : ∃ hi0, p.length ≤ hi0 ∧ hi0 = (p ++ 47 :: s).length :=
    ⟨_, by simp, rfl⟩
  rw [← hdef] at h1 h2
  have hz : ∀ l : List Nat, (∀ c ∈ l, c ∈ p ++ 47 :: s ++ 47 :: 46 :: 46 :: 47 :: r) → 0 ∉ l :=
    fun l hl h0 => (hplain 0 (hl 0 h0)).2 rfl
  show (locate_run _ [] 0).map _ = _
  rw [h1, h2]
  by_cases hp : p = []
  · subst hp
    simp only [List.length_nil, gt_iff_lt, lt_self_iff_false, if_false, if_true]
    have h3 := locate_run_copy r [] [] hi0
      (fun c hc => hplain c (by simp [hc]))
      (fun i hi hd => by
        have e : ([] : List Nat) ++ 47 :: s ++ 47 :: 46 :: 46 :: 47 :: r =
            (47 :: s ++ [47, 46, 46, 47]) ++ r := by simp
        have := hone ((47 :: s ++ [47, 46, 46, 47]).length + i) (by simp at hi ⊢; omega) (by
          rw [e, dotdot_at_append]
          simpa using hd)
        simp at this
        omega)
      (by simp; omega) (Nat.zero_le _)
    simp only [List.append_nil, List.nil_append, List.length_nil, Nat.zero_add] at h3
    rw [h3, locate_run_stop _ _ _ (by simp)]
    simp only [Option.map, c_str_of_no_zero r (hz r (fun c hc => by simp [hc]))]
  · have hpos : p.length > 0 := List.length_pos.mpr hp
    simp only [hpos, if_true, hp, if_false]
    have h3 := locate_run_copy (47 :: r) [] p hi0
      (fun c hc => hplain c (by
        simp only [List.mem_append, List.mem_cons] at hc ⊢
        tauto))
      (fun i hi hd => by
        have e : p ++ 47 :: s ++ 47 :: 46 :: 46 :: 47 :: r =
            (p ++ 47 :: s ++ [47, 46, 46]) ++ 47 :: r := by simp
        have := hone ((p ++ 47 :: s ++ [47, 46, 46]).length + i) (by simp at hi ⊢; omega) (by
          rw [e, dotdot_at_append]
          simpa using hd)
        simp at this
        omega)
      (by simp; omega) hhi0
    simp only [List.append_nil] at h3
    rw [h3, locate_run_stop _ _ _ (by simp)]
    simp only [Option.map, c_str_of_no_zero (p ++ 47 :: r) (hz _ (fun c hc => by
      simp only [List.mem_append, List.mem_cons] at hc ⊢
      tauto))]

/-- Witness for C17: `a/b/../c.css` in the folder `OEBPS/`. -/
theorem filename_locate_embedded_dotdot_witness :
    filename_locate (bytes "OEBPS/")
        (bytes "a" ++ 47 :: bytes "b" ++ 47 :: 46 :: 46 :: 47 :: bytes "c.css") =
      some (if bytes "a" = [] then bytes "OEBPS/" ++ bytes "c.css"
        else bytes "OEBPS/" ++ (bytes "a" ++ 47 :: bytes "c.css")) :=
  filename_locate_embedded_dotdot (bytes "OEBPS/") (bytes "a") (bytes "b") (bytes "c.css")
    (by decide) (by decide) (by decide) (by decide)

/-! ## The navigation walk -/

theorem takeWhile_append_all {α : Type} (f : α → Bool) (a b : List α)
    (h : a.all f = true) : (a ++ b).takeWhile f = a ++ b.takeWhile f := by
  induction a with
  | nil => rfl
  | cons x a ih =>
      simp only [List.all_cons, Bool.and_eq_true] at h
      simp [List.takeWhile_cons, h.1, ih h.2]

theorem takeWhile_append_not_all {α : Type} (f : α → Bool) (a b : List α)
    (h : a.all f = false) : (a ++ b).takeWhile f = a.takeWhile f := by
  induction a with
  | nil => simp at h
  | cons x a ih =>
      cases hx : f x with
      | false => simp [List.takeWhile_cons, hx]
      | true =>
          simp only [List.all_cons, hx, Bool.true_and] at h
          simp [List.takeWhile_cons, hx, ih h]

theorem takeWhile_all {α : Type} (f : α → Bool) (a : List α)
    (h : a.all f = true) : a.takeWhile f = a := by
  have := takeWhile_append_all f a [] h
  simpa using this

theorem nav_label_render (attrs : List (List Nat × List Nat)) (label src : List Nat)
    (children : List NavPoint) :
    nav_label (render_nav (NavPoint.mk attrs label src children)) = some label := by
  rfl

theorem nav_src_render (attrs : List (List Nat × List Nat)) (label src : List Nat)
    (children : List NavPoint) :
    nav_src (render_nav (NavPoint.mk attrs label src children)) = some src := by
  rfl

/-- The entry step on the element of a navigation point that fits the arena. -/
theorem nav_entry_render (opf : xml_node) (level : Nat) (t : TOC)
    (attrs : List (List Nat × List Nat)) (label src : List Nat) (children : List NavPoint)
    (depth : Nat) (hfit : nav_fits (label, src, depth)) :
    nav_entry opf level (render_nav (NavPoint.mk attrs label src children)) t =
      match resolve_target opf (target_path src) with
      | none => some (false, t)
      | some index =>
          some (true,
            { (if fragment_id src ≠ [] then
                { t with infos := infos_assign t.infos (fragment_id src)
                           ⟨target_path src, wrap_int16 index, t.entries.length⟩,
                         some_ids := true }
               else t) with
              entries := t.entries ++ [nav_entry_record label src index level] }) := by
  obtain ⟨h1, h2, h3, h4⟩ := hfit
  simp only at h1 h2 h3 h4
  unfold nav_entry
  rw [nav_label_render, nav_src_render]
  simp only [c_str_of_no_zero _ h1, c_str_of_no_zero _ h2]
  rw [if_neg (by omega)]
  rw [if_neg (by intro h; have := h4 h.1; omega)]
  cases resolve_target opf (target_path src) with
  | none => rfl
  | some index =>
      by_cases hf : fragment_id src = []
      · simp [hf]
      · simp [hf]

/-- The children of a `navPoint` element are walked as the list of nested points:
`navLabel` and `content` are skipped by `node.child("navPoint")`. -/
theorem do_nav_child_render (opf : xml_node) (level : Nat) (ps : List NavPoint) (t : TOC) :
    do_nav_child opf level (render_navs ps) t = do_nav_points opf level (render_navs ps) t := by
  cases ps with
  | nil => simp [render_navs, do_nav_child, do_nav_points]
  | cons p ps =>
      cases p with
      | mk attrs label src children =>
          rw [render_navs, do_nav_child, do_nav_points]
          rw [if_pos (by rfl)]

theorem pre_order_point_eq (depth : Nat) (attrs : List (List Nat × List Nat))
    (label src : List Nat) (children : List NavPoint) :
    pre_order_point depth (NavPoint.mk attrs label src children) =
      (label, src, depth) :: pre_order (depth + 1) children := by
  rw [pre_order_point]

theorem pre_order_cons (depth : Nat) (p : NavPoint) (ps : List NavPoint) :
    pre_order depth (p :: ps) = pre_order_point depth p ++ pre_order depth ps := by
  rw [pre_order]

mutual

/-- The walk of one navigation point and the points nested in it: it succeeds when
every target resolves, and it appends the entries of the points that precede the
first one whose target does not resolve. -/
theorem do_nav_point_render (opf : xml_node) :
    ∀ (p : NavPoint) (depth : Nat) (t : TOC),
      (∀ x ∈ pre_order_point depth p, nav_fits x) →
      ∃ t1, do_nav_point opf (depth % 256) (render_nav p) t =
              some ((pre_order_point depth p).all (nav_resolves opf), t1) ∧
            t1.entries = t.entries ++
              ((pre_order_point depth p).takeWhile (nav_resolves opf)).map (spec_entry opf)
  | NavPoint.mk attrs label src children, depth, t, hfit => by
      rw [pre_order_point_eq] at hfit ⊢
      have hf := hfit (label, src, depth) (List.mem_cons_self _ _)
      have hne := nav_entry_render opf (depth % 256) t attrs label src children depth hf
      have hdef : do_nav_point opf (depth % 256)
            (render_nav (NavPoint.mk attrs label src children)) t =
          match nav_entry opf (depth % 256)
              (render_nav (NavPoint.mk attrs label src children)) t with
          | some (true, t1) => do_nav_points opf ((depth + 1) % 256) (render_navs children) t1
          | r => r := by
        rw [render_nav, do_nav_point]
        have hl : (depth % 256 + 1) % 256 = (depth + 1) % 256 := by omega
        rw [hl]
        cases nav_entry opf (depth % 256) _ t with
        | none => rfl
        | some r =>
            obtain ⟨b, t1⟩ := r
            cases b with
            | false => rfl
            | true =>
                simp only
                have hn : ∀ a c, ¬ (xml_node.element (bytes "navLabel") a c).name =
                    bytes "navPoint" := fun _ _ => by
                  show ¬ bytes "navLabel" = bytes "navPoint"
                  decide
                have hc : ∀ a c, ¬ (xml_node.element (bytes "content") a c).name =
                    bytes "navPoint" := fun _ _ => by
                  show ¬ bytes "content" = bytes "navPoint"
                  decide
                rw [do_nav_child, if_neg (hn _ _), do_nav_child, if_neg (hc _ _),
                  do_nav_child_render]
      rw [hdef, hne]
      cases hres : resolve_target opf (target_path src) with
      | none =>
          refine ⟨t, ?_, ?_⟩
          · simp [nav_resolves, hres]
          · simp [List.takeWhile_cons, nav_resolves, hres]
      | some index =>
          simp only
          obtain ⟨t1, h1, h2⟩ := do_nav_points_render opf children (depth + 1) _
            (fun x hx => hfit x (List.mem_cons_of_mem _ hx))
          refine ⟨t1, ?_, ?_⟩
          · rw [h1]; simp [nav_resolves, hres]
          · rw [h2]
            simp [List.takeWhile_cons, nav_resolves, hres, spec_entry, nav_entry_record]

/-- The walk of a list of navigation points. -/
theorem do_nav_points_render (opf : xml_node) :
    ∀ (ps : List NavPoint) (depth : Nat) (t : TOC),
      (∀ x ∈ pre_order depth ps, nav_fits x) →
      ∃ t1, do_nav_points opf (depth % 256) (render_navs ps) t =
              some ((pre_order depth ps).all (nav_resolves opf), t1) ∧
            t1.entries = t.entries ++
              ((pre_order depth ps).takeWhile (nav_resolves opf)).map (spec_entry opf)
  | [], depth, t, _ => by
      refine ⟨t, ?_, ?_⟩
      · simp [render_navs, do_nav_points, pre_order]
      · simp [pre_order]
  | p :: ps, depth, t, hfit => by
      rw [pre_order_cons] at hfit ⊢
      obtain ⟨t1, h1, h2⟩ := do_nav_point_render opf p depth t
        (fun x hx => hfit x (List.mem_append_left _ hx))
      rw [render_navs, do_nav_points, h1]
      cases hall : (pre_order_point depth p).all (nav_resolves opf) with
      | false =>
          refine ⟨t1, ?_, ?_⟩
          · simp [hall]
          · rw [h2, takeWhile_append_not_all _ _ _ hall]
      | true =>
          simp only
          obtain ⟨t2, h3, h4⟩ := do_nav_points_render opf ps depth t1
            (fun x hx => hfit x (List.mem_append_right _ hx))
          refine ⟨t2, ?_, ?_⟩
          · rw [h3]; simp [hall]
          · rw [h4, h2, takeWhile_append_all _ _ _ hall, takeWhile_all _ _ hall]
            simp

end

theorem nav_nodes_ncx_document (forest : List NavPoint) :
    nav_nodes (ncx_document forest) = render_navs forest := by
  cases forest with
  | nil => rfl
  | cons p ps =>
      cases p with
      | mk attrs label src children => rfl

/-- The build on a navigation document that holds the navigation points `forest`: it
returns, true only when every target resolves, and the entry list holds the entries of
the points that precede the first one whose target does not resolve. -/
theorem load_from_epub_render (opf : xml_node) (opf_base_path : List Nat)
    (archive : List Nat → Option xml_node) (t : TOC)
    (filename path : List Nat) (ncx : xml_node) (forest : List NavPoint)
    (hname : ncx_filename opf = some filename)
    (hpath : filename_locate opf_base_path (c_str filename) = some path)
    (hfile : archive path = some ncx)
    (hnav : nav_nodes ncx = render_navs forest)
    (hfit : ∀ x ∈ pre_order 0 forest, nav_fits x) :
    ∃ b t1, load_from_epub opf opf_base_path archive t = some (b, t1) ∧
      (b = true → (pre_order 0 forest).all (nav_resolves opf) = true) ∧
      t1.entries =
        ((pre_order 0 forest).takeWhile (nav_resolves opf)).map (spec_entry opf) := by
  unfold load_from_epub
  simp only [hname, hpath, hfile, hnav]
  cases hf : render_navs forest with
  | nil =>
      cases forest with
      | nil => exact ⟨false, clean t, rfl, by simp, by simp [clean, pre_order]⟩
      | cons p ps => simp [render_navs] at hf
  | cons node rest =>
      simp only
      obtain ⟨t1, h1, h2⟩ := do_nav_points_render opf forest 0
        { clean t with char_pool := true } hfit
      rw [hf] at h1
      simp only [Nat.zero_mod] at h1
      rw [h1]
      have he : t1.entries =
          ((pre_order 0 forest).takeWhile (nav_resolves opf)).map (spec_entry opf) := by
        rw [h2]; simp [clean]
      cases hall : (pre_order 0 forest).all (nav_resolves opf) with
      | false => exact ⟨false, t1, rfl, by simp, he⟩
      | true => exact ⟨!t1.infos.isEmpty, t1, rfl, fun _ => rfl, he⟩

theorem pre_order_nav_chain (n : Nat) : ∀ depth : Nat,
    pre_order depth [nav_chain n] =
      (List.range' depth (n + 1)).map fun d => (bytes "L", bytes "ch1.xhtml", d) := by
  induction n with
  | zero => intro depth; simp [nav_chain, pre_order, pre_order_point]
  | succ n ih =>
      intro depth
      have h := ih (depth + 1)
      rw [nav_chain, pre_order, pre_order_point, h]
      simp [pre_order, List.range'_succ]

/-- The search of the spine on nodes that all have an `idref`: the position of the
first node with the given reference. -/
theorem spine_loop_found (idref : List Nat) (pre : List xml_node) (n : xml_node)
    (post : List xml_node)
    (hpre : ∀ m ∈ pre, ∃ v, m.attr (bytes "idref") = some v ∧ v ≠ idref)
    (hn : n.attr (bytes "idref") = some idref) :
    ∀ index : Nat, index + pre.length < 65536 →
      spine_loop idref (pre ++ n :: post) index = some (index + pre.length) := by
  induction pre with
  | nil => intro index _; simp [spine_loop, hn]
  | cons m pre ih =>
      intro index hlen
      obtain ⟨v, hv, hne⟩ := hpre m (List.mem_cons_self _ _)
      simp only [List.length_cons] at hlen
      have hmod : (index + 1) % 65536 = index + 1 := Nat.mod_eq_of_lt (by omega)
      simp only [List.cons_append, spine_loop, hv, hmod]
      rw [if_pos hne]
      show spine_loop idref (pre ++ n :: post) (index + 1) = _
      rw [ih (fun m hm => hpre m (List.mem_cons_of_mem _ hm)) (index + 1) (by omega)]
      simp only [List.length_cons]
      congr 1
      omega

/-- The search of the spine on nodes that all have an `idref` different from the
reference finds nothing. -/
theorem spine_loop_missing (idref : List Nat) (nodes : List xml_node)
    (h : ∀ m ∈ nodes, ∃ v, m.attr (bytes "idref") = some v ∧ v ≠ idref) :
    ∀ index : Nat, spine_loop idref nodes index = none := by
  induction nodes with
  | nil => intro index; rfl
  | cons m nodes ih =>
      intro index
      obtain ⟨v, hv, hne⟩ := h m (List.mem_cons_self _ _)
      simp only [spine_loop, hv]
      rw [if_pos hne]
      exact ih (fun m hm => h m (List.mem_cons_of_mem _ hm)) _

/-! ## Claims on the TOC build -/

/-- C12 (counterexample): in a navigation document with 257 navigation points nested in
each other, the innermost point is the 257th in document order and lies at nesting
depth 256, and the entry that `TOC::load_from_epub` appends for it has level 0: the
level is an 8-bit counter. -/
theorem load_from_epub_level_wraps :
    (pre_order 0 [nav_chain 256])[256]? = some (bytes "L", bytes "ch1.xhtml", 256) ∧
    ∃ b t1, load_from_epub opf_nav_example (bytes "OEBPS/")
        (archive_example [nav_chain 256]) toc_example = some (b, t1) ∧
      t1.entries[256]? = some ⟨Label.pool (bytes "L"), ⟨0, 0⟩, 0⟩ := by
  have hp := pre_order_nav_chain 256 0
  have hres : ∀ d : Nat, nav_resolves opf_nav_example (bytes "L", bytes "ch1.xhtml", d) = true :=
    fun d => by
      show (resolve_target opf_nav_example (target_path (bytes "ch1.xhtml"))).isSome = true
      decide
  have hfits : ∀ d : Nat, nav_fits (bytes "L", bytes "ch1.xhtml", d) := fun d => by
    show 0 ∉ bytes "L" ∧ 0 ∉ bytes "ch1.xhtml" ∧ (bytes "L").length < 4096 ∧
      (35 ∈ bytes "ch1.xhtml" → (target_path (bytes "ch1.xhtml")).length < 4096)
    decide
  have hget : (pre_order 0 [nav_chain 256])[256]? = some (bytes "L", bytes "ch1.xhtml", 256) := by
    rw [hp]; simp [List.getElem?_range']
  refine ⟨hget, ?_⟩
  obtain ⟨b, t1, h1, _, h3⟩ := load_from_epub_render opf_nav_example (bytes "OEBPS/")
    (archive_example [nav_chain 256]) toc_example (bytes "toc.ncx") (bytes "OEBPS/toc.ncx")
    (ncx_document [nav_chain 256]) [nav_chain 256] (by decide) (by decide) rfl
    (nav_nodes_ncx_document _)
    (by
      intro x hx
      rw [hp] at hx
      simp only [List.mem_map] at hx
      obtain ⟨d, _, rfl⟩ := hx
      exact hfits d)
  refine ⟨b, t1, h1, ?_⟩
  have hall : (pre_order 0 [nav_chain 256]).all (nav_resolves opf_nav_example) = true := by
    rw [hp, List.all_eq_true]
    intro x hx
    simp only [List.mem_map] at hx
    obtain ⟨d, _, rfl⟩ := hx
    exact hres d
  rw [h3, takeWhile_all _ _ hall, List.getElem?_map, hget]
  decide

/-- C12 (amended): for a navigation document that holds a forest of navigation points,
each with a label and a `src` that are C strings of fewer than 4096 bytes and a target
that resolves, `TOC::load_from_epub` returns and leaves the entry list equal to the
document-order flattening of the forest: one entry per navigation point, with the
label of the point, its nesting depth modulo 256 as level, and offset -1 when the
`src` has a non-empty fragment after its first `#` and 0 otherwise. -/
theorem load_from_epub_flattening (opf : xml_node) (opf_base_path : List Nat)
    (archive : List Nat → Option xml_node) (t : TOC)
    (filename path : List Nat) (ncx : xml_node) (forest : List NavPoint)
    (hname : ncx_filename opf = some filename)
    (hpath : filename_locate opf_base_path (c_str filename) = some path)
    (hfile : archive path = some ncx)
    (hnav : nav_nodes ncx = render_navs forest)
    (hfit : ∀ x ∈ pre_order 0 forest, nav_fits x)
    (hres : ∀ x ∈ pre_order 0 forest, (resolve_target opf (target_path x.2.1)).isSome) :
    ∃ b t1, load_from_epub opf opf_base_path archive t = some (b, t1) ∧
      t1.entries = (pre_order 0 forest).map fun x =>
        { label := Label.pool x.1,
          page_id := ⟨wrap_int16 ((resolve_target opf (target_path x.2.1)).getD 0),
                      if fragment_id x.2.1 ≠ [] then -1 else 0⟩,
          level := x.2.2 % 256 } := by
  obtain ⟨b, t1, h1, _, h3⟩ := load_from_epub_render opf opf_base_path archive t filename
    path ncx forest hname hpath hfile hnav hfit
  have hall : (pre_order 0 forest).all (nav_resolves opf) = true := by
    rw [List.all_eq_true]
    exact fun x hx => hres x hx
  refine ⟨b, t1, h1, ?_⟩
  rw [h3, takeWhile_all _ _ hall]
  rfl

theorem load_from_epub_flattening_witness :
    ∃ b t1, load_from_epub opf_nav_example (bytes "OEBPS/") (archive_example forest_example)
        toc_example = some (b, t1) ∧
      t1.entries = (pre_order 0 forest_example).map fun x =>
        { label := Label.pool x.1,
          page_id := ⟨wrap_int16
                        ((resolve_target opf_nav_example (target_path x.2.1)).getD 0),
                      if fragment_id x.2.1 ≠ [] then -1 else 0⟩,
          level := x.2.2 % 256 } :=
  load_from_epub_flattening opf_nav_example (bytes "OEBPS/") (archive_example forest_example)
    toc_example (bytes "toc.ncx") (bytes "OEBPS/toc.ncx") (ncx_document forest_example)
    forest_example (by decide) (by decide) rfl (nav_nodes_ncx_document _) (by decide)
    (by decide)

/-- C13: the search of the spine in `TOC::do_nav_points` stops at an `itemref` that has
no `idref` as if it had found the reference.  In the package document
`opf_no_idref_example` the manifest item of `ch2.xhtml` has the id `c2`, no `itemref`
has the `idref` `c2`, and the second `itemref` has no `idref`: the target `ch2.xhtml`
resolves to spine index 1, and the build of a navigation document with the single
entry `Two` for `ch2.xhtml#x` returns true with that entry at spine index 1. -/
theorem do_nav_points_accepts_missing_idref :
    resolve_target opf_no_idref_example (bytes "ch2.xhtml") = some 1 ∧
    (load_from_epub opf_no_idref_example (bytes "OEBPS/")
        (archive_example [NavPoint.mk [] (bytes "Two") (bytes "ch2.xhtml#x") []])
        toc_example).map (fun r => (r.1, r.2.entries)) =
      some (true, [⟨Label.pool (bytes "Two"), ⟨1, -1⟩, 0⟩]) := by
  decide

/-- C14 (counterexample): the second entry of the navigation list `forest_miss_example`
targets `ch3.xhtml`, which is not in the manifest; `TOC::load_from_epub` returns false
and the entry of the first navigation point is still in the entry list. -/
theorem load_from_epub_failure_keeps_entry :
    resolve_target opf_nav_example (bytes "ch3.xhtml") = none ∧
    (load_from_epub opf_nav_example (bytes "OEBPS/") (archive_example forest_miss_example)
        toc_example).map (fun r => (r.1, r.2.entries)) =
      some (false, [⟨Label.pool (bytes "One"), ⟨0, 0⟩, 0⟩]) := by
  decide

/-- C14 (amended): when the target of a navigation point misses the manifest or the
spine, `TOC::load_from_epub` returns false and the entry list holds the entries of the
navigation points that precede the first such point in document order. -/
theorem load_from_epub_failure_entries (opf : xml_node) (opf_base_path : List Nat)
    (archive : List Nat → Option xml_node) (t : TOC)
    (filename path : List Nat) (ncx : xml_node) (forest : List NavPoint)
    (hname : ncx_filename opf = some filename)
    (hpath : filename_locate opf_base_path (c_str filename) = some path)
    (hfile : archive path = some ncx)
    (hnav : nav_nodes ncx = render_navs forest)
    (hfit : ∀ x ∈ pre_order 0 forest, nav_fits x)
    (hmiss : ∃ x ∈ pre_order 0 forest, resolve_target opf (target_path x.2.1) = none) :
    ∃ t1, load_from_epub opf opf_base_path archive t = some (false, t1) ∧
      t1.entries =
        ((pre_order 0 forest).takeWhile
          fun x => (resolve_target opf (target_path x.2.1)).isSome).map (spec_entry opf) := by
  obtain ⟨b, t1, h1, h2, h3⟩ := load_from_epub_render opf opf_base_path archive t filename
    path ncx forest hname hpath hfile hnav hfit
  have hb : b = false := by
    cases b with
    | false => rfl
    | true =>
        have hall := h2 rfl
        rw [List.all_eq_true] at hall
        obtain ⟨x, hx, hn⟩ := hmiss
        have := hall x hx
        simp [nav_resolves, hn] at this
  subst hb
  exact ⟨t1, h1, h3⟩

theorem load_from_epub_failure_entries_witness :
    ∃ t1, load_from_epub opf_nav_example (bytes "OEBPS/") (archive_example forest_miss_example)
        toc_example = some (false, t1) ∧
      t1.entries =
        ((pre_order 0 forest_miss_example).takeWhile
          fun x => (resolve_target opf_nav_example (target_path x.2.1)).isSome).map
          (spec_entry opf_nav_example) :=
  load_from_epub_failure_entries opf_nav_example (bytes "OEBPS/")
    (archive_example forest_miss_example) toc_example (bytes "toc.ncx")
    (bytes "OEBPS/toc.ncx") (ncx_document forest_miss_example) forest_miss_example
    (by decide) (by decide) rfl (nav_nodes_ncx_document _) (by decide) (by decide)

/-! ## Claims on the reads of `EPub::filename_locate` -/

/-- C30: for the path `%`, whose terminator is at position 1 of the memory
`mem_percent_example`, `EPub::filename_locate` reads the bytes at positions 2, 3 and 4,
which lie behind the terminator: after the `%` it reads `s[1]` and `s[2]` and moves
the read cursor by 3, so the cursor ends at position 4 and the bytes `41` that follow
the terminator end up in the result. -/
theorem filename_locate_reads_past_terminator :
    c_str mem_percent_example = bytes "%" ∧
    mem_percent_example.get? 1 = some 0 ∧
    filename_locate_reads mem_percent_example = some ([4, 49], 4, 4) := by
  decide

/-! ## Claims on the names of the package elements in the TOC build -/

/-- C26: `TOC::load_from_epub` and `TOC::do_nav_points` look the package elements up
with `child("package")`, `child("manifest")`, `child("item")`, `child("spine")` and
`child("itemref")` only.  With the bare names (`opf_nav_example`) the build of the
navigation tree `forest_example` returns true with three entries and the target
`ch2.xhtml` resolves to spine index 1; with the same package document in the prefixed
form (`opf_prefixed_example`), which `package_pred` of epub.cpp accepts, the name of
the navigation file is not found, the build returns false with no entry and the target
does not resolve. -/
theorem load_from_epub_rejects_prefixed_names :
    (opf_prefixed_example.find_child package_pred).isSome = true ∧
    ncx_filename opf_nav_example = some (bytes "toc.ncx") ∧
    ncx_filename opf_prefixed_example = none ∧
    resolve_target opf_nav_example (bytes "ch2.xhtml") = some 1 ∧
    resolve_target opf_prefixed_example (bytes "ch2.xhtml") = none ∧
    (load_from_epub opf_nav_example (bytes "OEBPS/") (archive_example forest_example)
        toc_example).map (fun r => (r.1, r.2.entries.length)) = some (true, 3) ∧
    (load_from_epub opf_prefixed_example (bytes "OEBPS/") (archive_example forest_example)
        toc_example).map (fun r => (r.1, r.2.entries.length)) = some (false, 0) := by
  decide

/-! ## The fragment index during the navigation walk -/

/-- One step of the walk on the element of a navigation point that fits the arena: the
entry step, then the walk of the nested points. -/
theorem do_nav_point_step (opf : xml_node) (depth : Nat) (t : TOC)
    (attrs : List (List Nat × List Nat)) (label src : List Nat) (children : List NavPoint)
    (hfit : nav_fits (label, src, depth)) :
    do_nav_point opf (depth % 256) (render_nav (NavPoint.mk attrs label src children)) t =
      match resolve_target opf (target_path src) with
      | none => some (false, t)
      | some index =>
          do_nav_points opf ((depth + 1) % 256) (render_navs children)
            { (if fragment_id src ≠ [] then
                { t with infos := infos_assign t.infos (fragment_id src)
                           ⟨target_path src, wrap_int16 index, t.entries.length⟩,
                         some_ids := true }
               else t) with
              entries := t.entries ++ [nav_entry_record label src index (depth % 256)] } := by
  have hne := nav_entry_render opf (depth % 256) t attrs label src children depth hfit
  have hn : ∀ a c, ¬ (xml_node.element (bytes "navLabel") a c).name = bytes "navPoint" :=
    fun _ _ => by
      show ¬ bytes "navLabel" = bytes "navPoint"
      decide
  have hc : ∀ a c, ¬ (xml_node.element (bytes "content") a c).name = bytes "navPoint" :=
    fun _ _ => by
      show ¬ bytes "content" = bytes "navPoint"
      decide
  have hl : (depth % 256 + 1) % 256 = (depth + 1) % 256 := by omega
  rw [render_nav] at hne ⊢
  rw [do_nav_point, hne, hl]
  cases resolve_target opf (target_path src) with
  | none => rfl
  | some index =>
      simp only
      rw [do_nav_child, if_neg (hn _ _), do_nav_child, if_neg (hc _ _), do_nav_child_render]

mutual

/-- The fragment index after the walk of one navigation point: it is empty when it was
empty before and no point that the walk has entered carries a fragment id. -/
theorem do_nav_point_infos (opf : xml_node) :
    ∀ (p : NavPoint) (depth : Nat) (t : TOC),
      (∀ x ∈ pre_order_point depth p, nav_fits x) →
      ∃ b t1, do_nav_point opf (depth % 256) (render_nav p) t = some (b, t1) ∧
        (t1.infos = [] ↔ t.infos = [] ∧
          ∀ x ∈ (pre_order_point depth p).takeWhile (nav_resolves opf), fragment_id x.2.1 = [])
  | NavPoint.mk attrs label src children, depth, t, hfit => by
      rw [pre_order_point_eq] at hfit ⊢
      have hf := hfit (label, src, depth) (List.mem_cons_self _ _)
      rw [do_nav_point_step opf depth t attrs label src children hf]
      cases hres : resolve_target opf (target_path src) with
      | none =>
          refine ⟨false, t, rfl, ?_⟩
          simp [List.takeWhile_cons, nav_resolves, hres]
      | some index =>
          simp only
          obtain ⟨b, t1, h1, h2⟩ := do_nav_points_infos opf children (depth + 1) _
            (fun x hx => hfit x (List.mem_cons_of_mem _ hx))
          refine ⟨b, t1, h1, ?_⟩
          rw [h2]
          by_cases hfr : fragment_id src = []
          · simp [List.takeWhile_cons, nav_resolves, hres, hfr]
          · simp [List.takeWhile_cons, nav_resolves, hres, hfr, infos_assign]

/-- The fragment index after the walk of a list of navigation points. -/
theorem do_nav_points_infos (opf : xml_node) :
    ∀ (ps : List NavPoint) (depth : Nat) (t : TOC),
      (∀ x ∈ pre_order depth ps, nav_fits x) →
      ∃ b t1, do_nav_points opf (depth % 256) (render_navs ps) t = some (b, t1) ∧
        (t1.infos = [] ↔ t.infos = [] ∧
          ∀ x ∈ (pre_order depth ps).takeWhile (nav_resolves opf), fragment_id x.2.1 = [])
  | [], depth, t, _ => by
      refine ⟨true, t, ?_, ?_⟩
      · simp [render_navs, do_nav_points]
      · simp [pre_order]
  | p :: ps, depth, t, hfit => by
      rw [pre_order_cons] at hfit ⊢
      obtain ⟨t0, h0, _⟩ := do_nav_point_render opf p depth t
        (fun x hx => hfit x (List.mem_append_left _ hx))
      obtain ⟨b, t1, h1, h2⟩ := do_nav_point_infos opf p depth t
        (fun x hx => hfit x (List.mem_append_left _ hx))
      have hb : b = (pre_order_point depth p).all (nav_resolves opf) := by
        rw [h0] at h1
        exact ((Prod.mk.inj (Option.some.inj h1)).1).symm
      rw [render_navs, do_nav_points, h1]
      cases hall : (pre_order_point depth p).all (nav_resolves opf) with
      | false =>
          rw [hall] at hb
          subst hb
          refine ⟨false, t1, rfl, ?_⟩
          rw [h2, takeWhile_append_not_all _ _ _ hall]
      | true =>
          rw [hall] at hb
          subst hb
          simp only
          obtain ⟨b2, t2, h3, h4⟩ := do_nav_points_infos opf ps depth t1
            (fun x hx => hfit x (List.mem_append_right _ hx))
          refine ⟨b2, t2, h3, ?_⟩
          rw [h4, h2, takeWhile_append_all _ _ _ hall, takeWhile_all _ _ hall]
          simp only [List.mem_append]
          constructor
          · rintro ⟨⟨ha, hb⟩, hc⟩
            exact ⟨ha, fun x hx => hx.elim (hb x) (hc x)⟩
          · rintro ⟨ha, hb⟩
            exact ⟨⟨ha, fun x hx => hb x (Or.inl hx)⟩, fun x hx => hb x (Or.inr hx)⟩

end

/-- C28: for a navigation document that is found, parsed and holds a non-empty forest
of navigation points (labels and target paths that fit the arena),
`TOC::load_from_epub` returns; it returns true exactly when the navigation walk
`do_nav_points` returns true and at least one navigation point carries a non-empty
fragment id; and when no navigation point carries a fragment id and every target
resolves, it returns false although the entry list holds one entry per navigation
point. -/
theorem load_from_epub_true_iff (opf : xml_node) (opf_base_path : List Nat)
    (archive : List Nat → Option xml_node) (t : TOC)
    (filename path : List Nat) (ncx : xml_node) (forest : List NavPoint)
    (hname : ncx_filename opf = some filename)
    (hpath : filename_locate opf_base_path (c_str filename) = some path)
    (hfile : archive path = some ncx)
    (hnav : nav_nodes ncx = render_navs forest)
    (hne : forest ≠ [])
    (hfit : ∀ x ∈ pre_order 0 forest, nav_fits x) :
    ∃ b t1, load_from_epub opf opf_base_path archive t = some (b, t1) ∧
      (b = true ↔
        (∃ t2, do_nav_points opf 0 (nav_nodes ncx) { clean t with char_pool := true } =
            some (true, t2)) ∧
        ∃ x ∈ pre_order 0 forest, fragment_id x.2.1 ≠ []) ∧
      ((∀ x ∈ pre_order 0 forest,
          (resolve_target opf (target_path x.2.1)).isSome ∧ fragment_id x.2.1 = []) →
        b = false ∧ t1.entries = (pre_order 0 forest).map (spec_entry opf) ∧
          t1.entries.length = (pre_order 0 forest).length ∧ t1.entries ≠ []) := by
  obtain ⟨t0, h0, h0e⟩ := do_nav_points_render opf forest 0
    { clean t with char_pool := true } hfit
  obtain ⟨b1, t1, h1, h2⟩ := do_nav_points_infos opf forest 0
    { clean t with char_pool := true } hfit
  simp only [Nat.zero_mod] at h0 h1
  have heq : (b1, t1) = ((pre_order 0 forest).all (nav_resolves opf), t0) := by
    rw [h0] at h1
    exact (Option.some.inj h1).symm
  have hb1 : b1 = (pre_order 0 forest).all (nav_resolves opf) := (Prod.mk.inj heq).1
  have ht1 : t1 = t0 := (Prod.mk.inj heq).2
  subst ht1
  have hinf : t1.infos = [] ↔
      ∀ x ∈ (pre_order 0 forest).takeWhile (nav_resolves opf), fragment_id x.2.1 = [] := by
    rw [h2]
    simp [clean]
  have hpre : pre_order 0 forest ≠ [] := by
    cases forest with
    | nil => exact absurd rfl hne
    | cons p ps =>
        cases p with
        | mk attrs label src children => simp [pre_order, pre_order_point]
  obtain ⟨node, rest, hrn⟩ : ∃ node rest, render_navs forest = node :: rest := by
    cases forest with
    | nil => exact absurd rfl hne
    | cons p ps => exact ⟨_, _, by rw [render_navs]⟩
  have hload : load_from_epub opf opf_base_path archive t =
      some (if b1 = true then !t1.infos.isEmpty else false, t1) := by
    unfold load_from_epub
    simp only [hname, hpath, hfile, hnav, hrn]
    rw [hrn] at h1
    rw [h1]
    cases b1 <;> simp
  refine ⟨_, t1, hload, ?_, ?_⟩
  · rw [hnav, h1]
    cases hb : b1 with
    | false => simp
    | true =>
        have hall : (pre_order 0 forest).all (nav_resolves opf) = true := by
          rw [← hb1, hb]
        have hnon : (!t1.infos.isEmpty) = true ↔ ¬ t1.infos = [] := by
          cases t1.infos <;> simp
        simp only [if_true, hnon, hinf, takeWhile_all _ _ hall]
        constructor
        · intro h
          refine ⟨⟨t1, rfl⟩, ?_⟩
          by_contra hc
          exact h fun x hx => by
            by_contra hx2
            exact hc ⟨x, hx, hx2⟩
        · rintro ⟨_, x, hx, hx2⟩ h
          exact hx2 (h x hx)
  · intro hall
    have hres : (pre_order 0 forest).all (nav_resolves opf) = true := by
      rw [List.all_eq_true]
      exact fun x hx => (hall x hx).1
    have hempty : t1.infos = [] := by
      rw [hinf, takeWhile_all _ _ hres]
      exact fun x hx => (hall x hx).2
    have hent : t1.entries = (pre_order 0 forest).map (spec_entry opf) := by
      rw [h0e, takeWhile_all _ _ hres]
      simp [clean]
    refine ⟨?_, hent, ?_, ?_⟩
    · rw [hb1, hres]
      simp [hempty]
    · rw [hent, List.length_map]
    · rw [hent]
      simpa using hpre

theorem load_from_epub_true_iff_witness :
    ∃ b t1, load_from_epub opf_nav_example (bytes "OEBPS/") (archive_example forest_example)
        toc_example = some (b, t1) ∧
      (b = true ↔
        (∃ t2, do_nav_points opf_nav_example 0 (nav_nodes (ncx_document forest_example))
            { clean toc_example with char_pool := true } = some (true, t2)) ∧
        ∃ x ∈ pre_order 0 forest_example, fragment_id x.2.1 ≠ []) ∧
      ((∀ x ∈ pre_order 0 forest_example,
          (resolve_target opf_nav_example (target_path x.2.1)).isSome ∧
            fragment_id x.2.1 = []) →
        b = false ∧
          t1.entries = (pre_order 0 forest_example).map (spec_entry opf_nav_example) ∧
          t1.entries.length = (pre_order 0 forest_example).length ∧ t1.entries ≠ []) :=
  load_from_epub_true_iff opf_nav_example (bytes "OEBPS/") (archive_example forest_example)
    toc_example (bytes "toc.ncx") (bytes "OEBPS/toc.ncx") (ncx_document forest_example)
    forest_example (by decide) (by decide) rfl (nav_nodes_ncx_document _)
    (by simp [forest_example]) (by decide)

/-! ## The string arena -/

/-- What the pool knows about the buffers it has returned: each lies in a block of the
pool, and the buffers of the current block end at or before `current_idx`. -/
theorem allocate_step (p : CharPool) (bufs : List PoolBuffer) (size : Nat)
    (hcur : ∀ c, p.current = some c → c < p.blocks)
    (hbufs : ∀ b ∈ bufs, b.block < p.blocks ∧
      (p.current = some b.block → b.offset + b.size ≤ p.current_idx))
    (hsize : size ≤ POOL_SIZE) :
    ∃ blk off p1, p.allocate true size = (some (blk, off), p1) ∧
      off + size ≤ POOL_SIZE ∧
      (∀ b ∈ bufs, ¬ (PoolBuffer.mk blk off size).overlaps b) ∧
      (∀ c, p1.current = some c → c < p1.blocks) ∧
      (∀ b ∈ PoolBuffer.mk blk off size :: bufs, b.block < p1.blocks ∧
        (p1.current = some b.block → b.offset + b.size ≤ p1.current_idx)) := by
  unfold POOL_SIZE at hsize
  have hs : size % 65536 = size := Nat.mod_eq_of_lt (by omega)
  by_cases hfresh : (p.current.isNone || decide (p.current_idx + size ≥ POOL_SIZE)) = true
  · refine ⟨p.blocks, 0,
      ⟨p.blocks + 1, some p.blocks, size % 65536, (p.total_allocated + size) % 4294967296⟩,
      ?_, ?_, ?_, ?_, ?_⟩
    · simp [CharPool.allocate, hs, hfresh]
    · simpa [POOL_SIZE] using hsize
    · intro b hb hov
      have := (hbufs b hb).1
      have h1 : p.blocks = b.block := hov.1
      omega
    · intro c hc
      have h1 : p.blocks = c := Option.some.inj hc
      show c < p.blocks + 1
      omega
    · intro b hb
      rcases List.mem_cons.1 hb with rfl | hb
      · refine ⟨?_, fun _ => ?_⟩
        · show p.blocks < p.blocks + 1
          omega
        · show 0 + size ≤ size % 65536
          rw [Nat.mod_eq_of_lt (by omega)]
          omega
      · have := (hbufs b hb).1
        refine ⟨?_, ?_⟩
        · show b.block < p.blocks + 1
          omega
        · intro hc
          have h1 : p.blocks = b.block := Option.some.inj hc
          omega
  · have hf : ¬ p.current = none ∧ p.current_idx + size < POOL_SIZE := by
      simpa using hfresh
    obtain ⟨hsome, hlt⟩ := hf
    unfold POOL_SIZE at hlt
    obtain ⟨c, hc⟩ : ∃ c, p.current = some c := by
      cases hp : p.current with
      | none => exact absurd hp hsome
      | some c => exact ⟨c, rfl⟩
    have hmod : (p.current_idx + size) % 65536 = p.current_idx + size :=
      Nat.mod_eq_of_lt (by omega)
    have hnl : ¬ 4096 ≤ p.current_idx + size := by omega
    refine ⟨c, p.current_idx,
      ⟨p.blocks, some c, (p.current_idx + size) % 65536,
        (p.total_allocated + size) % 4294967296⟩, ?_, ?_, ?_, ?_, ?_⟩
    · simp [CharPool.allocate, hs, hc, POOL_SIZE, hnl]
    · simp only [POOL_SIZE]; omega
    · intro b hb hov
      obtain ⟨h1, h2, h3⟩ := hov
      have h4 : c = b.block := h1
      have := (hbufs b hb).2 (by rw [hc, h4])
      simp only at h2 h3
      omega
    · intro c2 hc2
      have h1 : c = c2 := Option.some.inj hc2
      rw [← h1]
      exact hcur c hc
    · intro b hb
      rcases List.mem_cons.1 hb with rfl | hb
      · exact ⟨hcur c hc, fun _ => by simp only [hmod]; exact le_refl _⟩
      · refine ⟨(hbufs b hb).1, ?_⟩
        intro hcb
        have h1 : c = b.block := Option.some.inj hcb
        have := (hbufs b hb).2 (by rw [hc, h1])
        show b.offset + b.size ≤ (p.current_idx + size) % 65536
        rw [hmod]
        omega

/-- Every sequence of calls with sizes of at most `POOL_SIZE` returns buffers that lie
inside their block, overlap no buffer returned before the sequence and do not overlap
each other. -/
theorem allocate_all_safe (sizes : List Nat) :
    ∀ (p : CharPool) (bufs : List PoolBuffer),
      (∀ c, p.current = some c → c < p.blocks) →
      (∀ b ∈ bufs, b.block < p.blocks ∧
        (p.current = some b.block → b.offset + b.size ≤ p.current_idx)) →
      (∀ s ∈ sizes, s ≤ POOL_SIZE) →
      (allocate_all p sizes).1.length = sizes.length ∧
      (∀ b ∈ (allocate_all p sizes).1, b.inside) ∧
      (∀ b ∈ (allocate_all p sizes).1, ∀ b2 ∈ bufs, ¬ b.overlaps b2) ∧
      (allocate_all p sizes).1.Pairwise fun a b => ¬ a.overlaps b := by
  induction sizes with
  | nil => intro p bufs _ _ _; simp [allocate_all]
  | cons size rest ih =>
      intro p bufs hcur hbufs hsizes
      obtain ⟨blk, off, p1, hal, hin, hno, hcur1, hbufs1⟩ :=
        allocate_step p bufs size hcur hbufs (hsizes size (List.mem_cons_self _ _))
      obtain ⟨hlen, hins, hnov, hpw⟩ := ih p1 (PoolBuffer.mk blk off size :: bufs) hcur1 hbufs1
        (fun s hs => hsizes s (List.mem_cons_of_mem _ hs))
      have hs : size % 65536 = size :=
        Nat.mod_eq_of_lt (by
          have := hsizes size (List.mem_cons_self _ _)
          unfold POOL_SIZE at this
          omega)
      have hdef : (allocate_all p (size :: rest)).1 =
          (allocate_all p1 rest).1 ++ [PoolBuffer.mk blk off size] := by
        rw [allocate_all, hal, hs]
      rw [hdef]
      refine ⟨by simp [hlen], ?_, ?_, ?_⟩
      · intro b hb
        rcases List.mem_append.1 hb with hb | hb
        · exact hins b hb
        · rw [List.mem_singleton.1 hb]
          exact hin
      · intro b hb b2 hb2
        rcases List.mem_append.1 hb with hb | hb
        · exact hnov b hb b2 (List.mem_cons_of_mem _ hb2)
        · rw [List.mem_singleton.1 hb]
          exact hno b2 hb2
      · rw [List.pairwise_append]
        refine ⟨hpw, List.pairwise_singleton _ _, ?_⟩
        intro a ha b hb
        rw [List.mem_singleton.1 hb]
        exact hnov a ha _ (List.mem_cons_self _ _)

/-- For every sequence of successful calls of `CharPool::allocate` on a new pool with
sizes of at most 4096 bytes, every call returns a buffer, each returned buffer lies
entirely inside one block of 4096 bytes, and no two returned buffers overlap. -/
theorem allocate_buffers_disjoint (sizes : List Nat) (hsizes : ∀ s ∈ sizes, s ≤ 4096) :
    (allocate_all CharPool.new sizes).1.length = sizes.length ∧
    (∀ b ∈ (allocate_all CharPool.new sizes).1, b.offset + b.size ≤ 4096) ∧
    (allocate_all CharPool.new sizes).1.Pairwise fun a b => ¬ a.overlaps b := by
  obtain ⟨h1, h2, _, h4⟩ := allocate_all_safe sizes CharPool.new []
    (by intro c hc; simp [CharPool.new] at hc) (by simp) hsizes
  exact ⟨h1, h2, h4⟩

/-- The calls of the example, with sizes of at most 4096 bytes. -/
theorem allocate_buffers_disjoint_example :
    (allocate_all CharPool.new [4096, 0, 10, 4085, 1, 4095]).1.length = 6 ∧
    (∀ b ∈ (allocate_all CharPool.new [4096, 0, 10, 4085, 1, 4095]).1,
      b.offset + b.size ≤ 4096) ∧
    (allocate_all CharPool.new [4096, 0, 10, 4085, 1, 4095]).1.Pairwise
      fun a b => ¬ a.overlaps b :=
  allocate_buffers_disjoint [4096, 0, 10, 4085, 1, 4095] (by decide)

/-- C29: `CharPool::allocate` has no test of the size against the size of a block.  For
every pool and every size above 4096 that the 16-bit parameter can hold, the call
takes a new block of 4096 bytes and returns its start, so the returned buffer of
`size` bytes does not lie inside the block: the bytes from 4096 on lie behind it. -/
theorem allocate_larger_than_block (p : CharPool) (size : Nat)
    (h1 : 4096 < size) (h2 : size < 65536) :
    (p.allocate true size).1 = some (p.blocks, 0) ∧
    (allocate_all p [size]).1 = [⟨p.blocks, 0, size⟩] ∧
    ¬ (PoolBuffer.mk p.blocks 0 size).inside := by
  have hs : size % 65536 = size := Nat.mod_eq_of_lt h2
  have hfresh : (p.current.isNone || decide (p.current_idx + size ≥ POOL_SIZE)) = true := by
    simp only [Bool.or_eq_true, decide_eq_true_eq, POOL_SIZE]
    exact Or.inr (by omega)
  have hal : p.allocate true size =
      (some (p.blocks, 0),
        ⟨p.blocks + 1, some p.blocks, size % 65536,
          (p.total_allocated + size) % 4294967296⟩) := by
    simp [CharPool.allocate, hs, hfresh]
  refine ⟨by rw [hal], ?_, ?_⟩
  · rw [allocate_all, hal, hs]
    simp [allocate_all]
  · simp only [PoolBuffer.inside, POOL_SIZE]
    omega

theorem allocate_larger_than_block_witness :
    (CharPool.new.allocate true 5000).1 = some (0, 0) ∧
    (allocate_all CharPool.new [5000]).1 = [⟨0, 0, 5000⟩] ∧
    ¬ (PoolBuffer.mk 0 0 5000).inside :=
  allocate_larger_than_block CharPool.new 5000 (by decide) (by decide)

/-! ## Claims on the cover -/

theorem cover_by_pointer_none (itemref : List Nat) (nodes : List xml_node)
    (h : ∀ n ∈ nodes, n.name = bytes "item" ∨ n.name = bytes "opf:item" →
      ¬ ((n.attr (bytes "id") = some itemref ∨ n.attr (bytes "properties") = some itemref) ∧
          (n.attr (bytes "href")).isSome)) :
    cover_by_pointer itemref nodes = none := by
  induction nodes with
  | nil => rfl
  | cons n rest ih =>
      have hr := ih fun m hm => h m (List.mem_cons_of_mem _ hm)
      have hn := h n (List.mem_cons_self _ _)
      rw [cover_by_pointer]
      by_cases hname : n.name = bytes "item" ∨ n.name = bytes "opf:item"
      · rw [if_pos hname, if_neg (hn hname)]
        exact hr
      · rw [if_neg hname]
        exact hr

theorem cover_by_id_none (nodes : List xml_node)
    (h : ∀ n ∈ nodes, n.name = bytes "item" ∨ n.name = bytes "opf:item" →
      ¬ ((n.attr (bytes "id") = some (bytes "cover-image") ∨
            n.attr (bytes "id") = some (bytes "cover")) ∧
          (n.attr (bytes "href")).isSome)) :
    cover_by_id nodes = none := by
  induction nodes with
  | nil => rfl
  | cons n rest ih =>
      have hr := ih fun m hm => h m (List.mem_cons_of_mem _ hm)
      have hn := h n (List.mem_cons_self _ _)
      rw [cover_by_id]
      by_cases hname : n.name = bytes "item" ∨ n.name = bytes "opf:item"
      · rw [if_pos hname, if_neg (hn hname)]
        exact hr
      · rw [if_neg hname]
        exact hr

/-- C25 (counterexample): while no file is open, `EPub::get_cover_filename` returns the
null pointer. -/
theorem get_cover_filename_null_when_closed :
    get_cover_filename false opf_cover_example = none := by
  decide

/-- C25 (amended): while a file is open, `EPub::get_cover_filename` returns a string,
never null, and the string is empty when no manifest item with an `href` has an `id`
or `properties` equal to the metadata cover pointer and no manifest item with an
`href` has the `id` `cover-image` or `cover`. -/
theorem get_cover_filename_open (opf : xml_node) :
    (∃ s, get_cover_filename true opf = some s) ∧
    ((∀ itemref, cover_pointer opf = some itemref →
        ∀ n ∈ manifest_children opf, n.name = bytes "item" ∨ n.name = bytes "opf:item" →
          ¬ ((n.attr (bytes "id") = some itemref ∨
                n.attr (bytes "properties") = some itemref) ∧
              (n.attr (bytes "href")).isSome)) →
      (∀ n ∈ manifest_children opf, n.name = bytes "item" ∨ n.name = bytes "opf:item" →
          ¬ ((n.attr (bytes "id") = some (bytes "cover-image") ∨
                n.attr (bytes "id") = some (bytes "cover")) ∧
              (n.attr (bytes "href")).isSome)) →
      get_cover_filename true opf = some []) := by
  constructor
  · unfold get_cover_filename
    simp only [Bool.not_true, Bool.false_eq_true, if_false]
    cases (match cover_pointer opf with
      | some itemref => cover_by_pointer itemref (manifest_children opf)
      | none => none) with
    | some f => exact ⟨f, rfl⟩
    | none =>
        cases cover_by_id (manifest_children opf) with
        | some f => exact ⟨f, rfl⟩
        | none => exact ⟨[], rfl⟩
  · intro h1 h2
    have hid := cover_by_id_none (manifest_children opf) h2
    unfold get_cover_filename
    simp only [Bool.not_true, Bool.false_eq_true, if_false]
    cases hp : cover_pointer opf with
    | none => simp only [hid]
    | some itemref =>
        have := cover_by_pointer_none itemref (manifest_children opf) (h1 itemref hp)
        simp only [this, hid]

theorem get_cover_filename_open_witness :
    get_cover_filename true opf_cover_example = some [] :=
  (get_cover_filename_open opf_cover_example).2 (by decide) (by decide)

/-! ## Marker blanking -/

theorem starts_with_iff (needle : List Nat) :
    ∀ l : List Nat, starts_with needle l = true ↔ l.take needle.length = needle := by
  induction needle with
  | nil => intro l; simp [starts_with]
  | cons a as ih =>
      intro l
      cases l with
      | nil => simp [starts_with]
      | cons b bs =>
          simp only [starts_with, Bool.and_eq_true, decide_eq_true_eq, List.length_cons,
            List.take_succ_cons, List.cons.injEq, ih bs]
          constructor
          · rintro ⟨h1, h2⟩; exact ⟨h1.symm, h2⟩
          · rintro ⟨h1, h2⟩; exact ⟨h1.symm, h2⟩

theorem occurs_at_zero_iff (needle l : List Nat) :
    occurs_at needle l 0 ↔ starts_with needle l = true := by
  rw [starts_with_iff]
  simp [occurs_at]

theorem occurs_at_succ (needle : List Nat) (c : Nat) (l : List Nat) (p : Nat) :
    occurs_at needle (c :: l) (p + 1) ↔ occurs_at needle l p := by
  simp [occurs_at]

theorem occurs_at_nil (needle : List Nat) (p : Nat) (h : needle ≠ []) :
    ¬ occurs_at needle [] p := by
  intro h1
  simp [occurs_at] at h1
  exact h h1

/-- The bytes of an occurrence, position by position. -/
theorem occurs_at_iff_getElem (needle d : List Nat) (p : Nat) :
    occurs_at needle d p ↔ ∀ k, k < needle.length → d[p + k]? = needle[k]? := by
  unfold occurs_at
  constructor
  · intro h k hk
    have h1 : ((d.drop p).take needle.length)[k]? = needle[k]? := by rw [h]
    rw [List.getElem?_take_of_lt hk, List.getElem?_drop] at h1
    exact h1
  · intro h
    apply List.ext_getElem?
    intro k
    by_cases hk : k < needle.length
    · rw [List.getElem?_take_of_lt hk, List.getElem?_drop]
      exact h k hk
    · rw [List.getElem?_eq_none (by simp; omega), List.getElem?_eq_none (by omega)]

/-- What `strstr` finds is an occurrence with no 0 byte before it. -/
theorem strstr_some (needle : List Nat) :
    ∀ (d : List Nat) (p : Nat), strstr needle d = some p →
      occurs_at needle d p ∧ ∀ j, j < p → d[j]? ≠ some 0 := by
  intro d
  induction d with
  | nil =>
      intro p h
      simp only [strstr] at h
      split at h
      · rename_i hn
        simp only [Option.some.injEq] at h
        subst h
        exact ⟨by simp [occurs_at, hn], fun j hj => absurd hj (Nat.not_lt_zero _)⟩
      · exact absurd h (by simp)
  | cons c rest ih =>
      intro p h
      simp only [strstr] at h
      split at h
      · rename_i hs
        simp only [Option.some.injEq] at h
        subst h
        exact ⟨(occurs_at_zero_iff _ _).2 hs, fun j hj => absurd hj (Nat.not_lt_zero _)⟩
      · split at h
        · exact absurd h (by simp)
        · rename_i hc
          cases hr : strstr needle rest with
          | none => simp [hr] at h
          | some q =>
              simp only [hr, Option.map_some', Option.some.injEq] at h
              subst h
              obtain ⟨h1, h2⟩ := ih q hr
              refine ⟨(occurs_at_succ _ _ _ _).2 h1, ?_⟩
              intro j hj
              cases j with
              | zero => simpa using hc
              | succ j => simpa using h2 j (by omega)

/-- When `strstr` finds nothing, the string has no occurrence. -/
theorem strstr_none (needle : List Nat) (hne : needle ≠ []) :
    ∀ (d : List Nat), strstr needle d = none →
      ∀ p, (∀ j, j < p → d[j]? ≠ some 0) → ¬ occurs_at needle d p := by
  intro d
  induction d with
  | nil => intro _ p _; exact occurs_at_nil needle p hne
  | cons c rest ih =>
      intro h p hz
      simp only [strstr] at h
      split at h
      · exact absurd h (by simp)
      · rename_i hs
        cases p with
        | zero =>
            intro ho
            exact hs ((occurs_at_zero_iff _ _).1 ho)
        | succ q =>
            have hc : c ≠ 0 := by
              have := hz 0 (by omega)
              simpa using this
            rw [if_neg hc] at h
            have hr : strstr needle rest = none := by
              cases hr : strstr needle rest with
              | none => rfl
              | some q => simp [hr] at h
            rw [occurs_at_succ]
            exact ih hr q fun j hj => by
              have := hz (j + 1) (by omega)
              simpa using this

/-- An occurrence in the string of a buffer is an occurrence in the buffer with no 0
byte before it. -/
theorem occurs_at_c_str (needle : List Nat) (hne : needle ≠ []) :
    ∀ (d : List Nat) (p : Nat), occurs_at needle (c_str d) p →
      occurs_at needle d p ∧ ∀ j, j < p → d[j]? ≠ some 0 := by
  have hsw : ∀ (n l : List Nat), n ≠ [] → starts_with n (c_str l) = true →
      starts_with n l = true := by
    intro n
    induction n with
    | nil => intro l _ _; simp [starts_with]
    | cons a as ih =>
        intro l _ h
        cases l with
        | nil => simp [c_str, starts_with] at h
        | cons b bs =>
            by_cases hb : b = 0
            · subst hb
              simp [c_str, starts_with] at h
            · have hc : c_str (b :: bs) = b :: c_str bs := by
                simp [c_str, List.takeWhile_cons, hb]
              rw [hc] at h
              simp only [starts_with, Bool.and_eq_true, decide_eq_true_eq] at h ⊢
              refine ⟨h.1, ?_⟩
              by_cases has : as = []
              · subst has; simp [starts_with]
              · exact ih bs has h.2
  intro d
  induction d with
  | nil => intro p h; exact absurd h (by simpa [c_str] using occurs_at_nil needle p hne)
  | cons c rest ih =>
      intro p h
      by_cases hc0 : c = 0
      · subst hc0
        exact absurd h (by simpa [c_str] using occurs_at_nil needle p hne)
      · have hc : c_str (c :: rest) = c :: c_str rest := by
          simp [c_str, List.takeWhile_cons, hc0]
        cases p with
        | zero =>
            refine ⟨?_, fun j hj => absurd hj (Nat.not_lt_zero _)⟩
            rw [occurs_at_zero_iff] at h ⊢
            exact hsw needle _ hne h
        | succ q =>
            rw [hc, occurs_at_succ] at h
            obtain ⟨h1, h2⟩ := ih q h
            refine ⟨(occurs_at_succ _ _ _ _).2 h1, ?_⟩
            intro j hj
            cases j with
            | zero => simpa using hc0
            | succ j => simpa using h2 j (by omega)

theorem blank_at_length (d : List Nat) (p skip : Nat) :
    (blank_at d p skip).length = d.length := by
  simp [blank_at]

theorem set_space_getElem (l : List Nat) (j i : Nat) :
    (l.set j 32)[i]? = if i = j ∧ i < l.length then some 32 else l[i]? := by
  rw [List.getElem?_set]
  by_cases h : j = i
  · subst h
    by_cases hl : j < l.length
    · simp [hl]
    · simp [hl, List.getElem?_eq_none (Nat.le_of_not_lt hl)]
  · have h2 : ¬ i = j := fun e => h e.symm
    simp [h, h2]

/-- The bytes after one blanking step. -/
theorem blank_at_getElem (d : List Nat) (p skip i : Nat) :
    (blank_at d p skip)[i]? =
      if (i = p ∨ i = p + 1 ∨ i = p + 1 + skip ∨ i = p + 1 + skip + 1) ∧ i < d.length then
        some 32
      else d[i]? := by
  unfold blank_at
  simp only [set_space_getElem, List.length_set]
  split_ifs <;> first | rfl | (exfalso; omega)

theorem count_set_le (l : List Nat) : ∀ i : Nat, (l.set i 32).count 47 ≤ l.count 47 := by
  induction l with
  | nil => intro i; simp
  | cons a l ih =>
      intro i
      cases i with
      | zero =>
          simp only [List.set_cons_zero, List.count_cons]
          simp
      | succ i =>
          simp only [List.set_cons_succ, List.count_cons]
          have := ih i
          omega

theorem count_set_lt (l : List Nat) :
    ∀ i : Nat, l[i]? = some 47 → (l.set i 32).count 47 < l.count 47 := by
  induction l with
  | nil => intro i h; simp at h
  | cons a l ih =>
      intro i h
      cases i with
      | zero =>
          simp only [List.getElem?_cons_zero, Option.some.injEq] at h
          subst h
          simp [List.count_cons]
      | succ i =>
          simp only [List.getElem?_cons_succ] at h
          simp only [List.set_cons_succ, List.count_cons]
          have := ih i h
          omega

theorem blank_at_count (d : List Nat) (p skip : Nat) (h : d[p]? = some 47) :
    (blank_at d p skip).count 47 < d.count 47 := by
  unfold blank_at
  have h1 := count_set_lt d p h
  have h2 := count_set_le (d.set p 32) (p + 1)
  have h3 := count_set_le ((d.set p 32).set (p + 1) 32) (p + 1 + skip)
  have h4 := count_set_le (((d.set p 32).set (p + 1) 32).set (p + 1 + skip) 32)
    (p + 1 + skip + 1)
  omega

theorem blanked_refl (data : List Nat) : blanked data data :=
  ⟨rfl, fun _ => Or.inl rfl⟩

/-- An occurrence of a string without spaces in a blanked buffer is an occurrence in
the original buffer. -/
theorem blanked_occurs (m data d : List Nat) (p : Nat) (h32 : 32 ∉ m)
    (hb : blanked data d) (ho : occurs_at m d p) : occurs_at m data p := by
  rw [occurs_at_iff_getElem] at ho ⊢
  intro k hk
  rcases hb.2 (p + k) with h | ⟨h, _⟩
  · rw [← h]
    exact ho k hk
  · have h1 := ho k hk
    rw [h] at h1
    have hmem : 32 ∈ m := List.getElem?_mem h1.symm
    exact absurd hmem h32

/-- A position inside an occurrence of a marker does not hold a 0 byte. -/
theorem in_marker_ne_zero (data : List Nat) (i : Nat) (h : in_marker data i) :
    data[i]? ≠ some 0 := by
  obtain ⟨p, hp, h1⟩ := h
  intro h0
  rcases h1 with ⟨ho, hi⟩ | ⟨ho, hi⟩
  · rw [occurs_at_iff_getElem] at ho
    have h2 := ho (i - p) (by
      have : cdata_open.length = 13 := by decide
      omega)
    rw [show p + (i - p) = i by omega, h0] at h2
    have hmem : 0 ∈ cdata_open := List.getElem?_mem h2.symm
    exact absurd hmem (by decide)
  · rw [occurs_at_iff_getElem] at ho
    have h2 := ho (i - p) (by
      have : cdata_close.length = 7 := by decide
      omega)
    rw [show p + (i - p) = i by omega, h0] at h2
    have hmem : 0 ∈ cdata_close := List.getElem?_mem h2.symm
    exact absurd hmem (by decide)

/-- One blanking step at an occurrence keeps the buffer a blanked form of the
original. -/
theorem blanked_step (m data d : List Nat) (p skip : Nat)
    (hlen : m.length = skip + 3) (h32 : 32 ∉ m)
    (hcov : ∀ i, occurs_at m data p → p ≤ i → i < p + m.length → in_marker data i)
    (hb : blanked data d) (ho : occurs_at m d p) : blanked data (blank_at d p skip) := by
  have hod := blanked_occurs m data d p h32 hb ho
  refine ⟨by rw [blank_at_length, hb.1], ?_⟩
  intro i
  rw [blank_at_getElem]
  split
  · rename_i hc
    exact Or.inr ⟨rfl, hcov i hod (by omega) (by omega)⟩
  · exact hb.2 i

/-- The blanking loop ends, with a buffer in which `strstr` finds no marker and which is
a blanked form of every buffer that the start buffer is a blanked form of. -/
theorem blank_loop_spec (m : List Nat) (skip : Nat)
    (hlen : m.length = skip + 3) (hhead : m[0]? = some 47) (h32 : 32 ∉ m)
    (hcov : ∀ data p i, occurs_at m data p → p ≤ i → i < p + m.length → in_marker data i) :
    ∀ (fuel : Nat) (d : List Nat), d.count 47 < fuel →
      ∃ r, blank_loop m skip fuel d = some r ∧ strstr m r = none ∧
        ∀ data, blanked data d → blanked data r := by
  intro fuel
  induction fuel with
  | zero => intro d h; exact absurd h (Nat.not_lt_zero _)
  | succ fuel ih =>
      intro d hfuel
      cases hs : strstr m d with
      | none => exact ⟨d, by simp [blank_loop, hs], hs, fun _ h => h⟩
      | some p =>
          obtain ⟨ho, _⟩ := strstr_some m d p hs
          have hp : d[p]? = some 47 := by
            have := (occurs_at_iff_getElem m d p).1 ho 0 (by omega)
            rw [Nat.add_zero, hhead] at this
            exact this
          have hc := blank_at_count d p skip hp
          obtain ⟨r, h1, h2, h3⟩ := ih (blank_at d p skip) (by omega)
          refine ⟨r, by simp [blank_loop, hs, h1], h2, ?_⟩
          intro data hb
          exact h3 data (blanked_step m data d p skip hlen h32 (hcov data p) hb ho)

/-- Blanking creates no occurrence in the string of the buffer. -/
theorem blanked_no_occurrence (m a b : List Nat) (h32 : 32 ∉ m) (hb : blanked a b)
    (ha : ∀ p, (∀ j, j < p → a[j]? ≠ some 0) → ¬ occurs_at m a p) :
    ∀ p, (∀ j, j < p → b[j]? ≠ some 0) → ¬ occurs_at m b p := by
  intro p hz ho
  refine ha p ?_ (blanked_occurs m a b p h32 hb ho)
  intro j hj h0
  rcases hb.2 j with h | ⟨_, h⟩
  · exact hz j hj (by rw [h, h0])
  · exact in_marker_ne_zero a j h h0

theorem blanked_no_zero (a b : List Nat) (hb : blanked a b) (h0 : 0 ∉ a) : 0 ∉ b := by
  intro hmem
  obtain ⟨i, hi⟩ := List.getElem?_of_mem hmem
  rcases hb.2 i with h | ⟨h, _⟩
  · rw [hi] at h
    exact h0 (List.getElem?_mem h.symm)
  · rw [hi] at h
    simp at h

/-- The two blanking loops of `EPub::get_item` on an arbitrary buffer. -/
theorem blank_markers_blanked (data : List Nat) :
    ∃ r, blank_markers data = some r ∧ blanked data r ∧
      (∀ p, ¬ occurs_at cdata_open (c_str r) p) ∧
      (∀ p, ¬ occurs_at cdata_close (c_str r) p) := by
  have hcov1 : ∀ data p i, occurs_at cdata_open data p → p ≤ i →
      i < p + cdata_open.length → in_marker data i := by
    intro data p i ho h1 h2
    exact ⟨p, h1, Or.inl ⟨ho, by
      have : cdata_open.length = 13 := by decide
      omega⟩⟩
  have hcov2 : ∀ data p i, occurs_at cdata_close data p → p ≤ i →
      i < p + cdata_close.length → in_marker data i := by
    intro data p i ho h1 h2
    exact ⟨p, h1, Or.inr ⟨ho, by
      have : cdata_close.length = 7 := by decide
      omega⟩⟩
  obtain ⟨r1, h1, hn1, hb1⟩ := blank_loop_spec cdata_open 10 (by decide) (by decide)
    (by decide) hcov1 (data.length + 1) data
    (Nat.lt_succ_of_le (List.count_le_length _ _))
  obtain ⟨r2, h2, hn2, hb2⟩ := blank_loop_spec cdata_close 4 (by decide) (by decide)
    (by decide) hcov2 (r1.length + 1) r1
    (Nat.lt_succ_of_le (List.count_le_length _ _))
  refine ⟨r2, by simp [blank_markers, h1, h2], hb2 data (hb1 data (blanked_refl data)), ?_, ?_⟩
  · intro p ho
    obtain ⟨ho2, hz⟩ := occurs_at_c_str cdata_open (by decide) r2 p ho
    exact blanked_no_occurrence cdata_open r1 r2 (by decide) (hb2 r1 (blanked_refl r1))
      (strstr_none cdata_open (by decide) r1 hn1) p hz ho2
  · intro p ho
    obtain ⟨ho2, hz⟩ := occurs_at_c_str cdata_close (by decide) r2 p ho
    exact strstr_none cdata_close (by decide) r2 hn2 p hz ho2

/-! ## Claims on the marker blanking -/

/-- C21 (counterexample): in the document buffer `buffer_nul_example` the marker
`/*]]>*/` stands at position 4, behind a 0 byte; `strstr` ends its search at the 0
byte, so the blanking of `EPub::get_item` leaves the buffer as it is and the result
still contains the marker. -/
theorem blank_markers_keeps_marker_after_nul :
    blank_markers buffer_nul_example = some buffer_nul_example ∧
    occurs_at cdata_close buffer_nul_example 4 := by
  decide

/-- C21 (amended): for every document buffer the two blanking loops of `EPub::get_item`
end; the result has the same byte length; every byte that differs from the original
is a space at a position inside an occurrence of `/*<![CDATA[*/` or `/*]]>*/` in the
original; and the string of the result, up to its first 0 byte, contains no occurrence
of either marker, so a result without 0 byte contains none at all. -/
theorem blank_markers_preserves_offsets (data : List Nat) :
    ∃ r, blank_markers data = some r ∧ r.length = data.length ∧
      (∀ i, r[i]? ≠ data[i]? → r[i]? = some 32 ∧ in_marker data i) ∧
      (∀ p, ¬ occurs_at cdata_open (c_str r) p) ∧
      (∀ p, ¬ occurs_at cdata_close (c_str r) p) ∧
      (0 ∉ data → ∀ p, ¬ occurs_at cdata_open r p ∧ ¬ occurs_at cdata_close r p) := by
  obtain ⟨r, h1, hb, h3, h4⟩ := blank_markers_blanked data
  refine ⟨r, h1, hb.1, ?_, h3, h4, ?_⟩
  · intro i hne
    rcases hb.2 i with h | h
    · exact absurd h hne
    · exact h
  · intro h0 p
    have hr : c_str r = r := c_str_of_no_zero r (blanked_no_zero data r hb h0)
    rw [hr] at h3 h4
    exact ⟨h3 p, h4 p⟩

theorem blank_markers_preserves_offsets_witness :
    ∃ r, blank_markers buffer_example = some r ∧ r.length = buffer_example.length ∧
      (∀ i, r[i]? ≠ buffer_example[i]? → r[i]? = some 32 ∧ in_marker buffer_example i) ∧
      (∀ p, ¬ occurs_at cdata_open (c_str r) p) ∧
      (∀ p, ¬ occurs_at cdata_close (c_str r) p) ∧
      (0 ∉ buffer_example → ∀ p, ¬ occurs_at cdata_open r p ∧ ¬ occurs_at cdata_close r p) :=
  blank_markers_preserves_offsets buffer_example




/-! ## Claims on the session -/

/-- C22: when the single-argument `EPub::get_item_at_index(i)` has returned true, the
call `get_item_at_index(i)` that follows returns true and leaves the whole state as it
is: the resident item (buffer, parsed view, style lists, index) is unchanged and the
counter of archive reads has not moved. -/
theorem get_item_at_index_cached (w : World) (s s1 : EPub) (i : Int)
    (h : get_item_at_index w s i = some (true, s1)) :
    get_item_at_index w s1 i = some (true, s1) ∧
    (get_item_at_index w s1 i).map (fun r => r.2.loader.reads) = some s1.loader.reads := by
  have key : s1.file_is_open = true ∧ s1.current_item_info.itemref_index = i := by
    unfold get_item_at_index at h
    by_cases hopen : s.file_is_open = true
    · simp only [hopen, Bool.not_true, Bool.false_eq_true, if_false] at h
      by_cases hidx : s.current_item_info.itemref_index = i
      · rw [if_pos hidx] at h
        have hs : s = s1 := (Prod.mk.inj (Option.some.inj h)).2
        rw [← hs]
        exact ⟨hopen, hidx⟩
      · rw [if_neg hidx] at h
        cases hsp : spine_node_loop i (spine_children s.package.opf) 0 0 with
        | none => simp [hsp] at h
        | some r =>
            obtain ⟨pos, node⟩ := r
            simp only [hsp] at h
            split at h
            · cases hg : get_item w s.package true node s.loader s.current_item_info with
              | none => simp [hg] at h
              | some r2 =>
                  obtain ⟨res, ld, item⟩ := r2
                  simp only [hg, Option.some.injEq, Prod.mk.injEq] at h
                  obtain ⟨_, hs⟩ := h
                  rw [← hs]
                  exact ⟨rfl, rfl⟩
            · simp at h
    · have hc : s.file_is_open = false := by simpa using hopen
      simp [hc] at h
  have h2 : get_item_at_index w s1 i = some (true, s1) := by
    unfold get_item_at_index
    simp [key.1, key.2]
  exact ⟨h2, by rw [h2]; rfl⟩

theorem get_item_at_index_cached_witness :
    get_item_at_index world_example epub_loaded_example 0 = some (true, epub_loaded_example) ∧
    (get_item_at_index world_example epub_loaded_example 0).map (fun r => r.2.loader.reads) =
      some epub_loaded_example.loader.reads :=
  get_item_at_index_cached world_example epub_open_example epub_loaded_example 0 rfl

/-- C23: for an archive in which `META-INF/container.xml` is absent, `EPub::open_file`
returns false and leaves `file_is_open` false, and a following `close_file()` returns
true without changing the state; but the archive that `open_zip_file` has opened for
the attempt is still open afterwards: `open_file` returns after `get_opf_filename`
without a call of `close_zip_file`, which only the failure of `get_opf` is followed
by. -/
theorem open_file_without_container (w : World) (s : EPub) (epub_filename : List Nat)
    (files : List (List Nat × List Nat)) (mimetype : List Nat)
    (hnew : ¬ (s.file_is_open = true ∧ s.current_filename = epub_filename))
    (hdisk : w.disk (c_str epub_filename) = some files)
    (hmime : archive_file files (bytes "mimetype") = some mimetype)
    (hepub : mimetype.take 20 = bytes "application/epub+zip")
    (hnone : archive_file files (bytes "META-INF/container.xml") = none) :
    (open_file w s epub_filename).1 = false ∧
    (open_file w s epub_filename).2.file_is_open = false ∧
    (open_file w s epub_filename).2.loader.zip = some files ∧
    (close_file (open_file w s epub_filename).2).1 = true ∧
    (close_file (open_file w s epub_filename).2).2.loader.zip = some files := by
  have hclosed : ∀ s0 : EPub, s0.file_is_open = false →
      ¬ (s0.file_is_open = true ∧ s0.current_filename = epub_filename) →
      open_file w s0 epub_filename =
        (false, { s0 with loader := { s0.loader with zip := some files,
                                                     reads := s0.loader.reads + 1 + 1 } }) := by
    intro s0 h0 hn
    unfold open_file
    rw [if_neg hn]
    simp only [h0, Bool.false_eq_true, if_false, Loader.open_zip_file, hdisk, check_mimetype,
      Loader.get_file, Loader.lookup, hmime, hepub, decide_True, get_opf_filename, hnone]
  have hfinal : ∀ s0 : EPub, s0.file_is_open = false →
      open_file w s epub_filename = open_file w s0 epub_filename →
      (open_file w s epub_filename).1 = false ∧
      (open_file w s epub_filename).2.file_is_open = false ∧
      (open_file w s epub_filename).2.loader.zip = some files ∧
      (close_file (open_file w s epub_filename).2).1 = true ∧
      (close_file (open_file w s epub_filename).2).2.loader.zip = some files := by
    intro s0 h0 hstep
    rw [hstep, hclosed s0 h0 (by rw [h0]; simp)]
    simp [close_file, h0]
  by_cases hopen : s.file_is_open = true
  · have hcl : (close_file s).2.file_is_open = false := by
      simp [close_file, hopen]
    refine hfinal (close_file s).2 hcl ?_
    have hn2 : ¬ ((close_file s).2.file_is_open = true ∧
        (close_file s).2.current_filename = epub_filename) := by
      rw [hcl]; simp
    conv_lhs => unfold open_file
    conv_rhs => unfold open_file
    rw [if_neg hnew, if_neg hn2]
    simp only [hopen, if_true, hcl, Bool.false_eq_true, if_false]
  · have h0 : s.file_is_open = false := by simpa using hopen
    exact hfinal s h0 rfl

theorem open_file_without_container_witness :
    (open_file world_example epub_loaded_example (bytes "bare.epub")).1 = false ∧
    (open_file world_example epub_loaded_example (bytes "bare.epub")).2.file_is_open = false ∧
    (open_file world_example epub_loaded_example (bytes "bare.epub")).2.loader.zip =
      some [(bytes "mimetype", bytes "application/epub+zip")] ∧
    (close_file (open_file world_example epub_loaded_example (bytes "bare.epub")).2).1 = true ∧
    (close_file (open_file world_example epub_loaded_example
      (bytes "bare.epub")).2).2.loader.zip =
      some [(bytes "mimetype", bytes "application/epub+zip")] :=
  open_file_without_container world_example epub_loaded_example (bytes "bare.epub")
    [(bytes "mimetype", bytes "application/epub+zip")] (bytes "application/epub+zip")
    (by decide) (by decide) (by decide) (by decide) (by decide)

/-- C27: on the session `epub_open_example`, fresh from a successful
`open_file("book.epub")` with two spine children, the single-argument
`EPub::get_item_at_index(-1)` returns true although -1 is no spine position and no
item is resident (`data` is null): `open_file` has left `itemref_index` at -1 and the
function returns true as soon as the index equals the argument.  And
`get_item_at_index(1)`, whose manifest item is missing, returns false and leaves
`itemref_index` at 1 with null `data`, so the same call returns true when it is
repeated, without a read of the archive and with no item resident. -/
theorem get_item_at_index_true_without_item :
    (open_file world_example epub_new (bytes "book.epub")).1 = true ∧
    (spine_children epub_open_example.package.opf).length = 2 ∧
    (get_item_at_index world_example epub_open_example (-1)).map
        (fun r => (r.1, r.2.current_item_info.data, r.2.current_item_info.itemref_index)) =
      some (true, none, -1) ∧
    (get_item_at_index world_example epub_open_example 1).map
        (fun r => (r.1, r.2.current_item_info.data, r.2.current_item_info.itemref_index)) =
      some (false, none, 1) ∧
    ((get_item_at_index world_example epub_open_example 1).bind fun r0 =>
        (get_item_at_index world_example r0.2 1).map fun r =>
          (r.1, r.2.current_item_info.data, r.2.current_item_info.itemref_index,
            decide (r.2.loader.reads = r0.2.loader.reads))) =
      some (true, none, 1, true) := by
  decide

/-! ## The font budget -/

/-- With the flag set, `retrieve_fonts_from_css` returns at once. -/
theorem retrieve_fonts_of_flag (w : World) (pkg : Package) (css : CSS) (ld : Loader)
    (h : ld.fonts_size_too_large = true) : retrieve_fonts_from_css w pkg css ld = some ld := by
  unfold retrieve_fonts_from_css
  by_cases hu : w.use_epub_fonts = true
  · simp [hu, h]
  · simp [hu]

/-- `load_font` never clears the flag. -/
theorem load_font_keeps_flag (w : World) (pkg : Package) (ld : Loader)
    (filename font_family : List Nat) (style : Nat) (h : ld.fonts_size_too_large = true) :
    (load_font w pkg ld filename font_family style).2.fonts_size_too_large = true := by
  unfold load_font
  simp only [Loader.get_file]
  split_ifs <;> first | exact h | rfl | skip
  all_goals
    cases ld.lookup (c_str filename) with
    | none => exact h
    | some buffer =>
        simp only
        split_ifs <;> exact h

theorem retrieve_file_loader (pkg : Package) (ld : Loader) (fname : List Nat)
    (d : Option (List Nat)) (ld2 : Loader) (h : retrieve_file pkg ld fname = some (d, ld2)) :
    ld2 = { ld with reads := ld.reads + 1 } := by
  unfold retrieve_file at h
  cases hl : filename_locate pkg.opf_base_path (c_str fname) with
  | none => simp [hl] at h
  | some filename =>
      simp only [hl, Loader.get_file, Option.some.injEq, Prod.mk.injEq] at h
      exact h.2.symm

/-- With the flag set, the loop over the `link` elements leaves the font registry, the
size of the fonts and the flag as they are. -/
theorem css_link_loop_fonts (w : World) (pkg : Package) (nodes : List xml_node) :
    ∀ (ld : Loader) (item : ItemInfo) (ld1 : Loader) (item1 : ItemInfo),
      ld.fonts_size_too_large = true →
      css_link_loop w pkg nodes ld item = some (ld1, item1) →
      ld1.fonts = ld.fonts ∧ ld1.fonts_size = ld.fonts_size ∧
        ld1.fonts_size_too_large = true := by
  induction nodes with
  | nil =>
      intro ld item ld1 item1 hf h
      simp only [css_link_loop, Option.some.injEq, Prod.mk.injEq] at h
      rw [← h.1]
      exact ⟨rfl, rfl, hf⟩
  | cons node rest ih =>
      intro ld item ld1 item1 hf h
      rw [css_link_loop] at h
      by_cases hc : node.name = bytes "link" ∧ node.attr (bytes "type") = some (bytes "text/css")
      · rw [if_pos hc] at h
        cases hhref : node.attr (bytes "href") with
        | none =>
            simp only [hhref] at h
            exact ih _ _ _ _ hf h
        | some css_id =>
            simp only [hhref] at h
            cases hfind : ld.css_cache.find? fun c => decide (c.id = css_id) with
            | some css =>
                simp only [hfind] at h
                exact ih _ _ _ _ hf h
            | none =>
                simp only [hfind] at h
                cases hr : retrieve_file pkg ld (item.file_path ++ c_str css_id) with
                | none => simp [hr] at h
                | some r =>
                    obtain ⟨d, ld2⟩ := r
                    have hld2 := retrieve_file_loader pkg ld _ d ld2 hr
                    have hf2 : ld2.fonts_size_too_large = true := by rw [hld2]; exact hf
                    cases d with
                    | none =>
                        simp only [hr] at h
                        have := ih ld2 _ _ _ hf2 h
                        rw [hld2] at this
                        exact this
                    | some data =>
                        simp only [hr, retrieve_fonts_of_flag w pkg _ ld2 hf2] at h
                        have := ih _ _ _ _
                          (show ({ ld2 with css_cache := ld2.css_cache ++
                            [⟨css_id, extract_path (item.file_path ++ c_str css_id), data⟩] } :
                              Loader).fonts_size_too_large = true from hf2) h
                        rw [hld2] at this
                        exact this
      · rw [if_neg hc] at h
        exact ih _ _ _ _ hf h

theorem css_style_loop_fonts (w : World) (pkg : Package) (nodes : List xml_node) :
    ∀ (ld : Loader) (item : ItemInfo) (ld1 : Loader) (item1 : ItemInfo),
      ld.fonts_size_too_large = true →
      css_style_loop w pkg nodes ld item = some (ld1, item1) → ld1 = ld := by
  induction nodes with
  | nil =>
      intro ld item ld1 item1 _ h
      simp only [css_style_loop, Option.some.injEq, Prod.mk.injEq] at h
      exact h.1.symm
  | cons node rest ih =>
      intro ld item ld1 item1 hf h
      rw [css_style_loop] at h
      by_cases hc : node.name = bytes "style"
      · rw [if_pos hc] at h
        simp only [retrieve_fonts_of_flag w pkg _ ld hf] at h
        exact ih _ _ _ _ hf h
      · rw [if_neg hc] at h
        exact ih _ _ _ _ hf h

theorem retrieve_css_fonts (w : World) (pkg : Package) (ld : Loader) (item : ItemInfo)
    (ld1 : Loader) (item1 : ItemInfo) (hf : ld.fonts_size_too_large = true)
    (h : retrieve_css w pkg ld item = some (ld1, item1)) :
    ld1.fonts = ld.fonts ∧ ld1.fonts_size = ld.fonts_size ∧
      ld1.fonts_size_too_large = true := by
  unfold retrieve_css at h
  cases h1 : css_link_loop w pkg (head_children item.xml_doc) ld item with
  | none => simp [h1] at h
  | some r1 =>
      obtain ⟨lda, itema⟩ := r1
      have ha := css_link_loop_fonts w pkg _ ld item lda itema hf h1
      simp only [h1] at h
      cases h2 : css_style_loop w pkg (head_children itema.xml_doc) lda itema with
      | none => simp [h2] at h
      | some r2 =>
          obtain ⟨ldb, itemb⟩ := r2
          have hb := css_style_loop_fonts w pkg _ lda itema ldb itemb ha.2.2 h2
          simp only [h2, Option.some.injEq, Prod.mk.injEq] at h
          rw [← h.1, hb]
          exact ha

/-- With the flag set, `get_item` leaves the font registry, the size of the fonts and
the flag as they are. -/
theorem get_item_fonts (w : World) (pkg : Package) (file_is_open : Bool) (itemref : xml_node)
    (ld : Loader) (item : ItemInfo) (res : Bool) (ld1 : Loader) (item1 : ItemInfo)
    (hf : ld.fonts_size_too_large = true)
    (h : get_item w pkg file_is_open itemref ld item = some (res, ld1, item1)) :
    ld1.fonts = ld.fonts ∧ ld1.fonts_size = ld.fonts_size ∧
      ld1.fonts_size_too_large = true := by
  have hsame : ∀ {r : Bool} {l2 : Loader} {i2 : ItemInfo},
      l2.fonts = ld.fonts ∧ l2.fonts_size = ld.fonts_size ∧ l2.fonts_size_too_large = true →
      some (r, l2, i2) = some (res, ld1, item1) →
      ld1.fonts = ld.fonts ∧ ld1.fonts_size = ld.fonts_size ∧
        ld1.fonts_size_too_large = true := by
    intro r l2 i2 hl he
    have : l2 = ld1 := (Prod.mk.inj (Prod.mk.inj (Option.some.inj he)).2).1
    rw [← this]
    exact hl
  have hld : ld.fonts = ld.fonts ∧ ld.fonts_size = ld.fonts_size ∧
      ld.fonts_size_too_large = true := ⟨rfl, rfl, hf⟩
  unfold get_item at h
  by_cases ho : file_is_open = true
  · simp only [ho, Bool.not_true, Bool.false_eq_true, if_false] at h
    cases hm : manifest_item pkg.opf (itemref.attribute_value (bytes "idref")) with
    | none => simp only [hm] at h; exact hsame hld h
    | some node =>
        simp only [hm] at h
        cases hmt : node.attr (bytes "media-type") with
        | none => simp only [hmt] at h; exact hsame hld h
        | some media_type =>
            simp only [hmt] at h
            cases hmo : media_type_of media_type with
            | none => simp only [hmo] at h; exact hsame hld h
            | some m =>
                simp only [hmo] at h
                cases hh : node.attr (bytes "href") with
                | none => simp only [hh] at h; exact hsame hld h
                | some href =>
                    simp only [hh] at h
                    cases hr : retrieve_file pkg ld href with
                    | none => simp [hr] at h
                    | some r =>
                        obtain ⟨d, ld2⟩ := r
                        have hld2 := retrieve_file_loader pkg ld _ d ld2 hr
                        have hl2 : ld2.fonts = ld.fonts ∧ ld2.fonts_size = ld.fonts_size ∧
                            ld2.fonts_size_too_large = true := by
                          rw [hld2]; exact hld
                        cases d with
                        | none => simp only [hr] at h; exact hsame hl2 h
                        | some data =>
                            simp only [hr] at h
                            by_cases hx : m = MediaType.XML
                            · rw [if_pos hx] at h
                              cases hb : blank_markers data with
                              | none => simp [hb] at h
                              | some data1 =>
                                  simp only [hb] at h
                                  cases hp : w.parse data1 with
                                  | none => simp only [hp] at h; exact hsame hl2 h
                                  | some doc =>
                                      simp only [hp] at h
                                      cases hc : retrieve_css w pkg ld2
                                          { clear_item_data item with
                                            media_type := m,
                                            file_path := extract_path (c_str href),
                                            data := some data1, xml_doc := doc } with
                                      | none => simp [hc] at h
                                      | some r3 =>
                                          obtain ⟨ld3, item3⟩ := r3
                                          have h3 := retrieve_css_fonts w pkg ld2 _ ld3 item3
                                            hl2.2.2 hc
                                          simp only [hc] at h
                                          exact hsame ⟨h3.1.trans hl2.1, h3.2.1.trans hl2.2.1,
                                            h3.2.2⟩ h
                            · rw [if_neg hx] at h
                              exact hsame hl2 h
  · have hc : file_is_open = false := by simpa using ho
    simp only [hc, Bool.not_false, if_true] at h
    exact hsame hld h

theorem load_fonts_loop_of_flag (w : World) (pkg : Package) (ld : Loader)
    (h : ld.fonts_size_too_large = true) :
    ∀ sheets : List CSS, load_fonts_loop w pkg sheets ld = some ld := by
  intro sheets
  induction sheets with
  | nil => rfl
  | cons css rest ih => rw [load_fonts_loop, retrieve_fonts_of_flag w pkg css ld h]; exact ih

theorem get_item_at_index_fonts (w : World) (s s1 : EPub) (i : Int) (b : Bool)
    (hf : s.loader.fonts_size_too_large = true)
    (h : get_item_at_index w s i = some (b, s1)) :
    s1.loader.fonts = s.loader.fonts ∧ s1.loader.fonts_size = s.loader.fonts_size ∧
      s1.loader.fonts_size_too_large = true := by
  have hsame : ∀ {r : Bool}, some (r, s) = some (b, s1) →
      s1.loader.fonts = s.loader.fonts ∧ s1.loader.fonts_size = s.loader.fonts_size ∧
        s1.loader.fonts_size_too_large = true := by
    intro r he
    have : s = s1 := (Prod.mk.inj (Option.some.inj he)).2
    rw [← this]
    exact ⟨rfl, rfl, hf⟩
  unfold get_item_at_index at h
  by_cases hopen : s.file_is_open = true
  · simp only [hopen, Bool.not_true, Bool.false_eq_true, if_false] at h
    by_cases hidx : s.current_item_info.itemref_index = i
    · rw [if_pos hidx] at h
      exact hsame h
    · rw [if_neg hidx] at h
      cases hsp : spine_node_loop i (spine_children s.package.opf) 0 0 with
      | none => simp only [hsp] at h; exact hsame h
      | some r =>
          obtain ⟨pos, node⟩ := r
          simp only [hsp] at h
          by_cases hc : s.current_item_info.data.isNone = true ∨ s.current_itemref ≠ some pos
          · rw [if_pos hc] at h
            cases hg : get_item w s.package true node s.loader s.current_item_info with
            | none => simp [hg] at h
            | some r2 =>
                obtain ⟨res, ld, item⟩ := r2
                have h3 := get_item_fonts w s.package true node s.loader _ res ld item hf hg
                simp only [hg, Option.some.injEq, Prod.mk.injEq] at h
                rw [← h.2]
                exact h3
          · rw [if_neg hc] at h
            exact hsame h
  · have hc : s.file_is_open = false := by simpa using hopen
    simp only [hc, Bool.not_false, if_true] at h
    exact hsame h

theorem run_font_op_fonts (w : World) (s s1 : EPub) (op : FontOp)
    (hf : s.loader.fonts_size_too_large = true) (h : run_font_op w s op = some s1) :
    s1.loader.fonts = s.loader.fonts ∧ s1.loader.fonts_size = s.loader.fonts_size ∧
      s1.loader.fonts_size_too_large = true := by
  cases op with
  | retrieve css =>
      simp only [run_font_op, retrieve_fonts_of_flag w s.package css s.loader hf,
        Option.map_some', Option.some.injEq] at h
      rw [← h]
      exact ⟨rfl, rfl, hf⟩
  | load_all =>
      simp only [run_font_op, load_fonts, load_fonts_loop_of_flag w s.package s.loader hf,
        Option.map_some', Option.some.injEq] at h
      rw [← h]
      exact ⟨rfl, rfl, hf⟩
  | item_at i =>
      simp only [run_font_op] at h
      cases hg : get_item_at_index w s i with
      | none => simp [hg] at h
      | some r =>
          obtain ⟨b, s2⟩ := r
          simp only [hg, Option.map_some', Option.some.injEq] at h
          rw [← h]
          exact get_item_at_index_fonts w s s2 i b hf hg

theorem run_font_ops_fonts (w : World) (ops : List FontOp) :
    ∀ (s s1 : EPub), s.loader.fonts_size_too_large = true → run_font_ops w ops s = some s1 →
      s1.loader.fonts = s.loader.fonts ∧ s1.loader.fonts_size = s.loader.fonts_size ∧
        s1.loader.fonts_size_too_large = true := by
  induction ops with
  | nil =>
      intro s s1 hf h
      simp only [run_font_ops, Option.some.injEq] at h
      rw [← h]
      exact ⟨rfl, rfl, hf⟩
  | cons op rest ih =>
      intro s s1 hf h
      rw [run_font_ops] at h
      cases h1 : run_font_op w s op with
      | none => simp [h1] at h
      | some s2 =>
          simp only [h1] at h
          have h2 := run_font_op_fonts w s s2 op hf h1
          have h3 := ih s2 s1 h2.2.2 h
          exact ⟨h3.1.trans h2.1, h3.2.1.trans h2.2.1, h3.2.2⟩

theorem load_font_over_budget (w : World) (pkg : Package) (ld : Loader)
    (filename font_family : List Nat) (style : Nat)
    (hpos : ld.get_file_size (c_str filename) > 0)
    (hover : (ld.fonts_size + ld.get_file_size (c_str filename)) % 4294967296 > 800000) :
    load_font w pkg ld filename font_family style =
      (false, { ld with fonts_size_too_large := true }) := by
  unfold load_font
  simp only [hpos, hover, if_true]

theorem open_file_clears_flag (w : World) (s s1 : EPub) (epub_filename : List Nat)
    (hnew : ¬ (s.file_is_open = true ∧ s.current_filename = epub_filename))
    (h : open_file w s epub_filename = (true, s1)) :
    s1.loader.fonts_size_too_large = false ∧ s1.loader.fonts_size = 0 := by
  unfold open_file at h
  rw [if_neg hnew] at h
  dsimp only at h
  split at h
  · simp at h
  · split at h
    · simp at h
    · split at h
      · simp at h
      · split at h
        · simp at h
        · simp only [Prod.mk.injEq, true_and] at h
          rw [← h]
          exact ⟨rfl, rfl⟩
/-- C24: a font that would take the cumulative size above 800000 bytes makes
`EPub::load_font` set `fonts_size_too_large` and register nothing.  From then on, in
every sequence of operations of the session that can load fonts
(`retrieve_fonts_from_css`, `load_fonts`, `get_item_at_index`) the font registry and
`fonts_size` stay as they are and the flag stays set, whatever the sizes of the fonts:
`retrieve_fonts_from_css`, the only caller of `load_font`, returns at once.  Neither
`load_font` nor `close_file` clears the flag; `open_file` clears it when it opens a
file. -/
theorem fonts_size_too_large_permanent (w : World) :
    (∀ (pkg : Package) (ld : Loader) (filename font_family : List Nat) (style : Nat),
      ld.get_file_size (c_str filename) > 0 →
      (ld.fonts_size + ld.get_file_size (c_str filename)) % 4294967296 > 800000 →
      load_font w pkg ld filename font_family style =
        (false, { ld with fonts_size_too_large := true })) ∧
    (∀ s : EPub, s.loader.fonts_size_too_large = true →
      (∀ ops s1, run_font_ops w ops s = some s1 →
        s1.loader.fonts = s.loader.fonts ∧ s1.loader.fonts_size = s.loader.fonts_size ∧
          s1.loader.fonts_size_too_large = true) ∧
      (∀ css, retrieve_fonts_from_css w s.package css s.loader = some s.loader) ∧
      (∀ filename font_family style,
        (load_font w s.package s.loader filename font_family style).2.fonts_size_too_large =
          true) ∧
      (close_file s).2.loader.fonts_size_too_large = true ∧
      (∀ epub_filename s1,
        ¬ (s.file_is_open = true ∧ s.current_filename = epub_filename) →
        open_file w s epub_filename = (true, s1) →
        s1.loader.fonts_size_too_large = false)) := by
  refine ⟨fun pkg ld filename font_family style h1 h2 =>
    load_font_over_budget w pkg ld filename font_family style h1 h2, ?_⟩
  intro s hf
  refine ⟨fun ops s1 h => run_font_ops_fonts w ops s s1 hf h,
    fun css => retrieve_fonts_of_flag w s.package css s.loader hf,
    fun filename font_family style =>
      load_font_keeps_flag w s.package s.loader filename font_family style hf, ?_,
    fun epub_filename s1 hnew h => (open_file_clears_flag w s s1 epub_filename hnew h).1⟩
  unfold close_file
  by_cases ho : s.file_is_open = true
  · simp [ho, Loader.close_zip_file, hf]
  · have hc : s.file_is_open = false := by simpa using ho
    simp [hc, hf]

theorem fonts_size_too_large_permanent_witness :
    load_font world_fonts_example epub_fonts_example.package epub_fonts_example.loader
        (bytes "big.ttf") (bytes "Big") 0 = (false, epub_flagged_example.loader) ∧
    (load_font world_fonts_example epub_fonts_example.package epub_fonts_example.loader
        (bytes "small.ttf") (bytes "Small") 0).1 = true ∧
    retrieve_fonts_from_css world_fonts_example epub_flagged_example.package
        ⟨bytes "Small", [], bytes "small.ttf"⟩ epub_flagged_example.loader =
      some epub_flagged_example.loader :=
  ⟨(fonts_size_too_large_permanent world_fonts_example).1 epub_fonts_example.package
      epub_fonts_example.loader (bytes "big.ttf") (bytes "Big") 0 (by decide) (by decide),
    by decide,
    ((fonts_size_too_large_permanent world_fonts_example).2 epub_flagged_example rfl).2.1
      ⟨bytes "Small", [], bytes "small.ttf"⟩⟩

end EPubInkPlate
